import Mathlib

/-!
# BOSH service registry (pilot/pkg/serviceregistry/bosh)

A shallow embedding of the virtual-IP allocator (`virtual_ips.go`) and of the
BOSH client (`client.go`), followed by the properties established about them.

Conventions of the embedding:

* a Go `map[K]V` is a list of bindings with one binding per key (`GoMap`);
  reading a missing key gives `none`, writing replaces the binding in place or
  appends a new one;
* a Go `byte` is a `Nat` reduced modulo 256 after every arithmetic operation;
* a Go `(T, error)` result is an `Except String T`, the string being the
  error message;
* a receiver that is mutated is passed in and returned explicitly.
-/

deriving instance DecidableEq for Except

set_option linter.dupNamespace false

namespace Bosh

/-! ## Go maps -/

/-- Bindings of a Go map. -/
abbrev GoMap (κ : Type) (ν : Type) := List (κ × ν)

namespace GoMap

variable {κ ν : Type} [DecidableEq κ]

/-- The read `v, exists := m[k]`. -/
def get? : GoMap κ ν → κ → Option ν
  | [], _ => none
  | (k', v) :: m, k => if k' = k then some v else get? m k

/-- The write `m[k] = v`. -/
def set : GoMap κ ν → κ → ν → GoMap κ ν
  | [], k, v => [(k, v)]
  | (k', v') :: m, k, v => if k' = k then (k, v) :: m else (k', v') :: set m k v

/-- Keys of the map. -/
def keys (m : GoMap κ ν) : List κ := m.map Prod.fst

end GoMap

/-! ## virtual_ips.go -/

abbrev Hostname := String
abbrev VirtualIP := String

/-- A four-byte `net.IP`. -/
structure IP where
  b0 : Nat
  b1 : Nat
  b2 : Nat
  b3 : Nat
deriving DecidableEq, Repr

/-- Dotted-decimal rendering, `net.IP.String` on a four-byte address. -/
def IP.String (ip : IP) : String :=
  toString ip.b0 ++ "." ++ toString ip.b1 ++ "." ++ toString ip.b2 ++ "." ++ toString ip.b3

/-- State of a `vipStore`; `cursor` is a Go `byte`. -/
structure vipStore where
  reservations : GoMap Hostname VirtualIP
  cursor : Nat
  baseAddress : IP
deriving DecidableEq, Repr

def NewVIPStore : vipStore :=
  { reservations := [], cursor := 0, baseAddress := ⟨169, 254, 255, 0⟩ }

def vipCapacity : Nat := 254

/-- Message of `fmt.Errorf("used up all %d VIPs!", vipCapacity)`. -/
def vipExhausted : String := "used up all " ++ toString vipCapacity ++ " VIPs!"

/-- The method `(*vipStore).Get`: the result and the store afterwards. -/
def vipStore.Get (s : vipStore) (hostname : Hostname) : Except String VirtualIP × vipStore :=
  match s.reservations.get? hostname with
  | some vip => (.ok vip, s)
  | none =>
    let s1 : vipStore := { s with cursor := (s.cursor + 1) % 256 }
    if s1.cursor > vipCapacity then
      (.error vipExhausted, s1)
    else
      let ba := s1.baseAddress
      let newIP : IP := ⟨ba.b0, ba.b1, ba.b2, (ba.b3 + s1.cursor) % 256⟩
      let newVIP : VirtualIP := newIP.String
      (.ok newVIP, { s1 with reservations := s1.reservations.set hostname newVIP })

/-- A sequence of `Get` calls: the results in call order and the final store. -/
def vipStore.GetAll (s : vipStore) : List Hostname → List (Except String VirtualIP) × vipStore
  | [] => ([], s)
  | h :: hs =>
    let r := s.Get h
    let rest := vipStore.GetAll r.2 hs
    (r.1 :: rest.1, rest.2)

/-- Hostnames of a request sequence in order of first appearance, after `seen`. -/
def firstSeenFrom (seen : List Hostname) : List Hostname → List Hostname
  | [] => seen
  | h :: hs => if h ∈ seen then firstSeenFrom seen hs else firstSeenFrom (seen ++ [h]) hs

/-- Distinct hostnames of a request sequence in order of first appearance. -/
def firstSeen (reqs : List Hostname) : List Hostname := firstSeenFrom [] reqs

/-- The address `169.254.255.k`. -/
def vipAddr (k : Nat) : VirtualIP := IP.String ⟨169, 254, 255, k⟩

/-- Reservation table after the hostnames `ks` were reserved in this order,
the first of them at cursor value `n + 1`. -/
def resFrom (n : Nat) : List Hostname → GoMap Hostname VirtualIP
  | [] => []
  | h :: t => (h, vipAddr (n + 1)) :: resFrom (n + 1) t

/-- Store reached from `NewVIPStore` by reserving the hostnames `ks` in order. -/
def storeOf (ks : List Hostname) : vipStore :=
  { reservations := resFrom 0 ks, cursor := ks.length, baseAddress := ⟨169, 254, 255, 0⟩ }

/-- Sample hostname number `i`: the letter h repeated `i + 1` times. -/
def hostN (i : Nat) : Hostname := String.mk (List.replicate (i + 1) 'h')

/-- The sample hostnames number `0` to `n - 1`. -/
def sampleHosts (n : Nat) : List Hostname := (List.range n).map hostN

/-- The store left by the failed 255th allocation on the sample hostnames. -/
def exhaustedStore : vipStore := { storeOf (sampleHosts 254) with cursor := 255 }

/-! ## client.go: data -/

abbrev DeploymentName := String
abbrev InstanceGroupName := String
abbrev JobName := String

/-- The string type `model.Protocol`. -/
abbrev Protocol := String

def ProtocolTCP : Protocol := "TCP"

/-- The fields of `model.Port` that this package sets. -/
structure Port where
  Name : String
  Port : Int
  Protocol : Protocol
deriving DecidableEq, Repr

/-- The fields of `model.Service` that this package sets. `Ports` is a Go slice
that may be nil: `none` is the nil slice, `some []` an empty slice that is not nil
(`reflect.DeepEqual` tells the two apart). -/
structure Service where
  Hostname : String
  Address : String
  Ports : Option (List Port)
deriving DecidableEq, Repr

/-- The struct `model.NetworkEndpoint`; the `*Port` is kept by value. -/
structure NetworkEndpoint where
  Address : String
  Port : Int
  ServicePort : Bosh.Port
deriving DecidableEq, Repr

/-- The fields of `model.ServiceInstance` that this package sets; the shared
`*Service` is kept by value, it is never written after its creation. -/
structure ServiceInstance where
  Endpoint : NetworkEndpoint
  Service : Service
  Labels : GoMap String String
  AvailabilityZone : String
deriving DecidableEq, Repr

structure ServiceWithInstances where
  Service : Service
  Instances : List ServiceInstance
deriving DecidableEq, Repr

/-- The fields of `boshdir.VMInfoProcess` that this package reads. -/
structure VMInfoProcess where
  Name : String
  State : String
deriving DecidableEq, Repr

/-- The fields of `boshdir.VMInfo` that this package reads; `Index` is a `*int`. -/
structure VMInfo where
  JobName : String
  IPs : List String
  DNS : List String
  AZ : String
  State : String
  ProcessState : String
  Index : Option Int
  Processes : List VMInfoProcess
deriving DecidableEq, Repr

structure InstanceGroup where
  VMs : List VMInfo
  ExposedPorts : GoMap JobName (List Port)
deriving DecidableEq, Repr

abbrev Deployment := GoMap InstanceGroupName InstanceGroup
abbrev AllDeployments := GoMap DeploymentName Deployment

/-- One entry of `expose_ports`. -/
structure ExposePort where
  Name : String
  Number : Int
deriving DecidableEq, Repr

/-- One entry of `jobs`. -/
structure ManifestJob where
  Name : String
  ExposePorts : List ExposePort
deriving DecidableEq, Repr

/-- One entry of `instance_groups`. -/
structure ManifestInstanceGroup where
  Name : String
  Jobs : List ManifestJob
deriving DecidableEq, Repr

structure ManifestWithExposedPorts where
  Name : String
  InstanceGroups : List ManifestInstanceGroup
deriving DecidableEq, Repr

/-- What one `boshdir.Deployment` answers during a rebuild: its name, and the
results of `Manifest()` and of `InstanceInfos()`. -/
structure DirectorDeployment where
  Name : String
  Manifest : Except String String
  InstanceInfos : Except String (List VMInfo)

/-- What the `boshdir.Director` answers during a rebuild: the result of
`Deployments()`. -/
structure Director where
  Deployments : Except String (List DirectorDeployment)

/-! ## client.go: GetDeployments -/

/-- The method `GetManifestWithPortExposures`; `yamlUnmarshal` stands for
`yaml.Unmarshal` into a `ManifestWithExposedPorts`. -/
def GetManifestWithPortExposures
    (yamlUnmarshal : String → Except String ManifestWithExposedPorts)
    (deployment : DirectorDeployment) : Except String ManifestWithExposedPorts :=
  match deployment.Manifest with
  | .error err => .error ("getting manifest: " ++ err)
  | .ok manifestString =>
    match yamlUnmarshal manifestString with
    | .error err => .error ("parsing manifest yaml: " ++ err)
    | .ok manifestStruct => .ok manifestStruct

/-- Loop `for _, port := range job.ExposePorts` of `GetDeployments`. -/
def jobExposedPorts (job : ManifestJob) : List Port :=
  job.ExposePorts.foldl
    (fun exposedPorts port =>
      exposedPorts ++ [{ Port := port.Number, Name := port.Name, Protocol := ProtocolTCP }])
    []

/-- Loop `for _, ig := range manifestWithPorts.InstanceGroups` of `GetDeployments`,
filling the `ExposedPorts` map of a new instance group. -/
def manifestExposedPorts (manifestWithPorts : ManifestWithExposedPorts)
    (instanceGroupName : InstanceGroupName) : GoMap JobName (List Port) :=
  manifestWithPorts.InstanceGroups.foldl
    (fun exposed ig =>
      if ig.Name ≠ instanceGroupName then exposed
      else ig.Jobs.foldl (fun exposed job => exposed.set job.Name (jobExposedPorts job)) exposed)
    []

/-- Body of the loop `for _, vmInfo := range vmInfos` of `GetDeployments`. -/
def addVM (manifestWithPorts : ManifestWithExposedPorts) (deployment : Deployment)
    (vmInfo : VMInfo) : Deployment :=
  let instanceGroupName : InstanceGroupName := vmInfo.JobName
  let instanceGroup : InstanceGroup :=
    match deployment.get? instanceGroupName with
    | some instanceGroup => instanceGroup
    | none => { VMs := [], ExposedPorts := manifestExposedPorts manifestWithPorts instanceGroupName }
  deployment.set instanceGroupName { instanceGroup with VMs := instanceGroup.VMs ++ [vmInfo] }

/-- The `Deployment` built from a parsed manifest and a VM inventory. -/
def buildDeployment (manifestWithPorts : ManifestWithExposedPorts) (vmInfos : List VMInfo) :
    Deployment :=
  vmInfos.foldl (addVM manifestWithPorts) []

/-- Loop `for _, directorDeployment := range directorDeployments` of `GetDeployments`. -/
def deploymentsLoop (yamlUnmarshal : String → Except String ManifestWithExposedPorts) :
    List DirectorDeployment → AllDeployments → Except String AllDeployments
  | [], allDeployments => .ok allDeployments
  | directorDeployment :: rest, allDeployments =>
    let deploymentName : DeploymentName := directorDeployment.Name
    match GetManifestWithPortExposures yamlUnmarshal directorDeployment with
    | .error err => .error ("getting port exposures for " ++ deploymentName ++ ": " ++ err)
    | .ok manifestWithPorts =>
      match directorDeployment.InstanceInfos with
      | .error err =>
        .error ("getting instance infos for deployment " ++ deploymentName ++ ": " ++ err)
      | .ok vmInfos =>
        deploymentsLoop yamlUnmarshal rest
          (allDeployments.set deploymentName (buildDeployment manifestWithPorts vmInfos))

/-- The method `GetDeployments`. -/
def GetDeployments (yamlUnmarshal : String → Except String ManifestWithExposedPorts)
    (director : Director) : Except String AllDeployments :=
  match director.Deployments with
  | .error err => .error ("getting deployments: " ++ err)
  | .ok directorDeployments => deploymentsLoop yamlUnmarshal directorDeployments []

/-! ## client.go: GetServiceInstances -/

/-- The label map of the instances of one process on one VM. -/
def instanceLabels (vmInfo : VMInfo) (process : VMInfoProcess) : GoMap String String :=
  let labels : GoMap String String :=
    [("vm.state", vmInfo.State), ("vm.job_state", vmInfo.ProcessState),
      ("process.state", process.State)]
  let labels : GoMap String String :=
    match vmInfo.Index with
    | some index => labels.set "index" (toString index)
    | none => labels
  vmInfo.DNS.enum.foldl (fun labels d => labels.set ("dns-" ++ toString d.1) d.2) labels

/-- The instance record appended in the innermost loop. -/
def newInstance (vmInfo : VMInfo) (service : Service) (labels : GoMap String String)
    (ip : String) (servicePort : Port) : ServiceInstance :=
  { Endpoint := { Address := ip, Port := servicePort.Port, ServicePort := servicePort }
    Service := service
    Labels := labels
    AvailabilityZone := vmInfo.AZ }

/-- Loops `for _, ip := range vmInfo.IPs` and `for _, servicePort := range servicePorts`. -/
def appendInstances (vmInfo : VMInfo) (servicePorts : List Port) (service : Service)
    (labels : GoMap String String) (instances : List ServiceInstance) : List ServiceInstance :=
  vmInfo.IPs.foldl
    (fun instances ip =>
      servicePorts.foldl
        (fun instances servicePort =>
          instances ++ [newInstance vmInfo service labels ip servicePort])
        instances)
    instances

/-- Second half of the process loop body: the entry of `hostname` gets the
instances of this process on this VM. -/
def addInstances (servicesMap : GoMap Hostname ServiceWithInstances) (hostname : Hostname)
    (serviceWithInstances : ServiceWithInstances) (vmInfo : VMInfo) (process : VMInfoProcess)
    (servicePorts : Option (List Port)) : GoMap Hostname ServiceWithInstances :=
  servicesMap.set hostname
    { serviceWithInstances with
      Instances := appendInstances vmInfo (servicePorts.getD []) serviceWithInstances.Service
        (instanceLabels vmInfo process) serviceWithInstances.Instances }

/-- Body of the loop `for _, process := range vmInfo.Processes`. -/
def processStep (dnsSuffix : String) (instanceGroup : InstanceGroup) (vmInfo : VMInfo)
    (st : GoMap Hostname ServiceWithInstances × vipStore) (process : VMInfoProcess) :
    Except String (GoMap Hostname ServiceWithInstances) × vipStore :=
  let hostname : Hostname := process.Name ++ "." ++ dnsSuffix
  let servicePorts : Option (List Port) := instanceGroup.ExposedPorts.get? process.Name
  match st.1.get? hostname with
  | some serviceWithInstances =>
    (.ok (addInstances st.1 hostname serviceWithInstances vmInfo process servicePorts), st.2)
  | none =>
    match st.2.Get hostname with
    | (.error err, virtualIPs) => (.error err, virtualIPs)
    | (.ok virtualIP, virtualIPs) =>
      let serviceWithInstances : ServiceWithInstances :=
        { Service := { Hostname := hostname, Ports := servicePorts, Address := virtualIP }
          Instances := [] }
      (.ok (addInstances (st.1.set hostname serviceWithInstances) hostname serviceWithInstances
        vmInfo process servicePorts), virtualIPs)

/-- Loop `for _, process := range vmInfo.Processes`, left at the first error. -/
def processLoop (dnsSuffix : String) (instanceGroup : InstanceGroup) (vmInfo : VMInfo) :
    List VMInfoProcess → GoMap Hostname ServiceWithInstances × vipStore →
      Except String (GoMap Hostname ServiceWithInstances) × vipStore
  | [], st => (.ok st.1, st.2)
  | process :: rest, st =>
    match processStep dnsSuffix instanceGroup vmInfo st process with
    | (.error err, virtualIPs) => (.error err, virtualIPs)
    | (.ok servicesMap, virtualIPs) =>
      processLoop dnsSuffix instanceGroup vmInfo rest (servicesMap, virtualIPs)

/-- Loop `for _, vmInfo := range instanceGroup.VMs`, left at the first error. -/
def vmLoop (dnsSuffix : String) (instanceGroup : InstanceGroup) :
    List VMInfo → GoMap Hostname ServiceWithInstances × vipStore →
      Except String (GoMap Hostname ServiceWithInstances) × vipStore
  | [], st => (.ok st.1, st.2)
  | vmInfo :: rest, st =>
    match processLoop dnsSuffix instanceGroup vmInfo vmInfo.Processes st with
    | (.error err, virtualIPs) => (.error err, virtualIPs)
    | (.ok servicesMap, virtualIPs) => vmLoop dnsSuffix instanceGroup rest (servicesMap, virtualIPs)

/-- The method `GetServiceInstances`, with the store of `c.virtualIPs` before and after. -/
def GetServiceInstances (virtualIPs : vipStore) (deploymentName : DeploymentName)
    (instanceGroupName : InstanceGroupName) (instanceGroup : InstanceGroup) :
    Except String (GoMap Hostname ServiceWithInstances) × vipStore :=
  let dnsSuffix : String := instanceGroupName ++ "." ++ deploymentName ++ ".boshy"
  vmLoop dnsSuffix instanceGroup instanceGroup.VMs ([], virtualIPs)

/-! ## client.go: GetAllServiceInstances -/

/-- Nanoseconds in a second, `time.Second`. -/
def Second : Int := 1000000000

/-- State of a `Client`. Times are nanosecond readings of the clock. The upstream
`Director` is not part of the state: its answers are given to each call.
`rebuilds` is bookkeeping: the number of times `GetDeployments` has been entered,
each of which sends the one `Deployments()` request of a rebuild. -/
structure Client where
  virtualIPs : vipStore
  cachedFrom : Int
  allInstancesCache : Option (GoMap Hostname ServiceWithInstances)
  rebuilds : Nat
deriving DecidableEq, Repr

/-- The `Client` made by `NewClient`. -/
def NewClient : Client :=
  { virtualIPs := NewVIPStore, cachedFrom := 0, allInstancesCache := none, rebuilds := 0 }

/-- The order in which each `range` statement over a map visits the bindings:
every binding once, in an order Go does not fix. -/
structure RangeOrder where
  deployments : AllDeployments → List (DeploymentName × Deployment)
  groups : Deployment → List (InstanceGroupName × InstanceGroup)
  services : GoMap Hostname ServiceWithInstances → List (Hostname × ServiceWithInstances)
  deployments_perm : ∀ m, (deployments m).Perm m
  groups_perm : ∀ m, (groups m).Perm m
  services_perm : ∀ m, (services m).Perm m

/-- Visiting the bindings in the order they are stored. -/
def storedOrder : RangeOrder :=
  { deployments := fun m => m
    groups := fun m => m
    services := fun m => m
    deployments_perm := fun _ => List.Perm.refl _
    groups_perm := fun _ => List.Perm.refl _
    services_perm := fun _ => List.Perm.refl _ }

/-- The method `cacheIsFresh`; `now` is the clock read by `time.Since`. A
`time.Duration` saturates only beyond 292 years either way, which leaves the
comparison with 10 s as it is on the exact difference. -/
def Client.cacheIsFresh (c : Client) (now : Int) : Bool :=
  c.allInstancesCache.isSome && decide (now - c.cachedFrom < 10 * Second)

/-- Loop `for hostname, set := range serviceInstances`. -/
def mergeServices (order : RangeOrder) (servicesMap : GoMap Hostname ServiceWithInstances)
    (serviceInstances : GoMap Hostname ServiceWithInstances) :
    GoMap Hostname ServiceWithInstances :=
  (order.services serviceInstances).foldl (fun servicesMap e => servicesMap.set e.1 e.2)
    servicesMap

/-- Loop `for instanceGroupName, instanceGroup := range deployment`, left at the
first error. -/
def groupsLoop (order : RangeOrder) (deploymentName : DeploymentName) :
    List (InstanceGroupName × InstanceGroup) → GoMap Hostname ServiceWithInstances × vipStore →
      Except String (GoMap Hostname ServiceWithInstances) × vipStore
  | [], st => (.ok st.1, st.2)
  | g :: rest, st =>
    match GetServiceInstances st.2 deploymentName g.1 g.2 with
    | (.error err, virtualIPs) => (.error ("get service instances: " ++ err), virtualIPs)
    | (.ok serviceInstances, virtualIPs) =>
      groupsLoop order deploymentName rest (mergeServices order st.1 serviceInstances, virtualIPs)

/-- Loop `for deploymentName, deployment := range allDeployments`, left at the
first error. -/
def allDeploymentsLoop (order : RangeOrder) :
    List (DeploymentName × Deployment) → GoMap Hostname ServiceWithInstances × vipStore →
      Except String (GoMap Hostname ServiceWithInstances) × vipStore
  | [], st => (.ok st.1, st.2)
  | d :: rest, st =>
    match groupsLoop order d.1 (order.groups d.2) st with
    | (.error err, virtualIPs) => (.error err, virtualIPs)
    | (.ok servicesMap, virtualIPs) => allDeploymentsLoop order rest (servicesMap, virtualIPs)

/-- The method `GetAllServiceInstances`: the result and the client afterwards.
`director` holds the upstream answers during the call, `now` is the clock read by
the freshness test and `stamp` the clock read by `time.Now()` after a rebuild.
A fresh cache is never nil, so a nil map is never returned from the first branch. -/
def Client.GetAllServiceInstances
    (yamlUnmarshal : String → Except String ManifestWithExposedPorts) (order : RangeOrder)
    (director : Director) (now stamp : Int) (c : Client) :
    Except String (GoMap Hostname ServiceWithInstances) × Client :=
  if c.cacheIsFresh now then
    (.ok (c.allInstancesCache.getD []), c)
  else
    let c1 : Client := { c with rebuilds := c.rebuilds + 1 }
    match GetDeployments yamlUnmarshal director with
    | .error err => (.error ("bosh client: " ++ err), c1)
    | .ok allDeployments =>
      match allDeploymentsLoop order (order.deployments allDeployments) ([], c1.virtualIPs) with
      | (.error err, virtualIPs) => (.error err, { c1 with virtualIPs := virtualIPs })
      | (.ok servicesMap, virtualIPs) =>
        (.ok servicesMap,
          { c1 with
            virtualIPs := virtualIPs
            allInstancesCache := some servicesMap
            cachedFrom := stamp })

/-! ## Projection: stated from the specification -/

/-- The hostname `<process>.<instance-group>.<deployment>.boshy`. -/
def hostnameFor (deploymentName : DeploymentName) (instanceGroupName : InstanceGroupName)
    (processName : String) : Hostname :=
  processName ++ "." ++ instanceGroupName ++ "." ++ deploymentName ++ ".boshy"

/-- The (VM, process) pairs of a VM list, VMs in order and processes in order. -/
def groupPairs (vms : List VMInfo) : List (VMInfo × VMInfoProcess) :=
  vms.flatMap (fun vm => vm.Processes.map (fun p => (vm, p)))

/-- The records of one (VM, process) pair: one per IP of the VM and exposed port of
the process's job, IPs in order and, for each IP, ports in order. -/
def emitted (instanceGroup : InstanceGroup) (service : Service) (q : VMInfo × VMInfoProcess) :
    List ServiceInstance :=
  q.1.IPs.flatMap (fun ip =>
    ((instanceGroup.ExposedPorts.get? q.2.Name).getD []).map (fun servicePort =>
      { Endpoint := { Address := ip, Port := servicePort.Port, ServicePort := servicePort }
        Service := service
        Labels := instanceLabels q.1 q.2
        AvailabilityZone := q.1.AZ }))

/-- The instance list the specification gives the hostname of process name
`processName`: over the VMs in order, over the VM's processes of that name, over
the VM's IPs, over the job's exposed ports, one record. -/
def expectedInstances (instanceGroup : InstanceGroup) (processName : String)
    (service : Service) : List ServiceInstance :=
  instanceGroup.VMs.flatMap (fun vm =>
    (vm.Processes.filter (fun p => p.Name = processName)).flatMap (fun p =>
      emitted instanceGroup service (vm, p)))

/-- The example of the specification: one VM with IP 10.0.0.5 running p1. -/
def exampleVM : VMInfo :=
  { JobName := "g1", IPs := ["10.0.0.5"], DNS := [], AZ := "z1", State := "running",
    ProcessState := "running", Index := none, Processes := [⟨"p1", "running"⟩] }

/-- The example of the specification: group g1 with port client_port:4222 exposed
for job p1. -/
def exampleGroup : InstanceGroup :=
  { VMs := [exampleVM], ExposedPorts := [("p1", [⟨"client_port", 4222, ProtocolTCP⟩])] }

/-- The catalog of the example: one hostname, one port, one instance. -/
def exampleCatalog : GoMap Hostname ServiceWithInstances :=
  [("p1.g1.d1.boshy",
    { Service :=
        { Hostname := "p1.g1.d1.boshy", Address := "169.254.255.1",
          Ports := some [⟨"client_port", 4222, "TCP"⟩] }
      Instances :=
        [{ Endpoint :=
             { Address := "10.0.0.5", Port := 4222, ServicePort := ⟨"client_port", 4222, "TCP"⟩ }
           Service :=
             { Hostname := "p1.g1.d1.boshy", Address := "169.254.255.1",
               Ports := some [⟨"client_port", 4222, "TCP"⟩] }
           Labels :=
             [("vm.state", "running"), ("vm.job_state", "running"),
               ("process.state", "running")]
           AvailabilityZone := "z1" }] })]

/-- The (deployment, group) visits of a rebuild in the order the two nested
`range` statements make them. -/
def visits (order : RangeOrder) (allDeployments : AllDeployments) :
    List (DeploymentName × InstanceGroupName × InstanceGroup) :=
  (order.deployments allDeployments).flatMap (fun d =>
    (order.groups d.2).map (fun g => (d.1, g.1, g.2)))

/-- The projection loop over a list of visits: one `GetServiceInstances` call per
visit, merged into the catalog, left at the first error. -/
def visitsLoop (order : RangeOrder) :
    List (DeploymentName × InstanceGroupName × InstanceGroup) →
      GoMap Hostname ServiceWithInstances × vipStore →
      Except String (GoMap Hostname ServiceWithInstances) × vipStore
  | [], st => (.ok st.1, st.2)
  | v :: rest, st =>
    match GetServiceInstances st.2 v.1 v.2.1 v.2.2 with
    | (.error err, virtualIPs) => (.error ("get service instances: " ++ err), virtualIPs)
    | (.ok serviceInstances, virtualIPs) =>
      visitsLoop order rest (mergeServices order st.1 serviceInstances, virtualIPs)

/-- The port triple of a declared exposure: its name, its number, protocol TCP. -/
def declaredPort (port : ExposePort) : Port :=
  { Name := port.Name, Port := port.Number, Protocol := ProtocolTCP }

/-- The job entries the manifest lists under the instance-group entries named
`instanceGroupName`, in declaration order. -/
def jobsOf (manifestWithPorts : ManifestWithExposedPorts)
    (instanceGroupName : InstanceGroupName) : List ManifestJob :=
  (manifestWithPorts.InstanceGroups.filter (fun ig => ig.Name = instanceGroupName)).flatMap
    (fun ig => ig.Jobs)

/-- The last entry named `jobName` in a list of job entries. -/
def lastNamed (jobs : List ManifestJob) (jobName : JobName) : Option ManifestJob :=
  (jobs.filter (fun job => job.Name = jobName)).getLast?

/-- A manifest that lists job j twice under g1, first with a port and then
without. -/
def dupManifest : ManifestWithExposedPorts :=
  ⟨"d1", [⟨"g1", [⟨"j", [⟨"p", 1⟩]⟩, ⟨"j", []⟩]⟩]⟩

/-- A director with the one deployment d1, holding `exampleVM` in group g1. -/
def exampleDirector : Director :=
  ⟨.ok [⟨"d1", .ok "manifest text", .ok [exampleVM]⟩]⟩

/-- One call of `GetAllServiceInstances` in a sequence: the upstream answers during
the call, the clock read by the freshness test and the clock read after a rebuild. -/
structure Call where
  director : Director
  now : Int
  stamp : Int

/-- A sequence of `GetAllServiceInstances` calls, one after the other: the results in
call order and the client afterwards. -/
def Client.run (yamlUnmarshal : String → Except String ManifestWithExposedPorts)
    (order : RangeOrder) :
    List Call → Client → List (Except String (GoMap Hostname ServiceWithInstances)) × Client
  | [], c => ([], c)
  | call :: rest, c =>
    let r := c.GetAllServiceInstances yamlUnmarshal order call.director call.now call.stamp
    let rs := Client.run yamlUnmarshal order rest r.2
    (r.1 :: rs.1, rs.2)

/-- A director that lists no deployment. -/
def emptyDirector : Director := ⟨.ok []⟩

/-- A director whose `Deployments()` request fails. -/
def downDirector : Director := ⟨.error "down"⟩

/-- A `yaml.Unmarshal` that rejects every text. -/
def rejectYaml : String → Except String ManifestWithExposedPorts :=
  fun _ => .error "bad yaml"

/-- What holds of the services map once the (VM, process) pairs `done` have been
projected: the keys are the hostnames of `done`, and each entry carries its own
hostname, the exposed ports of its process name and the records of the pairs of
`done` that have this hostname, in order. -/
def ProjInv (suffix : String) (instanceGroup : InstanceGroup)
    (m : GoMap Hostname ServiceWithInstances) (done : List (VMInfo × VMInfoProcess)) : Prop :=
  m.keys.Nodup ∧
  (∀ k, k ∈ m.keys ↔ ∃ q ∈ done, q.2.Name ++ "." ++ suffix = k) ∧
  (∀ k e, m.get? k = some e →
    e.Service.Hostname = k ∧
    (∀ pn, pn ++ "." ++ suffix = k →
      e.Service.Ports = instanceGroup.ExposedPorts.get? pn) ∧
    e.Instances = done.flatMap (fun q =>
      if q.2.Name ++ "." ++ suffix = k then emitted instanceGroup e.Service q else []))

/-! ## controller.go -/

/-- What `reflect.DeepEqual` computes on two non-nil Go maps whose values are
compared by `veq`: the same number of bindings, and every key of the first bound in
the second to a deeply equal value. The order of the bindings plays no role. -/
def GoMap.deepEqual {κ ν : Type} [DecidableEq κ] (veq : ν → ν → Bool) (a b : GoMap κ ν) : Bool :=
  decide (a.length = b.length) &&
    a.all (fun e =>
      match GoMap.get? b e.1 with
      | some v => veq e.2 v
      | none => false)

/-- What `reflect.DeepEqual` computes on two slices: the same length and deeply equal
elements position by position. (The slices compared here are nil exactly when they
are empty.) -/
def deepEqualList {α : Type} (veq : α → α → Bool) : List α → List α → Bool
  | [], [] => true
  | a :: as, b :: bs => veq a b && deepEqualList veq as bs
  | _, _ => false

/-- `reflect.DeepEqual` on two `*model.ServiceInstance`: fields compared deeply, the
label maps as maps. -/
def deepEqualInstance (a b : ServiceInstance) : Bool :=
  decide (a.Endpoint = b.Endpoint) && decide (a.Service = b.Service) &&
    GoMap.deepEqual (fun x y : String => decide (x = y)) a.Labels b.Labels &&
    decide (a.AvailabilityZone = b.AvailabilityZone)

/-- `reflect.DeepEqual` on two `*ServiceWithInstances`. -/
def deepEqualEntry (a b : ServiceWithInstances) : Bool :=
  decide (a.Service = b.Service) && deepEqualList deepEqualInstance a.Instances b.Instances

/-- The test `reflect.DeepEqual(allServiceInstances, cache)` of `Run`: the fetched
catalog is never nil, the baseline `cache` is nil (`none`) until a catalog has been
stored, and a nil map is not deeply equal to a map that is not nil. -/
def DeepEqual (allServiceInstances : GoMap Hostname ServiceWithInstances)
    (cache : Option (GoMap Hostname ServiceWithInstances)) : Bool :=
  match cache with
  | none => false
  | some baseline => GoMap.deepEqual deepEqualEntry allServiceInstances baseline

/-- A registered callback, named by a number; the Go value is a function. -/
abbrev Handler := Nat

/-- The fields of a `Controller` written by the registration methods. -/
structure Controller where
  serviceHandlers : List Handler
  instanceHandlers : List Handler
deriving DecidableEq, Repr

/-- The method `AppendServiceHandler`. -/
def Controller.AppendServiceHandler (c : Controller) (f : Handler) : Controller :=
  { c with serviceHandlers := c.serviceHandlers ++ [f] }

/-- The method `AppendInstanceHandler`. -/
def Controller.AppendInstanceHandler (c : Controller) (f : Handler) : Controller :=
  { c with instanceHandlers := c.instanceHandlers ++ [f] }

/-- A goroutine started by `Run`: `go h(&model.Service{}, model.EventAdd)` or
`go h(&model.ServiceInstance{}, model.EventAdd)`, for the handler `h`. -/
inductive Invocation where
  | ofService (h : Handler)
  | ofInstance (h : Handler)
deriving DecidableEq, Repr

/-- What `Run` does with the result of `GetAllServiceInstances` on a tick, given the
comparison it uses: the baseline afterwards and the goroutines started, in the order
they are started. -/
def Controller.observeWith
    (compare : GoMap Hostname ServiceWithInstances →
      Option (GoMap Hostname ServiceWithInstances) → Bool)
    (c : Controller) (cache : Option (GoMap Hostname ServiceWithInstances))
    (fetched : Except String (GoMap Hostname ServiceWithInstances)) :
    Option (GoMap Hostname ServiceWithInstances) × List Invocation :=
  match fetched with
  | .error _ => (cache, [])
  | .ok allServiceInstances =>
    if !compare allServiceInstances cache then
      (some allServiceInstances,
        c.serviceHandlers.map Invocation.ofService ++
          c.instanceHandlers.map Invocation.ofInstance)
    else (cache, [])

/-- The tick branch of `Run` after the fetch, with `reflect.DeepEqual`. -/
def Controller.observe (c : Controller) (cache : Option (GoMap Hostname ServiceWithInstances))
    (fetched : Except String (GoMap Hostname ServiceWithInstances)) :
    Option (GoMap Hostname ServiceWithInstances) × List Invocation :=
  c.observeWith DeepEqual cache fetched

/-- What the `select` of `Run` receives: a tick, with the inputs of the fetch it
triggers, or the stop signal. -/
inductive Signal where
  | tick (call : Call)
  | stop

/-- State of a running `Run`: the controller, the client, the local variable `cache`,
the goroutines started so far and whether `Run` has returned. -/
structure RunState where
  controller : Controller
  client : Client
  cache : Option (GoMap Hostname ServiceWithInstances)
  started : List Invocation
  returned : Bool
deriving DecidableEq, Repr

/-- One iteration of the loop of `Run`. -/
def Controller.step (yamlUnmarshal : String → Except String ManifestWithExposedPorts)
    (order : RangeOrder) (st : RunState) : Signal → RunState
  | .stop => { st with returned := true }
  | .tick call =>
    let r := st.client.GetAllServiceInstances yamlUnmarshal order call.director call.now
      call.stamp
    let o := st.controller.observe st.cache r.1
    { st with client := r.2, cache := o.1, started := st.started ++ o.2 }

/-- The method `Run` on a sequence of signals: iterations until `Run` returns. -/
def Controller.Run (yamlUnmarshal : String → Except String ManifestWithExposedPorts)
    (order : RangeOrder) : List Signal → RunState → RunState
  | [], st => st
  | sig :: rest, st =>
    if st.returned then st
    else Controller.Run yamlUnmarshal order rest (Controller.step yamlUnmarshal order st sig)

/-- A controller with two service handlers and one instance handler. -/
def exampleController : Controller :=
  { serviceHandlers := [1, 2], instanceHandlers := [3] }

/-- A `Run` that has just started on `exampleController`, with a client whose cache
holds the empty catalog of time 0. -/
def exampleRunState : RunState :=
  { controller := exampleController
    client := { NewClient with allInstancesCache := some [], rebuilds := 1 }
    cache := some []
    started := []
    returned := false }

/-! ## servicediscovery.go -/

/-- How a Go call ends: with a value, with an error, or in a run-time panic. -/
inductive Outcome (α : Type) where
  | ok (value : α)
  | error (err : String)
  | panic (msg : String)
deriving DecidableEq, Repr

/-- The message of the run-time panic on reading a field through a nil pointer. -/
def nilDereference : String := "runtime error: invalid memory address or nil pointer dereference"

/-- The map type `model.Labels`. -/
abbrev Labels := GoMap String String

/-- The type `model.LabelsCollection`, the label filter of a lookup. -/
abbrev LabelsCollection := List Labels

/-- Modelled from the spec: the method `model.PortList.Get`, whose code is not
under src/. `Instances` uses it to look a requested port name up in the port list of
the service ("whose serving port's name is in the requested set"): the first port
of the list that has this name, if there is one; a nil list has none. -/
def PortList.Get (ports : Option (List Port)) (name : String) : Option Port :=
  (ports.getD []).find? (fun port => port.Name = name)

/-- Modelled from the spec: a set of label constraints is met by the labels `that`
when `that` holds every constraint, key and value ("labels are a superset of every
requested label constraint"). -/
def Labels.SubsetOf (l that : Labels) : Bool :=
  l.all (fun e => decide (GoMap.get? that e.1 = some e.2))

/-- Modelled from the spec: the method `model.LabelsCollection.HasSubsetOf`, whose
code is not under src/: the labels `that` are "a superset of every requested label
constraint" of the filter; the empty filter asks for nothing. -/
def LabelsCollection.HasSubsetOf (labels : LabelsCollection) (that : Labels) : Bool :=
  labels.all (fun l => Labels.SubsetOf l that)

/-- The method `ServiceDiscovery.Services`; `fetched` is the result of the call
`sd.Client.GetAllServiceInstances()` with which the method starts. -/
def ServiceDiscovery.Services (order : RangeOrder)
    (fetched : Except String (GoMap Hostname ServiceWithInstances)) :
    Except String (List Service) :=
  match fetched with
  | .error err => .error err
  | .ok servicesMap =>
    .ok ((order.services servicesMap).foldl (fun services e => services ++ [e.2.Service]) [])

/-- The method `ServiceDiscovery.GetService`: `some` service, or `none` for the
result `nil, nil`. -/
def ServiceDiscovery.GetService (order : RangeOrder)
    (fetched : Except String (GoMap Hostname ServiceWithInstances)) (hostname : String) :
    Except String (Option Service) :=
  match ServiceDiscovery.Services order fetched with
  | .error err => .error err
  | .ok services => .ok (services.find? (fun svc => svc.Hostname = hostname))

/-- Loop `for _, portName := range ports` of `Instances`. -/
def requestedPorts (service : Service) (ports : List String) : GoMap String Port :=
  ports.foldl
    (fun (svcPorts : GoMap String Port) portName =>
      match PortList.Get service.Ports portName with
      | some svcPort => GoMap.set svcPorts portName svcPort
      | none => svcPorts)
    []

/-- Loop `for _, instance := range svcWithInstances.Instances` of `Instances`. -/
def matchingInstances (svcPorts : GoMap String Port) (tagsList : LabelsCollection)
    (all : List ServiceInstance) : List ServiceInstance :=
  all.foldl
    (fun instances inst =>
      if !LabelsCollection.HasSubsetOf tagsList inst.Labels then instances
      else
        match GoMap.get? svcPorts inst.Endpoint.ServicePort.Name with
        | some _ => instances ++ [inst]
        | none => instances)
    []

/-- The method `ServiceDiscovery.Instances`; `fetched` is the result of the call
`sd.Client.GetAllServiceInstances()` with which the method starts. For a hostname
that is not a key, `servicesMap[hostname]` is a nil pointer and the method reads
through it: `svcWithInstances.Service` in the loop over `ports` if there is a port,
`svcWithInstances.Instances` after it otherwise. -/
def ServiceDiscovery.Instances
    (fetched : Except String (GoMap Hostname ServiceWithInstances)) (hostname : String)
    (ports : List String) (tagsList : LabelsCollection) : Outcome (List ServiceInstance) :=
  match fetched with
  | .error err => .error ("getting all instances: " ++ err)
  | .ok servicesMap =>
    match GoMap.get? servicesMap hostname with
    | none => .panic nilDereference
    | some svcWithInstances =>
      .ok (matchingInstances (requestedPorts svcWithInstances.Service ports) tagsList
        svcWithInstances.Instances)

/-- What the projector guarantees of an entry stored under hostname `k`: its service
carries the hostname, and each instance refers to that service and serves one of its
ports. -/
def EntryWF (k : Hostname) (e : ServiceWithInstances) : Prop :=
  e.Service.Hostname = k ∧
    ∀ i ∈ e.Instances, i.Service = e.Service ∧ i.Endpoint.ServicePort ∈ e.Service.Ports.getD []

/-- What the projector guarantees of a catalog: one binding per hostname, each
well formed. -/
def CatalogWF (m : GoMap Hostname ServiceWithInstances) : Prop :=
  (GoMap.keys m).Nodup ∧ ∀ k e, (k, e) ∈ m → EntryWF k e

/-- The invariant of a client's cache. -/
def Client.CacheWF (c : Client) : Prop :=
  ∀ snap, c.allInstancesCache = some snap → CatalogWF snap

/-- The manifest of the example: job p1 of group g1 exposes client_port:4222. -/
def exampleManifest : ManifestWithExposedPorts :=
  ⟨"d1", [⟨"g1", [⟨"p1", [⟨"client_port", 4222⟩]⟩]⟩]⟩

/-- The label filter `{"vm.state": "running"}`. -/
def runningFilter : LabelsCollection := [[("vm.state", "running")]]

/-- The label set the specification gives the records of process `p` on VM `vm`:
the three state labels, then `index` when the VM has an index, then one `dns-i` per
DNS name in positional order. -/
def expectedLabels (vm : VMInfo) (p : VMInfoProcess) : GoMap String String :=
  [("vm.state", vm.State), ("vm.job_state", vm.ProcessState), ("process.state", p.State)] ++
    (match vm.Index with
      | some index => [("index", toString index)]
      | none => []) ++
    vm.DNS.enum.map (fun d => ("dns-" ++ toString d.1, d.2))

/-- The number a decimal digit character stands for. -/
def digitValue (c : Char) : Nat := c.toNat - 48

/-- The number a list of decimal digit characters stands for. -/
def decodeDigits (l : List Char) : Nat := l.foldl (fun acc c => 10 * acc + digitValue c) 0

/-- A VM with an index and two DNS names, running p1 in group g1. -/
def labelledVM : VMInfo :=
  { JobName := "g1", IPs := ["10.0.0.5"], DNS := ["a.example", "b.example"], AZ := "z1",
    State := "running", ProcessState := "failing", Index := some 7,
    Processes := [⟨"p1", "starting"⟩] }

/-- The instance record of `labelledVM` for port client_port:4222. -/
def labelledInstance : ServiceInstance :=
  { Endpoint := { Address := "10.0.0.5", Port := 4222, ServicePort := ⟨"client_port", 4222, "TCP"⟩ }
    Service :=
      { Hostname := "p1.g1.d1.boshy", Address := "169.254.255.1",
        Ports := some [⟨"client_port", 4222, "TCP"⟩] }
    Labels :=
      [("vm.state", "running"), ("vm.job_state", "failing"), ("process.state", "starting"),
        ("index", "7"), ("dns-0", "a.example"), ("dns-1", "b.example")]
    AvailabilityZone := "z1" }

/-- A name without the character `.`. -/
def dotFree (name : String) : Prop := '.' ∉ name.data

/-- Every deployment name, group name and process name of a list of visits is
without `.`. -/
def visitsDotFree (vs : List (DeploymentName × InstanceGroupName × InstanceGroup)) : Prop :=
  ∀ v ∈ vs, dotFree v.1 ∧ dotFree v.2.1 ∧
    ∀ vm ∈ v.2.2.VMs, ∀ p ∈ vm.Processes, dotFree p.Name

/-- An inventory of deployment d in which process a.b runs in group c and process a
runs in group b.c. -/
def clashDirector : Director :=
  ⟨.ok [⟨"d", .ok "manifest text",
    .ok [{ JobName := "c", IPs := ["10.0.0.1"], DNS := [], AZ := "z1", State := "running",
           ProcessState := "running", Index := none, Processes := [⟨"a.b", "running"⟩] },
         { JobName := "b.c", IPs := ["10.0.0.2"], DNS := [], AZ := "z1", State := "running",
           ProcessState := "running", Index := none, Processes := [⟨"a", "running"⟩] }]⟩]⟩

/-- The manifest of `clashDirector`: job a.b of group c exposes x:1 and job a of group
b.c exposes y:2. -/
def clashManifest : ManifestWithExposedPorts :=
  ⟨"d", [⟨"c", [⟨"a.b", [⟨"x", 1⟩]⟩]⟩, ⟨"b.c", [⟨"a", [⟨"y", 2⟩]⟩]⟩]⟩

instance (name : String) : Decidable (dotFree name) :=
  inferInstanceAs (Decidable ('.' ∉ name.data))

instance (vs : List (DeploymentName × InstanceGroupName × InstanceGroup)) :
    Decidable (visitsDotFree vs) :=
  inferInstanceAs (Decidable (∀ v ∈ vs, dotFree v.1 ∧ dotFree v.2.1 ∧
    ∀ vm ∈ v.2.2.VMs, ∀ p ∈ vm.Processes, dotFree p.Name))

/-- Visiting the bindings of every map last to first. -/
def reversedOrder : RangeOrder :=
  { deployments := fun m => m.reverse
    groups := fun m => m.reverse
    services := fun m => m.reverse
    deployments_perm := fun m => List.reverse_perm m
    groups_perm := fun m => List.reverse_perm m
    services_perm := fun m => List.reverse_perm m }

/-- A catalog entry with one instance: the service of one port and the record of one
VM address on it, with the labels of a running process on a running VM. -/
def singleEntry (hostname address ip : String) (port : Port) : ServiceWithInstances :=
  { Service := { Hostname := hostname, Address := address, Ports := some [port] }
    Instances :=
      [{ Endpoint := { Address := ip, Port := port.Port, ServicePort := port }
         Service := { Hostname := hostname, Address := address, Ports := some [port] }
         Labels :=
           [("vm.state", "running"), ("vm.job_state", "running"), ("process.state", "running")]
         AvailabilityZone := "z1" }] }

/-- An instance group of one running VM with one running process and one exposed
port of that process. -/
def singleGroup (jobName ip processName : String) (port : Port) : InstanceGroup :=
  { VMs :=
      [{ JobName := jobName, IPs := [ip], DNS := [], AZ := "z1", State := "running",
         ProcessState := "running", Index := none, Processes := [⟨processName, "running"⟩] }]
    ExposedPorts := [(processName, [port])] }

/-- An inventory of deployment d in which a process a runs in group c and another
process a runs in group e. -/
def pairDirector : Director :=
  ⟨.ok [⟨"d", .ok "manifest text",
    .ok [{ JobName := "c", IPs := ["10.0.0.1"], DNS := [], AZ := "z1", State := "running",
           ProcessState := "running", Index := none, Processes := [⟨"a", "running"⟩] },
         { JobName := "e", IPs := ["10.0.0.2"], DNS := [], AZ := "z1", State := "running",
           ProcessState := "running", Index := none, Processes := [⟨"a", "running"⟩] }]⟩]⟩

/-- The manifest of `pairDirector`: job a of group c exposes x:1 and job a of group e
exposes y:2. -/
def pairManifest : ManifestWithExposedPorts :=
  ⟨"d", [⟨"c", [⟨"a", [⟨"x", 1⟩]⟩]⟩, ⟨"e", [⟨"a", [⟨"y", 2⟩]⟩]⟩]⟩

/-- The deployments `GetDeployments` builds from `pairDirector` and `pairManifest`. -/
def pairDeployments : AllDeployments :=
  [("d", [("c", singleGroup "c" "10.0.0.1" "a" ⟨"x", 1, "TCP"⟩),
          ("e", singleGroup "e" "10.0.0.2" "a" ⟨"y", 2, "TCP"⟩)])]

/-- The catalog of `pairDeployments` on a new client, groups visited as stored. -/
def pairCatalog : GoMap Hostname ServiceWithInstances :=
  [("a.c.d.boshy", singleEntry "a.c.d.boshy" "169.254.255.1" "10.0.0.1" ⟨"x", 1, "TCP"⟩),
   ("a.e.d.boshy", singleEntry "a.e.d.boshy" "169.254.255.2" "10.0.0.2" ⟨"y", 2, "TCP"⟩)]

/-- A client whose allocator holds 254 reservations, those of the sample hostnames,
and whose cache is empty. -/
def fullClient : Client := { NewClient with virtualIPs := storeOf (sampleHosts 254) }

/-- Every hostname that has an entry in the services map holds a reservation. -/
def KeysReserved (st : GoMap Hostname ServiceWithInstances × vipStore) : Prop :=
  ∀ k ∈ GoMap.keys st.1, ∃ a, GoMap.get? st.2.reservations k = some a

/-- One binding per deployment name and, in each deployment, one binding per
group name. -/
def DeploymentsWF (allDeployments : AllDeployments) : Prop :=
  (GoMap.keys allDeployments).Nodup ∧
    ∀ dn D, (dn, D) ∈ allDeployments → (GoMap.keys (D : Deployment)).Nodup

/-! ## Go maps: lemmas -/

namespace GoMap

variable {κ ν : Type} [DecidableEq κ]

theorem get?_set_self (m : GoMap κ ν) (k : κ) (v : ν) : (m.set k v).get? k = some v := by
  induction m with
  | nil => simp [set, get?]
  | cons e m ih =>
    obtain ⟨k', v'⟩ := e
    by_cases h : k' = k <;> simp [set, get?, h, ih]

theorem get?_set_ne (m : GoMap κ ν) {k k' : κ} (v : ν) (hne : k ≠ k') :
    (m.set k v).get? k' = m.get? k' := by
  induction m with
  | nil => simp [set, get?, hne]
  | cons e m ih =>
    obtain ⟨k1, v1⟩ := e
    by_cases h : k1 = k
    · subst h
      simp [set, get?, hne]
    · simp only [set, h, if_false, get?, ih]

theorem get?_eq_none_iff (m : GoMap κ ν) (k : κ) : m.get? k = none ↔ k ∉ m.keys := by
  induction m with
  | nil => simp [get?, keys]
  | cons e m ih =>
    obtain ⟨k1, v1⟩ := e
    by_cases h : k1 = k
    · subst h
      simp [get?, keys]
    · have h' : ¬ k = k1 := fun x => h x.symm
      simp only [keys] at ih
      simp [get?, keys, h, h', ih]

theorem set_of_get?_none (m : GoMap κ ν) (k : κ) (v : ν) (h : m.get? k = none) :
    m.set k v = m ++ [(k, v)] := by
  induction m with
  | nil => simp [set]
  | cons e m ih =>
    obtain ⟨k1, v1⟩ := e
    by_cases h1 : k1 = k
    · simp [get?, h1] at h
    · simp only [get?, h1, if_false] at h
      simp [set, h1, ih h]

theorem get?_append_of_some (m r : GoMap κ ν) (k : κ) (v : ν) (h : m.get? k = some v) :
    get? (m ++ r) k = some v := by
  induction m with
  | nil => simp [get?] at h
  | cons e m ih =>
    obtain ⟨k1, v1⟩ := e
    by_cases h1 : k1 = k
    · simpa [get?, h1] using h
    · simp only [get?, h1, if_false] at h
      simpa [get?, h1] using ih h

theorem mem_keys_set (m : GoMap κ ν) (k k' : κ) (v : ν) :
    k' ∈ (m.set k v).keys ↔ k' = k ∨ k' ∈ m.keys := by
  induction m with
  | nil => simp [set, keys]
  | cons e m ih =>
    obtain ⟨k1, v1⟩ := e
    simp only [keys] at ih
    by_cases h : k1 = k
    · subst h
      simp [set, keys]
    · simp only [set, h, if_false, keys, List.map_cons, List.mem_cons, ih]
      tauto

theorem keys_set_nodup (m : GoMap κ ν) (k : κ) (v : ν) (h : m.keys.Nodup) :
    (m.set k v).keys.Nodup := by
  induction m with
  | nil => simp [set, keys]
  | cons e m ih =>
    obtain ⟨k1, v1⟩ := e
    have h' : k1 ∉ keys m ∧ (keys m).Nodup := by simpa [keys] using h
    by_cases hk : k1 = k
    · subst hk
      simpa [set, keys] using h
    · have hmem := mem_keys_set m k k1 v
      have hk' : ¬ k1 = k := hk
      simp only [set, hk, if_false]
      show (keys ((k1, v1) :: set m k v)).Nodup
      simp only [keys, List.map_cons, List.nodup_cons]
      refine ⟨?_, ih h'.2⟩
      intro hin
      rcases hmem.mp hin with e | e
      · exact hk e
      · exact h'.1 e

theorem get?_set (m : GoMap κ ν) (k k' : κ) (v : ν) :
    (m.set k v).get? k' = if k = k' then some v else m.get? k' := by
  by_cases h : k = k'
  · subst h
    simp [get?_set_self]
  · simp [h, get?_set_ne m v h]

theorem set_set (m : GoMap κ ν) (k : κ) (v v' : ν) : (m.set k v).set k v' = m.set k v' := by
  induction m with
  | nil => simp [set]
  | cons e m ih =>
    obtain ⟨k1, v1⟩ := e
    by_cases h : k1 = k
    · simp [set, h]
    · simp [set, h, ih]

theorem mem_of_get? (m : GoMap κ ν) (k : κ) (v : ν) (h : m.get? k = some v) : (k, v) ∈ m := by
  induction m with
  | nil => simp [get?] at h
  | cons e m ih =>
    obtain ⟨k1, v1⟩ := e
    by_cases h1 : k1 = k
    · subst h1
      simp only [get?, if_true, Option.some.injEq] at h
      subst h
      simp
    · simp only [get?, h1, if_false] at h
      exact List.mem_cons_of_mem _ (ih h)

theorem get?_of_mem (m : GoMap κ ν) (k : κ) (v : ν) (hn : m.keys.Nodup) (h : (k, v) ∈ m) :
    m.get? k = some v := by
  induction m with
  | nil => cases h
  | cons e m ih =>
    obtain ⟨k1, v1⟩ := e
    have hn' : k1 ∉ keys m ∧ (keys m).Nodup := by simpa [keys] using hn
    rcases List.mem_cons.mp h with e | e
    · cases e
      simp [get?]
    · have hk : k ∈ keys m := List.mem_map.mpr ⟨(k, v), e, rfl⟩
      have h1 : ¬ k1 = k := fun x => hn'.1 (x ▸ hk)
      simp only [get?, h1, if_false]
      exact ih hn'.2 e

theorem mem_keys_iff (m : GoMap κ ν) (k : κ) : k ∈ m.keys ↔ ∃ v, m.get? k = some v := by
  constructor
  · intro h
    cases hq : m.get? k with
    | none => exact absurd h ((get?_eq_none_iff m k).mp hq)
    | some v => exact ⟨v, rfl⟩
  · rintro ⟨v, hv⟩
    by_contra hc
    rw [(get?_eq_none_iff m k).mpr hc] at hv
    cases hv

end GoMap

/-! ## Allocator: lemmas -/

theorem Get_of_reserved (s : vipStore) (h : Hostname) (a : VirtualIP)
    (hres : s.reservations.get? h = some a) : s.Get h = (.ok a, s) := by
  simp [vipStore.Get, hres]

theorem Get_keeps_reserved (s : vipStore) (h h' : Hostname) (a : VirtualIP)
    (hres : s.reservations.get? h = some a) : (s.Get h').2.reservations.get? h = some a := by
  unfold vipStore.Get
  cases hq : s.reservations.get? h' with
  | some v => simpa using hres
  | none =>
    have hne : h' ≠ h := by
      intro e
      subst e
      rw [hq] at hres
      cases hres
    by_cases hc : (s.cursor + 1) % 256 > vipCapacity
    · simpa [hc] using hres
    · simp only [hc, if_false]
      rw [GoMap.get?_set_ne _ _ hne]
      exact hres

theorem GetAll_keeps_reserved (hs : List Hostname) :
    ∀ (s : vipStore) (h : Hostname) (a : VirtualIP), s.reservations.get? h = some a →
      (s.GetAll hs).2.reservations.get? h = some a := by
  induction hs with
  | nil => intro s h a hres; simpa [vipStore.GetAll] using hres
  | cons x xs ih =>
    intro s h a hres
    simp only [vipStore.GetAll]
    exact ih _ h a (Get_keeps_reserved s h x a hres)

theorem Get_ok_reserves (s : vipStore) (h : Hostname) (a : VirtualIP)
    (hok : (s.Get h).1 = .ok a) : (s.Get h).2.reservations.get? h = some a := by
  unfold vipStore.Get at hok ⊢
  cases hq : s.reservations.get? h with
  | some v =>
    simp only [hq] at hok ⊢
    cases hok
    rfl
  | none =>
    simp only [hq] at hok ⊢
    by_cases hc : (s.cursor + 1) % 256 > vipCapacity
    · simp [hc] at hok
    · simp only [hc, if_false] at hok ⊢
      cases hok
      exact GoMap.get?_set_self _ _ _

theorem resFrom_get?_not_mem (ks : List Hostname) :
    ∀ (n : Nat) (h : Hostname), h ∉ ks → (resFrom n ks).get? h = none := by
  induction ks with
  | nil => intro n h _; rfl
  | cons k t ih =>
    intro n h hn
    have h1 : ¬ k = h := fun e => hn (by simp [e])
    have h2 : h ∉ t := fun e => hn (by simp [e])
    simp [resFrom, GoMap.get?, h1, ih (n + 1) h h2]

theorem resFrom_get?_mem (ks : List Hostname) :
    ∀ (n : Nat) (h : Hostname), h ∈ ks →
      (resFrom n ks).get? h = some (vipAddr (n + ks.indexOf h + 1)) := by
  induction ks with
  | nil => intro n h hm; cases hm
  | cons k t ih =>
    intro n h hm
    by_cases h1 : k = h
    · subst h1
      simp [resFrom, GoMap.get?]
    · have h2 : h ∈ t := by
        rcases List.mem_cons.mp hm with e | e
        · exact absurd e.symm h1
        · exact e
      have h3 : h ≠ k := fun e => h1 e.symm
      simp only [resFrom, GoMap.get?, h1, if_false, ih (n + 1) h h2,
        List.indexOf_cons_ne _ h3.symm]
      congr 2
      omega

theorem resFrom_append (ks : List Hostname) :
    ∀ (n : Nat) (h : Hostname),
      resFrom n (ks ++ [h]) = resFrom n ks ++ [(h, vipAddr (n + ks.length + 1))] := by
  induction ks with
  | nil => intro n h; simp [resFrom]
  | cons k t ih =>
    intro n h
    have e : n + 1 + t.length + 1 = n + (t.length + 1) + 1 := by omega
    show (k, vipAddr (n + 1)) :: resFrom (n + 1) (t ++ [h]) = _
    rw [ih (n + 1) h, e]
    rfl

theorem Get_storeOf_mem (ks : List Hostname) (h : Hostname) (hm : h ∈ ks) :
    (storeOf ks).Get h = (.ok (vipAddr (ks.indexOf h + 1)), storeOf ks) := by
  apply Get_of_reserved
  simpa [storeOf] using resFrom_get?_mem ks 0 h hm

theorem Get_storeOf_new (ks : List Hostname) (h : Hostname) (hn : h ∉ ks)
    (hlen : ks.length < 254) :
    (storeOf ks).Get h = (.ok (vipAddr (ks.length + 1)), storeOf (ks ++ [h])) := by
  have hq : (storeOf ks).reservations.get? h = none := resFrom_get?_not_mem ks 0 h hn
  have hc1 : (ks.length + 1) % 256 = ks.length + 1 := Nat.mod_eq_of_lt (by omega)
  have hc : ¬ (ks.length + 1 > vipCapacity) := by simp only [vipCapacity]; omega
  unfold vipStore.Get
  simp only [hq]
  simp only [storeOf, hc1, hc, if_false, Nat.zero_add, resFrom_append,
    GoMap.set_of_get?_none _ _ _ (resFrom_get?_not_mem ks 0 h hn), List.length_append,
    List.length_singleton]
  rfl

theorem Get_storeOf_full (ks : List Hostname) (h : Hostname) (hn : h ∉ ks)
    (hlen : ks.length = 254) :
    (storeOf ks).Get h = (.error vipExhausted, { storeOf ks with cursor := 255 }) := by
  have hq : (storeOf ks).reservations.get? h = none := resFrom_get?_not_mem ks 0 h hn
  unfold vipStore.Get
  simp only [hq]
  simp [storeOf, hlen, vipCapacity]

theorem firstSeenFrom_prefix (reqs : List Hostname) :
    ∀ ks : List Hostname, ∃ r, firstSeenFrom ks reqs = ks ++ r := by
  induction reqs with
  | nil => intro ks; exact ⟨[], by simp [firstSeenFrom]⟩
  | cons h t ih =>
    intro ks
    by_cases hm : h ∈ ks
    · simpa [firstSeenFrom, hm] using ih ks
    · obtain ⟨r, hr⟩ := ih (ks ++ [h])
      exact ⟨h :: r, by simp [firstSeenFrom, hm, hr]⟩

theorem firstSeenFrom_nodup (reqs : List Hostname) :
    ∀ ks : List Hostname, ks.Nodup → (firstSeenFrom ks reqs).Nodup := by
  induction reqs with
  | nil => intro ks hk; simpa [firstSeenFrom] using hk
  | cons h t ih =>
    intro ks hk
    by_cases hm : h ∈ ks
    · simpa [firstSeenFrom, hm] using ih ks hk
    · simp only [firstSeenFrom, hm, if_false]
      apply ih
      rw [List.nodup_append]
      refine ⟨hk, List.nodup_singleton h, ?_⟩
      intro a ha hb
      rw [List.mem_singleton] at hb
      subst hb
      exact absurd ha hm

theorem mem_firstSeenFrom (reqs : List Hostname) :
    ∀ (ks : List Hostname) (x : Hostname), x ∈ firstSeenFrom ks reqs ↔ x ∈ ks ∨ x ∈ reqs := by
  induction reqs with
  | nil => intro ks x; simp [firstSeenFrom]
  | cons h t ih =>
    intro ks x
    by_cases hm : h ∈ ks
    · simp only [firstSeenFrom, hm, if_true, ih, List.mem_cons]
      constructor
      · rintro (a | a)
        · exact Or.inl a
        · exact Or.inr (Or.inr a)
      · rintro (a | a | a)
        · exact Or.inl a
        · exact Or.inl (a ▸ hm)
        · exact Or.inr a
    · simp only [firstSeenFrom, hm, if_false, ih, List.mem_append, List.mem_singleton,
        List.mem_cons]
      tauto

theorem firstSeen_nodup (reqs : List Hostname) : (firstSeen reqs).Nodup :=
  firstSeenFrom_nodup reqs [] List.nodup_nil

theorem mem_firstSeen (reqs : List Hostname) (x : Hostname) : x ∈ firstSeen reqs ↔ x ∈ reqs := by
  simp [firstSeen, mem_firstSeenFrom]

theorem firstSeenFrom_of_nodup (reqs : List Hostname) :
    ∀ ks : List Hostname, (ks ++ reqs).Nodup → firstSeenFrom ks reqs = ks ++ reqs := by
  induction reqs with
  | nil => intro ks _; simp [firstSeenFrom]
  | cons h t ih =>
    intro ks hk
    have hm : h ∉ ks := by
      intro hm
      have := (List.nodup_append.mp hk).2.2
      exact this hm (by simp)
    have hk' : ((ks ++ [h]) ++ t).Nodup := by simpa using hk
    simp only [firstSeenFrom, hm, if_false, ih (ks ++ [h]) hk']
    simp

theorem firstSeen_of_nodup (reqs : List Hostname) (hk : reqs.Nodup) : firstSeen reqs = reqs := by
  simpa [firstSeen] using firstSeenFrom_of_nodup reqs [] (by simpa using hk)

theorem length_le_firstSeenFrom (reqs ks : List Hostname) :
    ks.length ≤ (firstSeenFrom ks reqs).length := by
  obtain ⟨r, hr⟩ := firstSeenFrom_prefix reqs ks
  simp [hr]

theorem indexOf_firstSeenFrom (reqs ks : List Hostname) (h : Hostname) (hm : h ∈ ks) :
    (firstSeenFrom ks reqs).indexOf h = ks.indexOf h := by
  obtain ⟨r, hr⟩ := firstSeenFrom_prefix reqs ks
  rw [hr, List.indexOf_append_of_mem hm]

/-- Running a request sequence from a store that holds `ks`: while at most 254
distinct hostnames are involved, every request is answered with the address
numbered by the hostname's rank of first appearance. -/
theorem GetAll_storeOf (reqs : List Hostname) :
    ∀ ks : List Hostname, ks.Nodup → (firstSeenFrom ks reqs).length ≤ 254 →
      (storeOf ks).GetAll reqs =
        (reqs.map (fun h => .ok (vipAddr ((firstSeenFrom ks reqs).indexOf h + 1))),
          storeOf (firstSeenFrom ks reqs)) := by
  induction reqs with
  | nil => intro ks _ _; simp [vipStore.GetAll, firstSeenFrom]
  | cons h t ih =>
    intro ks hk hlen
    by_cases hm : h ∈ ks
    · have hfs : firstSeenFrom ks (h :: t) = firstSeenFrom ks t := by simp [firstSeenFrom, hm]
      rw [hfs] at hlen ⊢
      simp only [vipStore.GetAll, Get_storeOf_mem ks h hm, ih ks hk hlen, List.map_cons,
        indexOf_firstSeenFrom t ks h hm]
    · have hfs : firstSeenFrom ks (h :: t) = firstSeenFrom (ks ++ [h]) t := by
        simp [firstSeenFrom, hm]
      rw [hfs] at hlen ⊢
      have hk' : (ks ++ [h]).Nodup := by
        rw [List.nodup_append]
        refine ⟨hk, List.nodup_singleton h, ?_⟩
        intro a ha hb
        rw [List.mem_singleton] at hb
        subst hb
        exact absurd ha hm
      have hl := length_le_firstSeenFrom t (ks ++ [h])
      have hlt : ks.length < 254 := by
        simp only [List.length_append, List.length_singleton] at hl
        omega
      have hidx : (firstSeenFrom (ks ++ [h]) t).indexOf h = ks.length := by
        rw [indexOf_firstSeenFrom t (ks ++ [h]) h (by simp)]
        have e : List.indexOf h (ks ++ [h]) = ks.length + List.indexOf h [h] :=
          List.indexOf_append_of_not_mem hm
        simpa using e
      simp only [vipStore.GetAll, Get_storeOf_new ks h hm hlt, ih (ks ++ [h]) hk' hlen,
        List.map_cons, hidx]

theorem GetAll_append (a : List Hostname) :
    ∀ (s : vipStore) (b : List Hostname),
      s.GetAll (a ++ b) =
        ((s.GetAll a).1 ++ ((s.GetAll a).2.GetAll b).1, ((s.GetAll a).2.GetAll b).2) := by
  induction a with
  | nil => intro s b; simp [vipStore.GetAll]
  | cons x xs ih => intro s b; simp [vipStore.GetAll, ih]

theorem Get_fresh (s : vipStore) (h : Hostname) (hq : s.reservations.get? h = none)
    (hc : (s.cursor + 1) % 256 ≤ 254) :
    s.Get h =
      (.ok (IP.String ⟨s.baseAddress.b0, s.baseAddress.b1, s.baseAddress.b2,
          (s.baseAddress.b3 + (s.cursor + 1) % 256) % 256⟩),
        { s with
          cursor := (s.cursor + 1) % 256
          reservations := s.reservations.set h
            (IP.String ⟨s.baseAddress.b0, s.baseAddress.b1, s.baseAddress.b2,
              (s.baseAddress.b3 + (s.cursor + 1) % 256) % 256⟩) }) := by
  have hc' : ¬ ((s.cursor + 1) % 256 > vipCapacity) := by simp only [vipCapacity]; omega
  unfold vipStore.Get
  simp only [hq, hc', if_false]

theorem hostN_injective : Function.Injective hostN := by
  intro i j e
  have := congrArg String.length e
  simpa [hostN, String.length] using this

theorem sampleHosts_nodup (n : Nat) : (sampleHosts n).Nodup :=
  (List.nodup_range n).map hostN_injective

theorem sampleHosts_length (n : Nat) : (sampleHosts n).length = n := by
  simp [sampleHosts]

theorem hostN_not_mem_sampleHosts (n k : Nat) (hk : n ≤ k) : hostN k ∉ sampleHosts n := by
  simp only [sampleHosts, List.mem_map, List.mem_range, not_exists, not_and]
  intro i hi e
  have := hostN_injective e
  omega

theorem sampleHosts_succ (n : Nat) : sampleHosts (n + 1) = sampleHosts n ++ [hostN n] := by
  simp [sampleHosts, List.range_succ]

/-- The run over the first 254 sample hostnames. -/
theorem GetAll_sampleHosts_254 :
    NewVIPStore.GetAll (sampleHosts 254) =
      ((sampleHosts 254).map (fun h => .ok (vipAddr ((sampleHosts 254).indexOf h + 1))),
        storeOf (sampleHosts 254)) := by
  have hfs : firstSeenFrom [] (sampleHosts 254) = sampleHosts 254 :=
    firstSeen_of_nodup _ (sampleHosts_nodup 254)
  have := GetAll_storeOf (sampleHosts 254) [] List.nodup_nil
    (by rw [hfs, sampleHosts_length])
  rw [hfs] at this
  exact this

theorem resFrom_keys (ks : List Hostname) : ∀ n : Nat, (resFrom n ks).keys = ks := by
  induction ks with
  | nil => intro n; rfl
  | cons k t ih =>
    intro n
    have := ih (n + 1)
    simp only [GoMap.keys] at this
    simp [resFrom, GoMap.keys, this]

theorem resFrom_length (ks : List Hostname) : ∀ n : Nat, (resFrom n ks).length = ks.length := by
  induction ks with
  | nil => intro n; rfl
  | cons k t ih => intro n; simp [resFrom, ih (n + 1)]

theorem Get_exhaustedStore_fresh (h : Hostname) (hn : h ∉ sampleHosts 254) :
    exhaustedStore.Get h =
      (.ok "169.254.255.0",
        { reservations := resFrom 0 (sampleHosts 254) ++ [(h, "169.254.255.0")]
          cursor := 0
          baseAddress := ⟨169, 254, 255, 0⟩ }) := by
  have hq : exhaustedStore.reservations.get? h = none := resFrom_get?_not_mem _ 0 h hn
  have e : (IP.String ⟨169, 254, 255, 0⟩ : String) = "169.254.255.0" := by decide
  rw [Get_fresh _ _ hq (by simp [exhaustedStore])]
  simp only [exhaustedStore, storeOf, Nat.reduceAdd, Nat.mod_self, Nat.zero_mod, e,
    GoMap.set_of_get?_none _ _ _ (resFrom_get?_not_mem _ 0 h hn)]

/-! ## Projector: lemmas -/

theorem foldl_append_singleton {α β : Type} (f : α → β) (l : List α) :
    ∀ acc : List β, l.foldl (fun acc x => acc ++ [f x]) acc = acc ++ l.map f := by
  induction l with
  | nil => intro acc; simp
  | cons x xs ih => intro acc; simp [ih]

theorem foldl_append_flatMap {α β : Type} (f : α → List β) (l : List α) :
    ∀ acc : List β, l.foldl (fun acc x => acc ++ f x) acc = acc ++ l.flatMap f := by
  induction l with
  | nil => intro acc; simp
  | cons x xs ih => intro acc; simp [ih]

theorem appendInstances_eq (instanceGroup : InstanceGroup) (vmInfo : VMInfo)
    (process : VMInfoProcess) (service : Service) (instances : List ServiceInstance) :
    appendInstances vmInfo ((instanceGroup.ExposedPorts.get? process.Name).getD []) service
        (instanceLabels vmInfo process) instances =
      instances ++ emitted instanceGroup service (vmInfo, process) := by
  unfold appendInstances emitted
  simp only [foldl_append_singleton, newInstance]
  exact foldl_append_flatMap _ _ _

theorem hostname_injective (suffix a b : String) (h : a ++ "." ++ suffix = b ++ "." ++ suffix) :
    a = b := by
  have h1 := congrArg String.data h
  simp only [String.data_append] at h1
  have h2 := List.append_cancel_right h1
  have h3 := List.append_cancel_right h2
  exact String.ext h3

theorem hostnameFor_eq (d g pn : String) :
    hostnameFor d g pn = pn ++ "." ++ (g ++ "." ++ d ++ ".boshy") := by
  simp [hostnameFor, String.append_assoc]

theorem flatMap_eq_nil_of_forall {α β : Type} (l : List α) (f : α → List β)
    (h : ∀ x ∈ l, f x = []) : l.flatMap f = [] := by
  induction l with
  | nil => rfl
  | cons x xs ih =>
    simp only [List.flatMap_cons, h x (List.mem_cons_self _ _), List.nil_append]
    exact ih (fun y hy => h y (List.mem_cons_of_mem _ hy))

theorem ProjInv_nil (suffix : String) (instanceGroup : InstanceGroup) :
    ProjInv suffix instanceGroup [] [] := by
  refine ⟨by simp [GoMap.keys], ?_, ?_⟩
  · intro k
    simp [GoMap.keys]
  · intro k e h
    simp [GoMap.get?] at h

/-- Writing the entry of the next pair keeps the invariant. -/
theorem ProjInv_set (suffix : String) (instanceGroup : InstanceGroup)
    (m : GoMap Hostname ServiceWithInstances) (done : List (VMInfo × VMInfoProcess))
    (vm : VMInfo) (p : VMInfoProcess) (x : ServiceWithInstances)
    (hinv : ProjInv suffix instanceGroup m done)
    (hx1 : x.Service.Hostname = p.Name ++ "." ++ suffix)
    (hx2 : x.Service.Ports = instanceGroup.ExposedPorts.get? p.Name)
    (hx3 : x.Instances =
      done.flatMap (fun q =>
        if q.2.Name ++ "." ++ suffix = p.Name ++ "." ++ suffix
        then emitted instanceGroup x.Service q else []) ++
      emitted instanceGroup x.Service (vm, p)) :
    ProjInv suffix instanceGroup (m.set (p.Name ++ "." ++ suffix) x) (done ++ [(vm, p)]) := by
  obtain ⟨hnd, hkeys, hent⟩ := hinv
  refine ⟨GoMap.keys_set_nodup m _ x hnd, ?_, ?_⟩
  · intro k
    rw [GoMap.mem_keys_set, hkeys k]
    constructor
    · rintro (e | ⟨q, hq, e⟩)
      · exact ⟨(vm, p), by simp, e.symm⟩
      · exact ⟨q, by simp [hq], e⟩
    · rintro ⟨q, hq, e⟩
      rcases List.mem_append.mp hq with h | h
      · exact Or.inr ⟨q, h, e⟩
      · rw [List.mem_singleton] at h
        subst h
        exact Or.inl e.symm
  · intro k e hke
    rw [GoMap.get?_set] at hke
    by_cases hk : p.Name ++ "." ++ suffix = k
    · simp only [hk, if_true, Option.some.injEq] at hke
      subst hke
      subst hk
      refine ⟨hx1, ?_, ?_⟩
      · intro pn hpn
        rw [hostname_injective suffix pn p.Name hpn]
        exact hx2
      · rw [hx3, List.flatMap_append]
        simp
    · simp only [hk, if_false] at hke
      obtain ⟨h1, h2, h3⟩ := hent k e hke
      refine ⟨h1, h2, ?_⟩
      rw [h3, List.flatMap_append]
      simp [hk]

theorem processStep_inv (suffix : String) (instanceGroup : InstanceGroup) (vm : VMInfo)
    (p : VMInfoProcess) (m m' : GoMap Hostname ServiceWithInstances) (s s' : vipStore)
    (done : List (VMInfo × VMInfoProcess)) (hinv : ProjInv suffix instanceGroup m done)
    (hok : processStep suffix instanceGroup vm (m, s) p = (.ok m', s')) :
    ProjInv suffix instanceGroup m' (done ++ [(vm, p)]) := by
  unfold processStep at hok
  simp only at hok
  cases hq : GoMap.get? m (p.Name ++ "." ++ suffix) with
  | some e0 =>
    simp only [hq, addInstances, appendInstances_eq, Prod.mk.injEq, Except.ok.injEq] at hok
    obtain ⟨h1, h2, h3⟩ := hinv.2.2 _ e0 hq
    rw [← hok.1]
    exact ProjInv_set suffix instanceGroup m done vm p _ hinv h1 (h2 p.Name rfl)
      (by simp only; rw [← h3])
  | none =>
    simp only [hq] at hok
    cases hG : s.Get (p.Name ++ "." ++ suffix) with
    | mk r s1 =>
      cases r with
      | error err => simp [hG] at hok
      | ok vip =>
        simp only [hG, addInstances, appendInstances_eq, GoMap.set_set, Prod.mk.injEq,
          Except.ok.injEq] at hok
        rw [← hok.1]
        have hnone : ∀ q ∈ done, ¬ (q.2.Name ++ "." ++ suffix = p.Name ++ "." ++ suffix) := by
          intro q hqd e
          have hk := (hinv.2.1 (p.Name ++ "." ++ suffix)).mpr ⟨q, hqd, e⟩
          exact (GoMap.get?_eq_none_iff m _).mp hq hk
        refine ProjInv_set suffix instanceGroup m done vm p _ hinv rfl rfl ?_
        rw [flatMap_eq_nil_of_forall]
        intro q hqd
        simp [hnone q hqd]

theorem processLoop_inv (suffix : String) (instanceGroup : InstanceGroup) (vm : VMInfo)
    (ps : List VMInfoProcess) :
    ∀ (m m' : GoMap Hostname ServiceWithInstances) (s s' : vipStore)
      (done : List (VMInfo × VMInfoProcess)), ProjInv suffix instanceGroup m done →
      processLoop suffix instanceGroup vm ps (m, s) = (.ok m', s') →
      ProjInv suffix instanceGroup m' (done ++ ps.map (fun p => (vm, p))) := by
  induction ps with
  | nil =>
    intro m m' s s' done hinv hok
    simp only [processLoop, Prod.mk.injEq, Except.ok.injEq] at hok
    simpa [← hok.1] using hinv
  | cons p rest ih =>
    intro m m' s s' done hinv hok
    simp only [processLoop] at hok
    cases hst : processStep suffix instanceGroup vm (m, s) p with
    | mk r s1 =>
      cases r with
      | error err => simp [hst] at hok
      | ok m1 =>
        simp only [hst] at hok
        have := ih m1 m' s1 s' _ (processStep_inv suffix instanceGroup vm p m m1 s s1 done hinv hst)
          hok
        simpa using this

theorem vmLoop_inv (suffix : String) (instanceGroup : InstanceGroup) (vms : List VMInfo) :
    ∀ (m m' : GoMap Hostname ServiceWithInstances) (s s' : vipStore)
      (done : List (VMInfo × VMInfoProcess)), ProjInv suffix instanceGroup m done →
      vmLoop suffix instanceGroup vms (m, s) = (.ok m', s') →
      ProjInv suffix instanceGroup m' (done ++ groupPairs vms) := by
  induction vms with
  | nil =>
    intro m m' s s' done hinv hok
    simp only [vmLoop, Prod.mk.injEq, Except.ok.injEq] at hok
    simpa [← hok.1, groupPairs] using hinv
  | cons vm rest ih =>
    intro m m' s s' done hinv hok
    simp only [vmLoop] at hok
    cases hst : processLoop suffix instanceGroup vm vm.Processes (m, s) with
    | mk r s1 =>
      cases r with
      | error err => simp [hst] at hok
      | ok m1 =>
        simp only [hst] at hok
        have := ih m1 m' s1 s' _
          (processLoop_inv suffix instanceGroup vm vm.Processes m m1 s s1 done hinv hst) hok
        simpa [groupPairs] using this

theorem GetServiceInstances_inv (s s' : vipStore) (d g : String) (instanceGroup : InstanceGroup)
    (m : GoMap Hostname ServiceWithInstances)
    (hok : GetServiceInstances s d g instanceGroup = (.ok m, s')) :
    ProjInv (g ++ "." ++ d ++ ".boshy") instanceGroup m (groupPairs instanceGroup.VMs) := by
  have := vmLoop_inv (g ++ "." ++ d ++ ".boshy") instanceGroup instanceGroup.VMs [] m s s' []
    (ProjInv_nil _ _) hok
  simpa using this

theorem mem_groupPairs (vms : List VMInfo) (q : VMInfo × VMInfoProcess) :
    q ∈ groupPairs vms ↔ ∃ vm ∈ vms, ∃ p ∈ vm.Processes, q = (vm, p) := by
  simp only [groupPairs, List.mem_flatMap, List.mem_map]
  constructor
  · rintro ⟨vm, hvm, p, hp, e⟩
    exact ⟨vm, hvm, p, hp, e.symm⟩
  · rintro ⟨vm, hvm, p, hp, e⟩
    exact ⟨vm, hvm, p, hp, e.symm⟩

theorem flatMap_if_eq_filter {α β : Type} (c : α → Prop) [DecidablePred c] (f : α → List β)
    (l : List α) :
    l.flatMap (fun x => if c x then f x else []) = (l.filter (fun x => decide (c x))).flatMap f := by
  induction l with
  | nil => rfl
  | cons x xs ih =>
    by_cases h : c x
    · simp [List.filter_cons, h, ih]
    · simp [List.filter_cons, h, ih]

theorem flatMap_groupPairs {β : Type} (f : VMInfo × VMInfoProcess → List β) (vms : List VMInfo) :
    (groupPairs vms).flatMap f = vms.flatMap (fun vm => vm.Processes.flatMap (fun p => f (vm, p))) := by
  induction vms with
  | nil => rfl
  | cons vm rest ih =>
    have ih' : (groupPairs rest).flatMap f =
        rest.flatMap (fun vm => vm.Processes.flatMap (fun p => f (vm, p))) := ih
    have e : groupPairs (vm :: rest) = vm.Processes.map (fun p => (vm, p)) ++ groupPairs rest := by
      simp [groupPairs]
    rw [e, List.flatMap_append, ih', List.flatMap_cons]
    congr 1
    generalize vm.Processes = ps
    induction ps with
    | nil => rfl
    | cons p ps ihp => simp [ihp]

theorem ProjInv_instances (suffix : String) (instanceGroup : InstanceGroup)
    (m : GoMap Hostname ServiceWithInstances) (pn : String) (e : ServiceWithInstances)
    (hinv : ProjInv suffix instanceGroup m (groupPairs instanceGroup.VMs))
    (hk : m.get? (pn ++ "." ++ suffix) = some e) :
    e.Instances = expectedInstances instanceGroup pn e.Service := by
  rw [(hinv.2.2 _ e hk).2.2, flatMap_groupPairs, expectedInstances]
  congr 1
  funext vm
  rw [flatMap_if_eq_filter (fun p : VMInfoProcess => p.Name ++ "." ++ suffix = pn ++ "." ++ suffix)]
  congr 1
  apply List.filter_congr
  intro p _
  by_cases h : p.Name = pn
  · simp [h]
  · have h' : ¬ (p.Name ++ "." ++ suffix = pn ++ "." ++ suffix) :=
      fun e => h (hostname_injective suffix _ _ e)
    simp [h, h']

theorem emitted_length (instanceGroup : InstanceGroup) (service : Service)
    (q : VMInfo × VMInfoProcess) :
    (emitted instanceGroup service q).length =
      q.1.IPs.length * ((instanceGroup.ExposedPorts.get? q.2.Name).getD []).length := by
  unfold emitted
  generalize q.1.IPs = ips
  induction ips with
  | nil => simp
  | cons ip rest ih =>
    simp only [List.flatMap_cons, List.length_append, List.length_map, ih, List.length_cons]
    ring

theorem expectedInstances_length (instanceGroup : InstanceGroup) (pn : String)
    (service : Service) :
    (expectedInstances instanceGroup pn service).length =
      (instanceGroup.VMs.map (fun vm =>
        (vm.Processes.filter (fun p => p.Name = pn)).length *
          (vm.IPs.length * ((instanceGroup.ExposedPorts.get? pn).getD []).length))).sum := by
  unfold expectedInstances
  generalize instanceGroup.VMs = vms
  induction vms with
  | nil => rfl
  | cons vm rest ih =>
    simp only [List.flatMap_cons, List.length_append, ih, List.map_cons, List.sum_cons]
    congr 1
    have hall : ∀ ps : List VMInfoProcess, (∀ p ∈ ps, p.Name = pn) →
        (ps.flatMap (fun p => emitted instanceGroup service (vm, p))).length =
          ps.length * (vm.IPs.length * ((instanceGroup.ExposedPorts.get? pn).getD []).length) := by
      intro ps
      induction ps with
      | nil => intro _; simp
      | cons p ps ihp =>
        intro hp
        have h1 : p.Name = pn := hp p (List.mem_cons_self _ _)
        simp only [List.flatMap_cons, List.length_append, emitted_length, h1, List.length_cons,
          ihp (fun x hx => hp x (List.mem_cons_of_mem _ hx))]
        ring
    apply hall
    intro p hp
    simpa using (List.mem_filter.mp hp).2

theorem mem_expectedInstances (instanceGroup : InstanceGroup) (pn : String) (service : Service)
    (i : ServiceInstance) (hi : i ∈ expectedInstances instanceGroup pn service) :
    i.Service = service ∧
      i.Endpoint.ServicePort ∈ (instanceGroup.ExposedPorts.get? pn).getD [] ∧
      i.Endpoint.Port = i.Endpoint.ServicePort.Port ∧
      ∃ vm ∈ instanceGroup.VMs, i.Endpoint.Address ∈ vm.IPs := by
  simp only [expectedInstances, emitted, List.mem_flatMap, List.mem_filter, List.mem_map,
    decide_eq_true_eq] at hi
  obtain ⟨vm, hvm, p, ⟨_, hpn⟩, ip, hip, sp, hsp, rfl⟩ := hi
  rw [hpn] at hsp
  exact ⟨rfl, hsp, rfl, vm, hvm, hip⟩

/-! ## Rebuild: lemmas -/

theorem Get_error (s : vipStore) (h : Hostname) (err : String) (he : (s.Get h).1 = .error err) :
    err = vipExhausted := by
  unfold vipStore.Get at he
  cases hq : s.reservations.get? h with
  | some v => simp [hq] at he
  | none =>
    simp only [hq] at he
    by_cases hc : (s.cursor + 1) % 256 > vipCapacity
    · simp only [hc, if_true, Except.error.injEq] at he
      exact he.symm
    · simp [hc] at he

theorem processStep_error (suffix : String) (instanceGroup : InstanceGroup) (vm : VMInfo)
    (p : VMInfoProcess) (st : GoMap Hostname ServiceWithInstances × vipStore) (err : String)
    (he : (processStep suffix instanceGroup vm st p).1 = .error err) : err = vipExhausted := by
  unfold processStep at he
  simp only at he
  cases hq : GoMap.get? st.1 (p.Name ++ "." ++ suffix) with
  | some e0 => simp [hq] at he
  | none =>
    simp only [hq] at he
    cases hG : st.2.Get (p.Name ++ "." ++ suffix) with
    | mk r s1 =>
      cases r with
      | error e1 =>
        simp only [hG, Except.error.injEq] at he
        subst he
        exact Get_error st.2 _ e1 (by rw [hG])
      | ok vip => simp [hG] at he

theorem processLoop_error (suffix : String) (instanceGroup : InstanceGroup) (vm : VMInfo)
    (ps : List VMInfoProcess) :
    ∀ (st : GoMap Hostname ServiceWithInstances × vipStore) (err : String),
      (processLoop suffix instanceGroup vm ps st).1 = .error err → err = vipExhausted := by
  induction ps with
  | nil => intro st err he; simp [processLoop] at he
  | cons p rest ih =>
    intro st err he
    simp only [processLoop] at he
    cases hst : processStep suffix instanceGroup vm st p with
    | mk r s1 =>
      cases r with
      | error e1 =>
        simp only [hst, Except.error.injEq] at he
        subst he
        exact processStep_error suffix instanceGroup vm p st e1 (by rw [hst])
      | ok m1 =>
        simp only [hst] at he
        exact ih _ err he

theorem vmLoop_error (suffix : String) (instanceGroup : InstanceGroup) (vms : List VMInfo) :
    ∀ (st : GoMap Hostname ServiceWithInstances × vipStore) (err : String),
      (vmLoop suffix instanceGroup vms st).1 = .error err → err = vipExhausted := by
  induction vms with
  | nil => intro st err he; simp [vmLoop] at he
  | cons vm rest ih =>
    intro st err he
    simp only [vmLoop] at he
    cases hst : processLoop suffix instanceGroup vm vm.Processes st with
    | mk r s1 =>
      cases r with
      | error e1 =>
        simp only [hst, Except.error.injEq] at he
        subst he
        exact processLoop_error suffix instanceGroup vm vm.Processes st e1 (by rw [hst])
      | ok m1 =>
        simp only [hst] at he
        exact ih _ err he

/-- The only error of `GetServiceInstances` is the allocator's exhaustion error. -/
theorem GetServiceInstances_error (s : vipStore) (d g : String) (instanceGroup : InstanceGroup)
    (err : String) (he : (GetServiceInstances s d g instanceGroup).1 = .error err) :
    err = vipExhausted :=
  vmLoop_error _ instanceGroup instanceGroup.VMs _ err he

theorem processStep_KeysReserved (suffix : String) (instanceGroup : InstanceGroup) (vm : VMInfo)
    (p : VMInfoProcess) (st : GoMap Hostname ServiceWithInstances × vipStore)
    (m : GoMap Hostname ServiceWithInstances) (s : vipStore) (hst : KeysReserved st)
    (hok : processStep suffix instanceGroup vm st p = (.ok m, s)) : KeysReserved (m, s) := by
  unfold processStep at hok
  simp only at hok
  cases hq : GoMap.get? st.1 (p.Name ++ "." ++ suffix) with
  | some e0 =>
    simp only [hq, Prod.mk.injEq, Except.ok.injEq] at hok
    obtain ⟨hm, hs⟩ := hok
    subst hm
    subst hs
    intro k hk
    simp only [addInstances] at hk
    rcases (GoMap.mem_keys_set st.1 _ k _).mp hk with e | e
    · subst e
      exact hst _ ((GoMap.mem_keys_iff st.1 _).mpr ⟨e0, hq⟩)
    · exact hst k e
  | none =>
    simp only [hq] at hok
    cases hG : st.2.Get (p.Name ++ "." ++ suffix) with
    | mk r s1 =>
      cases r with
      | error e1 => simp [hG] at hok
      | ok vip =>
        simp only [hG, Prod.mk.injEq, Except.ok.injEq] at hok
        obtain ⟨hm, hs⟩ := hok
        subst hm
        subst hs
        have hres : GoMap.get? s1.reservations (p.Name ++ "." ++ suffix) = some vip := by
          have := Get_ok_reserves st.2 (p.Name ++ "." ++ suffix) vip (by rw [hG])
          rw [hG] at this
          exact this
        intro k hk
        simp only [addInstances] at hk
        rcases (GoMap.mem_keys_set _ _ k _).mp hk with e | e
        · subst e
          exact ⟨vip, hres⟩
        · rcases (GoMap.mem_keys_set st.1 _ k _).mp e with e' | e'
          · subst e'
            exact ⟨vip, hres⟩
          · obtain ⟨a, ha⟩ := hst k e'
            have := Get_keeps_reserved st.2 k (p.Name ++ "." ++ suffix) a ha
            rw [hG] at this
            exact ⟨a, this⟩

theorem processLoop_KeysReserved (suffix : String) (instanceGroup : InstanceGroup) (vm : VMInfo)
    (ps : List VMInfoProcess) :
    ∀ (st : GoMap Hostname ServiceWithInstances × vipStore)
      (m : GoMap Hostname ServiceWithInstances) (s : vipStore), KeysReserved st →
      processLoop suffix instanceGroup vm ps st = (.ok m, s) → KeysReserved (m, s) := by
  induction ps with
  | nil =>
    intro st m s hst hok
    simp only [processLoop, Prod.mk.injEq, Except.ok.injEq] at hok
    obtain ⟨hm, hs⟩ := hok
    subst hm
    subst hs
    exact hst
  | cons p rest ih =>
    intro st m s hst hok
    simp only [processLoop] at hok
    cases hp : processStep suffix instanceGroup vm st p with
    | mk r s1 =>
      cases r with
      | error e1 => simp [hp] at hok
      | ok m1 =>
        simp only [hp] at hok
        exact ih _ m s (processStep_KeysReserved suffix instanceGroup vm p st m1 s1 hst hp) hok

theorem vmLoop_KeysReserved (suffix : String) (instanceGroup : InstanceGroup)
    (vms : List VMInfo) :
    ∀ (st : GoMap Hostname ServiceWithInstances × vipStore)
      (m : GoMap Hostname ServiceWithInstances) (s : vipStore), KeysReserved st →
      vmLoop suffix instanceGroup vms st = (.ok m, s) → KeysReserved (m, s) := by
  induction vms with
  | nil =>
    intro st m s hst hok
    simp only [vmLoop, Prod.mk.injEq, Except.ok.injEq] at hok
    obtain ⟨hm, hs⟩ := hok
    subst hm
    subst hs
    exact hst
  | cons vm rest ih =>
    intro st m s hst hok
    simp only [vmLoop] at hok
    cases hp : processLoop suffix instanceGroup vm vm.Processes st with
    | mk r s1 =>
      cases r with
      | error e1 => simp [hp] at hok
      | ok m1 =>
        simp only [hp] at hok
        exact ih _ m s
          (processLoop_KeysReserved suffix instanceGroup vm vm.Processes st m1 s1 hst hp) hok

/-- An allocator error for the hostname of the process at hand fails the loop body:
the hostname has no entry yet, so `Get` is called and its error is returned. -/
theorem processStep_of_Get_error (suffix : String) (instanceGroup : InstanceGroup) (vm : VMInfo)
    (p : VMInfoProcess) (st : GoMap Hostname ServiceWithInstances × vipStore) (err : String)
    (hst : KeysReserved st) (hG : (st.2.Get (p.Name ++ "." ++ suffix)).1 = .error err) :
    (processStep suffix instanceGroup vm st p).1 = .error err := by
  have hq : GoMap.get? st.1 (p.Name ++ "." ++ suffix) = none := by
    cases hq : GoMap.get? st.1 (p.Name ++ "." ++ suffix) with
    | none => rfl
    | some e0 =>
      obtain ⟨a, ha⟩ := hst _ ((GoMap.mem_keys_iff st.1 _).mpr ⟨e0, hq⟩)
      rw [Get_of_reserved st.2 _ a ha] at hG
      cases hG
  unfold processStep
  simp only [hq]
  cases hG' : st.2.Get (p.Name ++ "." ++ suffix) with
  | mk r s1 =>
    cases r with
    | error e1 =>
      rw [hG'] at hG
      simpa using hG
    | ok vip =>
      rw [hG'] at hG
      cases hG

theorem processLoop_split_error (suffix : String) (instanceGroup : InstanceGroup) (vm : VMInfo)
    (ppre : List VMInfoProcess) (p : VMInfoProcess) (ppost : List VMInfoProcess) (err : String) :
    ∀ (st : GoMap Hostname ServiceWithInstances × vipStore)
      (m : GoMap Hostname ServiceWithInstances) (s : vipStore),
      processLoop suffix instanceGroup vm ppre st = (.ok m, s) →
      (processStep suffix instanceGroup vm (m, s) p).1 = .error err →
      (processLoop suffix instanceGroup vm (ppre ++ p :: ppost) st).1 = .error err := by
  induction ppre with
  | nil =>
    intro st m s hpre hp
    simp only [processLoop, Prod.mk.injEq, Except.ok.injEq] at hpre
    obtain ⟨hm, hs⟩ := hpre
    have hst : st = (m, s) := by rw [← hm, ← hs]
    subst hst
    simp only [List.nil_append, processLoop]
    cases hq : processStep suffix instanceGroup vm (m, s) p with
    | mk r s1 =>
      cases r with
      | error e1 =>
        rw [hq] at hp
        simpa using hp
      | ok m1 =>
        rw [hq] at hp
        cases hp
  | cons q rest ih =>
    intro st m s hpre hp
    simp only [processLoop] at hpre
    simp only [List.cons_append, processLoop]
    cases hq : processStep suffix instanceGroup vm st q with
    | mk r s1 =>
      cases r with
      | error e1 => simp [hq] at hpre
      | ok m1 =>
        simp only [hq] at hpre
        exact ih _ m s hpre hp

theorem vmLoop_split_error (suffix : String) (instanceGroup : InstanceGroup)
    (vpre : List VMInfo) (vm : VMInfo) (vpost : List VMInfo) (err : String) :
    ∀ (st : GoMap Hostname ServiceWithInstances × vipStore)
      (m : GoMap Hostname ServiceWithInstances) (s : vipStore),
      vmLoop suffix instanceGroup vpre st = (.ok m, s) →
      (processLoop suffix instanceGroup vm vm.Processes (m, s)).1 = .error err →
      (vmLoop suffix instanceGroup (vpre ++ vm :: vpost) st).1 = .error err := by
  induction vpre with
  | nil =>
    intro st m s hpre hp
    simp only [vmLoop, Prod.mk.injEq, Except.ok.injEq] at hpre
    obtain ⟨hm, hs⟩ := hpre
    have hst : st = (m, s) := by rw [← hm, ← hs]
    subst hst
    simp only [List.nil_append, vmLoop]
    cases hq : processLoop suffix instanceGroup vm vm.Processes (m, s) with
    | mk r s1 =>
      cases r with
      | error e1 =>
        rw [hq] at hp
        simpa using hp
      | ok m1 =>
        rw [hq] at hp
        cases hp
  | cons q rest ih =>
    intro st m s hpre hp
    simp only [vmLoop] at hpre
    simp only [List.cons_append, vmLoop]
    cases hq : processLoop suffix instanceGroup q q.Processes st with
    | mk r s1 =>
      cases r with
      | error e1 => simp [hq] at hpre
      | ok m1 =>
        simp only [hq] at hpre
        exact ih _ m s hpre hp

/-- An allocator error at any process of any VM of the group fails
`GetServiceInstances`: `vpre` and `ppre` are the VMs and the processes of `vm`
handled before, and `s3` is the allocator state they leave. -/
theorem GetServiceInstances_of_Get_error (s1 : vipStore) (d g : String)
    (instanceGroup : InstanceGroup) (vpre : List VMInfo) (vm : VMInfo) (vpost : List VMInfo)
    (m2 : GoMap Hostname ServiceWithInstances) (s2 : vipStore)
    (ppre : List VMInfoProcess) (p : VMInfoProcess) (ppost : List VMInfoProcess)
    (m3 : GoMap Hostname ServiceWithInstances) (s3 : vipStore) (err : String)
    (hvms : instanceGroup.VMs = vpre ++ vm :: vpost)
    (hvpre : vmLoop (g ++ "." ++ d ++ ".boshy") instanceGroup vpre ([], s1) = (.ok m2, s2))
    (hps : vm.Processes = ppre ++ p :: ppost)
    (hppre : processLoop (g ++ "." ++ d ++ ".boshy") instanceGroup vm ppre (m2, s2) =
      (.ok m3, s3))
    (hG : (s3.Get (p.Name ++ "." ++ (g ++ "." ++ d ++ ".boshy"))).1 = .error err) :
    (GetServiceInstances s1 d g instanceGroup).1 = .error err := by
  have h0 : KeysReserved (([] : GoMap Hostname ServiceWithInstances), s1) := by
    intro k hk
    simp [GoMap.keys] at hk
  have h2 := vmLoop_KeysReserved _ instanceGroup vpre _ m2 s2 h0 hvpre
  have h3 := processLoop_KeysReserved _ instanceGroup vm ppre _ m3 s3 h2 hppre
  have hstep := processStep_of_Get_error _ instanceGroup vm p (m3, s3) err h3 hG
  have hloop := processLoop_split_error _ instanceGroup vm ppre p ppost err _ m3 s3 hppre hstep
  rw [← hps] at hloop
  have hv := vmLoop_split_error _ instanceGroup vpre vm vpost err _ m2 s2 hvpre hloop
  rw [← hvms] at hv
  exact hv

theorem example_hostname_not_sample (n : Nat) : "p1.g1.d1.boshy" ∉ sampleHosts n := by
  simp only [sampleHosts, List.mem_map, List.mem_range, not_exists, not_and]
  intro i _ e
  have := congrArg (fun s : String => s.data.head?) e
  simp [hostN, List.replicate_succ] at this

theorem visitsLoop_append (order : RangeOrder)
    (a : List (DeploymentName × InstanceGroupName × InstanceGroup)) :
    ∀ (b : List (DeploymentName × InstanceGroupName × InstanceGroup))
      (st : GoMap Hostname ServiceWithInstances × vipStore),
      visitsLoop order (a ++ b) st =
        match visitsLoop order a st with
        | (.error err, s) => (.error err, s)
        | (.ok m, s) => visitsLoop order b (m, s) := by
  induction a with
  | nil => intro b st; simp [visitsLoop]
  | cons v rest ih =>
    intro b st
    simp only [List.cons_append, visitsLoop]
    cases hst : GetServiceInstances st.2 v.1 v.2.1 v.2.2 with
    | mk r s1 =>
      cases r with
      | error e1 => simp
      | ok m1 => exact ih b _

theorem groupsLoop_eq_visitsLoop (order : RangeOrder) (d : DeploymentName)
    (gs : List (InstanceGroupName × InstanceGroup)) :
    ∀ st : GoMap Hostname ServiceWithInstances × vipStore,
      groupsLoop order d gs st = visitsLoop order (gs.map (fun g => (d, g.1, g.2))) st := by
  induction gs with
  | nil => intro st; rfl
  | cons g rest ih =>
    intro st
    simp only [groupsLoop, List.map_cons, visitsLoop]
    cases hst : GetServiceInstances st.2 d g.1 g.2 with
    | mk r s1 =>
      cases r with
      | error e1 => rfl
      | ok m1 => simp only [ih]

theorem allDeploymentsLoop_eq_visitsLoop (order : RangeOrder)
    (ds : List (DeploymentName × Deployment)) :
    ∀ st : GoMap Hostname ServiceWithInstances × vipStore,
      allDeploymentsLoop order ds st =
        visitsLoop order
          (ds.flatMap (fun d => (order.groups d.2).map (fun g => (d.1, g.1, g.2)))) st := by
  induction ds with
  | nil => intro st; rfl
  | cons d rest ih =>
    intro st
    simp only [allDeploymentsLoop, List.flatMap_cons, visitsLoop_append,
      groupsLoop_eq_visitsLoop]
    cases hst : visitsLoop order (List.map (fun g => (d.1, g.1, g.2)) (order.groups d.2)) st with
    | mk r s1 =>
      cases r with
      | error e1 => rfl
      | ok m1 => simp only [ih]

theorem deploymentsLoop_error_of_mem
    (yamlUnmarshal : String → Except String ManifestWithExposedPorts)
    (ds : List DirectorDeployment) :
    ∀ (acc : AllDeployments) (dep : DirectorDeployment), dep ∈ ds →
      ((∃ err, GetManifestWithPortExposures yamlUnmarshal dep = .error err) ∨
        (∃ err, dep.InstanceInfos = .error err)) →
      ∃ err, deploymentsLoop yamlUnmarshal ds acc = .error err := by
  induction ds with
  | nil => intro acc dep hd; cases hd
  | cons x rest ih =>
    intro acc dep hd hbad
    simp only [deploymentsLoop]
    cases hm : GetManifestWithPortExposures yamlUnmarshal x with
    | error e1 => exact ⟨_, rfl⟩
    | ok mf =>
      cases hi : x.InstanceInfos with
      | error e2 => exact ⟨_, rfl⟩
      | ok vms =>
        simp only
        rcases List.mem_cons.mp hd with e | e
        · subst e
          rcases hbad with ⟨err, h⟩ | ⟨err, h⟩
          · rw [hm] at h
            cases h
          · rw [hi] at h
            cases h
        · exact ih _ dep e hbad

theorem deploymentsLoop_ok (yamlUnmarshal : String → Except String ManifestWithExposedPorts)
    (ds : List DirectorDeployment) :
    ∀ (acc ad : AllDeployments), deploymentsLoop yamlUnmarshal ds acc = .ok ad →
      (∀ dep ∈ ds, ∃ mf vms, GetManifestWithPortExposures yamlUnmarshal dep = .ok mf ∧
        dep.InstanceInfos = .ok vms) ∧
      (∀ dn D, ad.get? dn = some D → acc.get? dn = some D ∨
        ∃ dep ∈ ds, dep.Name = dn ∧ ∃ mf vms,
          GetManifestWithPortExposures yamlUnmarshal dep = .ok mf ∧
          dep.InstanceInfos = .ok vms ∧ D = buildDeployment mf vms) := by
  induction ds with
  | nil =>
    intro acc ad h
    simp only [deploymentsLoop, Except.ok.injEq] at h
    subst h
    exact ⟨fun dep hd => (by cases hd), fun dn D h => Or.inl h⟩
  | cons x rest ih =>
    intro acc ad h
    simp only [deploymentsLoop] at h
    cases hm : GetManifestWithPortExposures yamlUnmarshal x with
    | error e1 => simp [hm] at h
    | ok mf =>
      cases hi : x.InstanceInfos with
      | error e2 => simp [hm, hi] at h
      | ok vms =>
        simp only [hm, hi] at h
        obtain ⟨h1, h2⟩ := ih _ ad h
        constructor
        · intro dep hd
          rcases List.mem_cons.mp hd with e | e
          · subst e
            exact ⟨mf, vms, hm, hi⟩
          · exact h1 dep e
        · intro dn D hD
          rcases h2 dn D hD with hacc | ⟨dep, hdep, hn, mf', vms', a, b, c⟩
          · rw [GoMap.get?_set] at hacc
            by_cases hx : x.Name = dn
            · simp only [hx, if_true, Option.some.injEq] at hacc
              exact Or.inr ⟨x, List.mem_cons_self _ _, hx, mf, vms, hm, hi, hacc.symm⟩
            · simp only [hx, if_false] at hacc
              exact Or.inl hacc
          · exact Or.inr ⟨dep, List.mem_cons_of_mem _ hdep, hn, mf', vms', a, b, c⟩

theorem GetManifest_error_iff (yamlUnmarshal : String → Except String ManifestWithExposedPorts)
    (dep : DirectorDeployment) :
    (∃ err, GetManifestWithPortExposures yamlUnmarshal dep = .error err) ↔
      (∃ err, dep.Manifest = .error err) ∨
        ∃ text err, dep.Manifest = .ok text ∧ yamlUnmarshal text = .error err := by
  unfold GetManifestWithPortExposures
  cases hm : dep.Manifest with
  | error e1 => simp
  | ok text =>
    cases hy : yamlUnmarshal text with
    | error e2 => simp [hy]
    | ok mf => simp [hy]

/-- A rebuild on a stale cache, in terms of `GetDeployments` and the visit loop. -/
theorem GetAllServiceInstances_stale
    (yamlUnmarshal : String → Except String ManifestWithExposedPorts) (order : RangeOrder)
    (director : Director) (now stamp : Int) (c : Client) (hstale : c.cacheIsFresh now = false) :
    c.GetAllServiceInstances yamlUnmarshal order director now stamp =
      match GetDeployments yamlUnmarshal director with
      | .error err => (.error ("bosh client: " ++ err), { c with rebuilds := c.rebuilds + 1 })
      | .ok allDeployments =>
        match visitsLoop order (visits order allDeployments) ([], c.virtualIPs) with
        | (.error err, virtualIPs) =>
          (.error err, { c with rebuilds := c.rebuilds + 1, virtualIPs := virtualIPs })
        | (.ok servicesMap, virtualIPs) =>
          (.ok servicesMap,
            { c with
              rebuilds := c.rebuilds + 1
              virtualIPs := virtualIPs
              allInstancesCache := some servicesMap
              cachedFrom := stamp }) := by
  unfold Client.GetAllServiceInstances
  simp only [hstale, Bool.false_eq_true, if_false, allDeploymentsLoop_eq_visitsLoop, visits]

theorem visitsLoop_split_ok (order : RangeOrder)
    (pre post : List (DeploymentName × InstanceGroupName × InstanceGroup))
    (x : DeploymentName × InstanceGroupName × InstanceGroup)
    (st : GoMap Hostname ServiceWithInstances × vipStore)
    (m : GoMap Hostname ServiceWithInstances) (s : vipStore)
    (h : visitsLoop order (pre ++ x :: post) st = (.ok m, s)) :
    ∃ m1 s1 mx sx, visitsLoop order pre st = (.ok m1, s1) ∧
      GetServiceInstances s1 x.1 x.2.1 x.2.2 = (.ok mx, sx) := by
  rw [visitsLoop_append] at h
  cases hp : visitsLoop order pre st with
  | mk r s1 =>
    cases r with
    | error e1 => simp [hp] at h
    | ok m1 =>
      simp only [hp, visitsLoop] at h
      cases hx : GetServiceInstances s1 x.1 x.2.1 x.2.2 with
      | mk rx sx =>
        cases rx with
        | error e2 => simp [hx] at h
        | ok mx => exact ⟨m1, s1, mx, sx, rfl, hx⟩

theorem visitsLoop_split_error (order : RangeOrder)
    (pre post : List (DeploymentName × InstanceGroupName × InstanceGroup))
    (x : DeploymentName × InstanceGroupName × InstanceGroup)
    (st : GoMap Hostname ServiceWithInstances × vipStore)
    (m1 : GoMap Hostname ServiceWithInstances) (s1 : vipStore) (err : String)
    (hpre : visitsLoop order pre st = (.ok m1, s1))
    (hx : (GetServiceInstances s1 x.1 x.2.1 x.2.2).1 = .error err) :
    (visitsLoop order (pre ++ x :: post) st).1 = .error ("get service instances: " ++ err) := by
  rw [visitsLoop_append]
  simp only [hpre, visitsLoop]
  cases hg : GetServiceInstances s1 x.1 x.2.1 x.2.2 with
  | mk rx sx =>
    cases rx with
    | error e2 =>
      simp only [hg, Except.error.injEq] at hx
      simp [hx]
    | ok mx => simp [hg] at hx

/-! ## GetDeployments: lemmas -/

theorem jobExposedPorts_eq (job : ManifestJob) :
    jobExposedPorts job = job.ExposePorts.map declaredPort := by
  unfold jobExposedPorts
  have := foldl_append_singleton declaredPort job.ExposePorts []
  simpa [declaredPort] using this

theorem manifestExposedPorts_eq (mf : ManifestWithExposedPorts) (g : InstanceGroupName) :
    manifestExposedPorts mf g =
      (jobsOf mf g).foldl
        (fun (exposed : GoMap JobName (List Port)) job =>
          GoMap.set exposed job.Name (jobExposedPorts job)) [] := by
  unfold manifestExposedPorts jobsOf
  generalize ([] : GoMap JobName (List Port)) = acc
  induction mf.InstanceGroups generalizing acc with
  | nil => rfl
  | cons ig rest ih =>
    by_cases h : ig.Name = g
    · simp only [List.foldl_cons, h, ne_eq, not_true_eq_false, if_false, List.filter_cons,
        decide_True, if_true, List.flatMap_cons, List.foldl_append]
      exact ih _
    · simp only [List.foldl_cons, h, ne_eq, not_false_eq_true, if_true, List.filter_cons,
        decide_False]
      exact ih _

theorem get?_foldl_set_jobs (jobs : List ManifestJob) (j : JobName) :
    ∀ acc : GoMap JobName (List Port),
      GoMap.get? (jobs.foldl
        (fun (exposed : GoMap JobName (List Port)) job =>
          GoMap.set exposed job.Name (jobExposedPorts job)) acc) j =
        match lastNamed jobs j with
        | some job => some (jobExposedPorts job)
        | none => acc.get? j := by
  induction jobs with
  | nil => intro acc; rfl
  | cons job rest ih =>
    intro acc
    simp only [List.foldl_cons, ih]
    by_cases h : job.Name = j
    · have hf : (job :: rest).filter (fun x => decide (x.Name = j)) =
          job :: rest.filter (fun x => decide (x.Name = j)) := by simp [List.filter_cons, h]
      unfold lastNamed
      rw [hf, List.getLast?_cons]
      cases hl : (rest.filter (fun x => decide (x.Name = j))).getLast? with
      | none => simp [h, GoMap.get?_set_self]
      | some y => rfl
    · have hf : (job :: rest).filter (fun x => decide (x.Name = j)) =
          rest.filter (fun x => decide (x.Name = j)) := by simp [List.filter_cons, h]
      unfold lastNamed
      rw [hf]
      cases hl : (rest.filter (fun x => decide (x.Name = j))).getLast? with
      | none => simp [GoMap.get?_set_ne _ _ h]
      | some y => rfl

theorem lastNamed_spec (jobs : List ManifestJob) (j : JobName) (job : ManifestJob)
    (h : lastNamed jobs j = some job) : job ∈ jobs ∧ job.Name = j := by
  unfold lastNamed at h
  have hm := List.mem_of_getLast?_eq_some h
  have := List.mem_filter.mp hm
  exact ⟨this.1, by simpa using this.2⟩

theorem lastNamed_isSome (jobs : List ManifestJob) (job : ManifestJob) (h : job ∈ jobs) :
    ∃ last, lastNamed jobs job.Name = some last := by
  unfold lastNamed
  have hm : job ∈ jobs.filter (fun x => decide (x.Name = job.Name)) :=
    List.mem_filter.mpr ⟨h, by simp⟩
  cases hl : (jobs.filter (fun x => decide (x.Name = job.Name))).getLast? with
  | none =>
    rw [List.getLast?_eq_none_iff] at hl
    rw [hl] at hm
    cases hm
  | some y => exact ⟨y, rfl⟩

theorem get?_foldl_addVM (mf : ManifestWithExposedPorts) (g : InstanceGroupName)
    (vms : List VMInfo) :
    ∀ acc : Deployment,
      (vms.foldl (addVM mf) acc).get? g =
        match acc.get? g with
        | some ig => some { ig with VMs := ig.VMs ++ vms.filter (fun vm => vm.JobName = g) }
        | none =>
          if vms.filter (fun vm => vm.JobName = g) = [] then none
          else some { VMs := vms.filter (fun vm => vm.JobName = g)
                      ExposedPorts := manifestExposedPorts mf g } := by
  induction vms with
  | nil =>
    intro acc
    cases h : GoMap.get? acc g <;> simp [h]
  | cons vm rest ih =>
    intro acc
    simp only [List.foldl_cons, ih]
    by_cases hv : vm.JobName = g
    · subst hv
      simp only [addVM, GoMap.get?_set_self, List.filter_cons, decide_True, if_true]
      cases h : GoMap.get? acc vm.JobName with
      | some ig => simp
      | none => simp
    · have hne : ¬ (vm.JobName = g) := hv
      simp only [addVM, GoMap.get?_set_ne _ _ hne, List.filter_cons, hv, decide_False]
      rfl

theorem buildDeployment_get? (mf : ManifestWithExposedPorts) (vms : List VMInfo)
    (g : InstanceGroupName) (hg : ∃ vm ∈ vms, vm.JobName = g) :
    (buildDeployment mf vms).get? g =
      some { VMs := vms.filter (fun vm => vm.JobName = g)
             ExposedPorts := manifestExposedPorts mf g } := by
  unfold buildDeployment
  rw [get?_foldl_addVM]
  have hne : vms.filter (fun vm => decide (vm.JobName = g)) ≠ [] := by
    obtain ⟨vm, hvm, hj⟩ := hg
    intro h
    have : vm ∈ vms.filter (fun vm => decide (vm.JobName = g)) :=
      List.mem_filter.mpr ⟨hvm, by simp [hj]⟩
    rw [h] at this
    cases this
  simp [GoMap.get?, hne]

/-! ## Cache: lemmas -/

theorem cacheIsFresh_eq_false_iff (c : Client) (now : Int) :
    c.cacheIsFresh now = false ↔
      (c.allInstancesCache = none ∨ 10 * Second ≤ now - c.cachedFrom) := by
  unfold Client.cacheIsFresh
  cases h : c.allInstancesCache with
  | none => simp
  | some snap => simp

theorem GetAllServiceInstances_fresh
    (yamlUnmarshal : String → Except String ManifestWithExposedPorts) (order : RangeOrder)
    (director : Director) (now stamp : Int) (c : Client)
    (snap : GoMap Hostname ServiceWithInstances) (hsnap : c.allInstancesCache = some snap)
    (hage : now - c.cachedFrom < 10 * Second) :
    c.GetAllServiceInstances yamlUnmarshal order director now stamp = (.ok snap, c) := by
  have hf : c.cacheIsFresh now = true := by
    simp [Client.cacheIsFresh, hsnap, hage]
  simp [Client.GetAllServiceInstances, hf, hsnap]

theorem GetAllServiceInstances_stale_rebuilds
    (yamlUnmarshal : String → Except String ManifestWithExposedPorts) (order : RangeOrder)
    (director : Director) (now stamp : Int) (c : Client) (hstale : c.cacheIsFresh now = false) :
    (c.GetAllServiceInstances yamlUnmarshal order director now stamp).2.rebuilds =
      c.rebuilds + 1 := by
  rw [GetAllServiceInstances_stale yamlUnmarshal order director now stamp c hstale]
  cases hg : GetDeployments yamlUnmarshal director with
  | error e1 => rfl
  | ok ad =>
    simp only
    cases hl : visitsLoop order (visits order ad) ([], c.virtualIPs) with
    | mk r s2 =>
      cases r with
      | error e2 => rfl
      | ok m2 => rfl

theorem GetAllServiceInstances_stale_ok
    (yamlUnmarshal : String → Except String ManifestWithExposedPorts) (order : RangeOrder)
    (director : Director) (now stamp : Int) (c c1 : Client)
    (m : GoMap Hostname ServiceWithInstances) (hstale : c.cacheIsFresh now = false)
    (hr : c.GetAllServiceInstances yamlUnmarshal order director now stamp = (.ok m, c1)) :
    c1.allInstancesCache = some m ∧ c1.cachedFrom = stamp ∧ c1.rebuilds = c.rebuilds + 1 := by
  rw [GetAllServiceInstances_stale yamlUnmarshal order director now stamp c hstale] at hr
  cases hg : GetDeployments yamlUnmarshal director with
  | error e1 => simp [hg] at hr
  | ok ad =>
    simp only [hg] at hr
    cases hl : visitsLoop order (visits order ad) ([], c.virtualIPs) with
    | mk r s2 =>
      cases r with
      | error e2 => simp [hl] at hr
      | ok m2 =>
        simp only [hl, Prod.mk.injEq, Except.ok.injEq] at hr
        obtain ⟨hm2, hc⟩ := hr
        subst hm2
        rw [← hc]
        exact ⟨rfl, rfl, rfl⟩

theorem run_fresh (yamlUnmarshal : String → Except String ManifestWithExposedPorts)
    (order : RangeOrder) (c : Client) (snap : GoMap Hostname ServiceWithInstances)
    (hsnap : c.allInstancesCache = some snap) (calls : List Call)
    (hwin : ∀ call ∈ calls, call.now - c.cachedFrom < 10 * Second) :
    Client.run yamlUnmarshal order calls c = (calls.map (fun _ => .ok snap), c) := by
  induction calls with
  | nil => rfl
  | cons call rest ih =>
    have h1 := GetAllServiceInstances_fresh yamlUnmarshal order call.director call.now call.stamp
      c snap hsnap (hwin call (List.mem_cons_self _ _))
    simp only [Client.run, h1, List.map_cons]
    rw [ih (fun x hx => hwin x (List.mem_cons_of_mem _ hx))]

theorem GetAllServiceInstances_error_stale
    (yamlUnmarshal : String → Except String ManifestWithExposedPorts) (order : RangeOrder)
    (director : Director) (now stamp : Int) (c c' : Client) (err : String)
    (hr : c.GetAllServiceInstances yamlUnmarshal order director now stamp = (.error err, c')) :
    c.cacheIsFresh now = false := by
  cases hf : c.cacheIsFresh now with
  | false => rfl
  | true => simp [Client.GetAllServiceInstances, hf] at hr

theorem GetAllServiceInstances_error_keeps
    (yamlUnmarshal : String → Except String ManifestWithExposedPorts) (order : RangeOrder)
    (director : Director) (now stamp : Int) (c c' : Client) (err : String)
    (hr : c.GetAllServiceInstances yamlUnmarshal order director now stamp = (.error err, c')) :
    c'.allInstancesCache = c.allInstancesCache ∧ c'.cachedFrom = c.cachedFrom ∧
      c'.rebuilds = c.rebuilds + 1 := by
  have hstale := GetAllServiceInstances_error_stale yamlUnmarshal order director now stamp c c'
    err hr
  rw [GetAllServiceInstances_stale yamlUnmarshal order director now stamp c hstale] at hr
  cases hg : GetDeployments yamlUnmarshal director with
  | error e1 =>
    simp only [hg, Prod.mk.injEq] at hr
    rw [← hr.2]
    exact ⟨rfl, rfl, rfl⟩
  | ok ad =>
    simp only [hg] at hr
    cases hl : visitsLoop order (visits order ad) ([], c.virtualIPs) with
    | mk r s2 =>
      cases r with
      | error e2 =>
        simp only [hl, Prod.mk.injEq] at hr
        rw [← hr.2]
        exact ⟨rfl, rfl, rfl⟩
      | ok m2 => simp [hl] at hr

/-- A run of calls that all fail leaves the snapshot and its timestamp as they were
and performs one rebuild per call. -/
theorem run_errors (yamlUnmarshal : String → Except String ManifestWithExposedPorts)
    (order : RangeOrder) (calls : List Call) :
    ∀ c0 : Client,
      (∀ r ∈ (Client.run yamlUnmarshal order calls c0).1, ∃ e, r = .error e) →
      (Client.run yamlUnmarshal order calls c0).2.allInstancesCache = c0.allInstancesCache ∧
        (Client.run yamlUnmarshal order calls c0).2.cachedFrom = c0.cachedFrom ∧
        (Client.run yamlUnmarshal order calls c0).2.rebuilds = c0.rebuilds + calls.length := by
  induction calls with
  | nil => intro c0 _; exact ⟨rfl, rfl, rfl⟩
  | cons call rest ih =>
    intro c0 hall
    simp only [Client.run] at hall ⊢
    obtain ⟨e, he⟩ := hall _ (List.mem_cons_self _ _)
    have hr : c0.GetAllServiceInstances yamlUnmarshal order call.director call.now call.stamp =
        (.error e, (c0.GetAllServiceInstances yamlUnmarshal order call.director call.now
          call.stamp).2) := by
      rw [← he]
    obtain ⟨k1, k2, k3⟩ := GetAllServiceInstances_error_keeps yamlUnmarshal order call.director
      call.now call.stamp c0 _ e hr
    obtain ⟨i1, i2, i3⟩ := ih _ (fun r hr0 => hall r (List.mem_cons_of_mem _ hr0))
    refine ⟨by rw [i1, k1], by rw [i2, k2], ?_⟩
    rw [i3, k3, List.length_cons]
    omega

theorem GetAllServiceInstances_ok_cases
    (yamlUnmarshal : String → Except String ManifestWithExposedPorts) (order : RangeOrder)
    (director : Director) (now stamp : Int) (c c' : Client)
    (m : GoMap Hostname ServiceWithInstances)
    (hr : c.GetAllServiceInstances yamlUnmarshal order director now stamp = (.ok m, c')) :
    (c.cacheIsFresh now = false ∧ c'.allInstancesCache = some m ∧ c'.cachedFrom = stamp ∧
        c'.rebuilds = c.rebuilds + 1) ∨
      (c.allInstancesCache = some m ∧ now - c.cachedFrom < 10 * Second ∧ c' = c) := by
  cases hf : c.cacheIsFresh now with
  | false =>
    exact Or.inl ⟨rfl, GetAllServiceInstances_stale_ok yamlUnmarshal order director now stamp c c'
      m hf hr⟩
  | true =>
    right
    have hf' := hf
    unfold Client.cacheIsFresh at hf'
    cases hs : c.allInstancesCache with
    | none => simp [hs] at hf'
    | some snap =>
      simp only [hs, Option.isSome_some, Bool.true_and, decide_eq_true_eq] at hf'
      have := GetAllServiceInstances_fresh yamlUnmarshal order director now stamp c snap hs hf'
      rw [this] at hr
      simp only [Prod.mk.injEq, Except.ok.injEq] at hr
      exact ⟨by rw [hr.1], hf', hr.2.symm⟩

/-! ## Labels: lemmas -/

theorem digitValue_digitChar (d : Nat) (h : d < 10) : digitValue (Nat.digitChar d) = d := by
  interval_cases d <;> rfl

theorem toDigitsCore_append (fuel : Nat) :
    ∀ (n : Nat) (ds : List Char),
      Nat.toDigitsCore 10 fuel n ds = Nat.toDigitsCore 10 fuel n [] ++ ds := by
  induction fuel with
  | zero => intro n ds; simp [Nat.toDigitsCore]
  | succ f ih =>
    intro n ds
    simp only [Nat.toDigitsCore]
    by_cases h : n / 10 = 0
    · simp [h]
    · simp only [h, if_false]
      rw [ih (n / 10) (Nat.digitChar (n % 10) :: ds), ih (n / 10) [Nat.digitChar (n % 10)]]
      simp

theorem decodeDigits_append_singleton (l : List Char) (c : Char) :
    decodeDigits (l ++ [c]) = 10 * decodeDigits l + digitValue c := by
  simp [decodeDigits, List.foldl_append]

theorem decodeDigits_toDigitsCore (fuel : Nat) :
    ∀ n : Nat, n < fuel → decodeDigits (Nat.toDigitsCore 10 fuel n []) = n := by
  induction fuel with
  | zero => intro n h; omega
  | succ f ih =>
    intro n hn
    simp only [Nat.toDigitsCore]
    have hd := digitValue_digitChar (n % 10) (Nat.mod_lt n (by decide))
    by_cases h : n / 10 = 0
    · simp only [h, if_true]
      have : decodeDigits [Nat.digitChar (n % 10)] = digitValue (Nat.digitChar (n % 10)) := by
        simp [decodeDigits]
      rw [this, hd]
      omega
    · simp only [h, if_false]
      rw [toDigitsCore_append, decodeDigits_append_singleton, ih (n / 10) (by omega), hd]
      omega

theorem toString_nat_injective (i j : Nat) (h : toString i = toString j) : i = j := by
  have h1 : (Nat.toDigits 10 i).asString = (Nat.toDigits 10 j).asString := h
  have h2 : Nat.toDigits 10 i = Nat.toDigits 10 j := by
    have := congrArg String.data h1
    simpa [List.asString] using this
  have hi := decodeDigits_toDigitsCore (i + 1) i (by omega)
  have hj := decodeDigits_toDigitsCore (j + 1) j (by omega)
  unfold Nat.toDigits at h2
  rw [h2] at hi
  omega

theorem dnsKey_injective (i j : Nat) (h : "dns-" ++ toString i = "dns-" ++ toString j) :
    i = j := by
  have h1 := congrArg String.data h
  simp only [String.data_append] at h1
  exact toString_nat_injective i j (String.ext (List.append_cancel_left h1))

theorem dnsKey_ne_of_head (i : Nat) (key : String) (c : Char) (rest : List Char)
    (hk : key.data = c :: rest) (hc : c ≠ 'd') : ¬ ("dns-" ++ toString i = key) := by
  intro h
  have h1 := congrArg String.data h
  rw [String.data_append, hk] at h1
  have h2 : ("dns-" : String).data = ['d', 'n', 's', '-'] := rfl
  rw [h2] at h1
  simp only [List.cons_append, List.cons.injEq] at h1
  exact hc h1.1.symm

theorem GoMap.get?_append {κ ν : Type} [DecidableEq κ] (a b : GoMap κ ν) (k : κ) :
    GoMap.get? (a ++ b) k =
      match GoMap.get? a k with
      | some v => some v
      | none => GoMap.get? b k := by
  induction a with
  | nil => rfl
  | cons e a ih =>
    obtain ⟨k1, v1⟩ := e
    by_cases h : k1 = k
    · simp [GoMap.get?, h]
    · simp only [List.cons_append, GoMap.get?, h, if_false]
      exact ih

theorem dnsKey_ne_index (i : Nat) : ¬ ("dns-" ++ toString i = "index") :=
  dnsKey_ne_of_head i "index" 'i' ['n', 'd', 'e', 'x'] rfl (by decide)

theorem dnsKey_ne_vmState (i : Nat) : ¬ ("dns-" ++ toString i = "vm.state") :=
  dnsKey_ne_of_head i "vm.state" 'v' ['m', '.', 's', 't', 'a', 't', 'e'] rfl (by decide)

theorem dnsKey_ne_jobState (i : Nat) : ¬ ("dns-" ++ toString i = "vm.job_state") :=
  dnsKey_ne_of_head i "vm.job_state" 'v'
    ['m', '.', 'j', 'o', 'b', '_', 's', 't', 'a', 't', 'e'] rfl (by decide)

theorem dnsKey_ne_processState (i : Nat) : ¬ ("dns-" ++ toString i = "process.state") :=
  dnsKey_ne_of_head i "process.state" 'p'
    ['r', 'o', 'c', 'e', 's', 's', '.', 's', 't', 'a', 't', 'e'] rfl (by decide)

theorem get?_dnsPart_other (l : List String) (key : String) :
    ∀ n : Nat, (∀ j : Nat, ¬ ("dns-" ++ toString j = key)) →
      GoMap.get? ((l.enumFrom n).map (fun d : Nat × String => ("dns-" ++ toString d.1, d.2)))
        key = none := by
  induction l with
  | nil => intro n _; rfl
  | cons x xs ih =>
    intro n h
    simp only [List.enumFrom_cons, List.map_cons, GoMap.get?, h n, if_false]
    exact ih (n + 1) h

theorem get?_dnsPart_below (l : List String) :
    ∀ n j : Nat, j < n →
      GoMap.get? ((l.enumFrom n).map (fun d : Nat × String => ("dns-" ++ toString d.1, d.2)))
        ("dns-" ++ toString j) = none := by
  induction l with
  | nil => intro n j _; rfl
  | cons x xs ih =>
    intro n j hj
    have hne : ¬ ("dns-" ++ toString n = "dns-" ++ toString j) := by
      intro e
      have := dnsKey_injective n j e
      omega
    simp only [List.enumFrom_cons, List.map_cons, GoMap.get?, hne, if_false]
    exact ih (n + 1) j (by omega)

theorem get?_dnsPart (l : List String) :
    ∀ n j : Nat,
      GoMap.get? ((l.enumFrom n).map (fun d : Nat × String => ("dns-" ++ toString d.1, d.2)))
        ("dns-" ++ toString (n + j)) = l.get? j := by
  induction l with
  | nil => intro n j; rfl
  | cons x xs ih =>
    intro n j
    cases j with
    | zero => simp [GoMap.get?]
    | succ j =>
      have hne : ¬ ("dns-" ++ toString n = "dns-" ++ toString (n + (j + 1))) := by
        intro e
        have := dnsKey_injective _ _ e
        omega
      simp only [List.enumFrom_cons, List.map_cons, GoMap.get?, hne, if_false, List.get?_cons_succ]
      have := ih (n + 1) j
      rw [show n + 1 + j = n + (j + 1) by omega] at this
      exact this

theorem foldl_dns (l : List String) :
    ∀ (n : Nat) (acc : GoMap String String),
      (∀ j, n ≤ j → GoMap.get? acc ("dns-" ++ toString j) = none) →
      (l.enumFrom n).foldl
          (fun (labels : GoMap String String) d =>
            GoMap.set labels ("dns-" ++ toString d.1) d.2) acc =
        acc ++ (l.enumFrom n).map (fun d : Nat × String => ("dns-" ++ toString d.1, d.2)) := by
  induction l with
  | nil => intro n acc _; simp
  | cons x xs ih =>
    intro n acc hacc
    simp only [List.enumFrom_cons, List.foldl_cons, List.map_cons]
    rw [GoMap.set_of_get?_none acc _ x (hacc n (le_refl n)), ih (n + 1)]
    · simp
    · intro j hj
      rw [GoMap.get?_append, hacc j (by omega)]
      have hne : ¬ ("dns-" ++ toString n = "dns-" ++ toString j) := by
        intro e
        have := dnsKey_injective n j e
        omega
      simp [GoMap.get?, hne]

/-- The label map built by the code is the label set of the specification. -/
theorem instanceLabels_eq (vm : VMInfo) (p : VMInfoProcess) :
    instanceLabels vm p = expectedLabels vm p := by
  unfold instanceLabels expectedLabels
  simp only [List.enum]
  cases hI : vm.Index with
  | none =>
    simp only
    rw [foldl_dns]
    · simp
    · intro j _
      have h1 : ¬ ("vm.state" = "dns-" ++ toString j) := fun e => dnsKey_ne_vmState j e.symm
      have h2 : ¬ ("vm.job_state" = "dns-" ++ toString j) :=
        fun e => dnsKey_ne_jobState j e.symm
      have h3 : ¬ ("process.state" = "dns-" ++ toString j) :=
        fun e => dnsKey_ne_processState j e.symm
      simp only [GoMap.get?, h1, h2, h3, if_false]
  | some index =>
    simp only
    have hset : GoMap.set
        ([("vm.state", vm.State), ("vm.job_state", vm.ProcessState),
          ("process.state", p.State)] : GoMap String String) "index" (toString index) =
        [("vm.state", vm.State), ("vm.job_state", vm.ProcessState),
          ("process.state", p.State), ("index", toString index)] := by
      simp [GoMap.set]
    rw [hset, foldl_dns]
    · simp
    · intro j _
      have h1 : ¬ ("vm.state" = "dns-" ++ toString j) := fun e => dnsKey_ne_vmState j e.symm
      have h2 : ¬ ("vm.job_state" = "dns-" ++ toString j) :=
        fun e => dnsKey_ne_jobState j e.symm
      have h3 : ¬ ("process.state" = "dns-" ++ toString j) :=
        fun e => dnsKey_ne_processState j e.symm
      have h4 : ¬ ("index" = "dns-" ++ toString j) := fun e => dnsKey_ne_index j e.symm
      simp only [GoMap.get?, h1, h2, h3, h4, if_false]

theorem foldl_set_keys_nodup {κ ν α : Type} [DecidableEq κ] (f : α → κ) (g : α → ν)
    (l : List α) :
    ∀ acc : GoMap κ ν, (GoMap.keys acc).Nodup →
      (GoMap.keys (l.foldl (fun (m : GoMap κ ν) d => GoMap.set m (f d) (g d)) acc)).Nodup := by
  induction l with
  | nil => intro acc h; exact h
  | cons x xs ih =>
    intro acc h
    exact ih _ (GoMap.keys_set_nodup acc (f x) (g x) h)

theorem instanceLabels_keys_nodup (vm : VMInfo) (p : VMInfoProcess) :
    (GoMap.keys (instanceLabels vm p)).Nodup := by
  unfold instanceLabels
  apply foldl_set_keys_nodup (fun d : Nat × String => "dns-" ++ toString d.1) (fun d => d.2)
  cases vm.Index with
  | none => simp [GoMap.keys]
  | some index =>
    apply GoMap.keys_set_nodup
    simp [GoMap.keys]

/-- The label set of the specification read as a map. -/
theorem expectedLabels_spec (vm : VMInfo) (p : VMInfoProcess) :
    GoMap.get? (expectedLabels vm p) "vm.state" = some vm.State ∧
      GoMap.get? (expectedLabels vm p) "vm.job_state" = some vm.ProcessState ∧
      GoMap.get? (expectedLabels vm p) "process.state" = some p.State ∧
      GoMap.get? (expectedLabels vm p) "index" = vm.Index.map (fun n => toString n) ∧
      (∀ j : Nat, GoMap.get? (expectedLabels vm p) ("dns-" ++ toString j) = vm.DNS.get? j) ∧
      (∀ key ∈ GoMap.keys (expectedLabels vm p),
        key = "vm.state" ∨ key = "vm.job_state" ∨ key = "process.state" ∨
          (key = "index" ∧ vm.Index.isSome = true) ∨
          ∃ j : Nat, j < vm.DNS.length ∧ key = "dns-" ++ toString j) := by
  have hbase : ∀ (idx : GoMap String String) (key : String),
      GoMap.get? (([("vm.state", vm.State), ("vm.job_state", vm.ProcessState),
          ("process.state", p.State)] : GoMap String String) ++ idx ++
          vm.DNS.enum.map (fun d : Nat × String => ("dns-" ++ toString d.1, d.2))) key =
        if "vm.state" = key then some vm.State
        else if "vm.job_state" = key then some vm.ProcessState
        else if "process.state" = key then some p.State
        else match GoMap.get? idx key with
          | some v => some v
          | none => GoMap.get? (vm.DNS.enum.map
              (fun d : Nat × String => ("dns-" ++ toString d.1, d.2))) key := by
    intro idx key
    rw [List.append_assoc, GoMap.get?_append]
    simp only [GoMap.get?]
    by_cases h1 : "vm.state" = key
    · simp [h1]
    · by_cases h2 : "vm.job_state" = key
      · simp [h1, h2]
      · by_cases h3 : "process.state" = key
        · simp [h1, h2, h3]
        · simp only [h1, h2, h3, if_false]
          rw [GoMap.get?_append]
          cases GoMap.get? idx key <;> rfl
  unfold expectedLabels
  refine ⟨?_, ?_, ?_, ?_, ?_, ?_⟩
  · rw [hbase]
    simp
  · rw [hbase]
    simp
  · rw [hbase]
    simp
  · rw [hbase]
    have hd := get?_dnsPart_other vm.DNS "index" 0 dnsKey_ne_index
    cases hI : vm.Index with
    | none =>
      simp only [List.enum, hd]
      simp [GoMap.get?]
    | some index =>
      simp [GoMap.get?]
  · intro j
    rw [hbase]
    have h1 : ¬ ("vm.state" = "dns-" ++ toString j) := fun e => dnsKey_ne_vmState j e.symm
    have h2 : ¬ ("vm.job_state" = "dns-" ++ toString j) := fun e => dnsKey_ne_jobState j e.symm
    have h3 : ¬ ("process.state" = "dns-" ++ toString j) :=
      fun e => dnsKey_ne_processState j e.symm
    have h4 : ¬ ("index" = "dns-" ++ toString j) := fun e => dnsKey_ne_index j e.symm
    have hd := get?_dnsPart vm.DNS 0 j
    rw [Nat.zero_add] at hd
    simp only [h1, h2, h3, if_false, List.enum, hd]
    cases hI : vm.Index with
    | none => simp [GoMap.get?]
    | some index => simp [GoMap.get?, h4]
  · intro key hkey
    simp only [GoMap.keys, List.map_append, List.mem_append, List.map_cons, List.map_nil,
      List.mem_cons, List.mem_map, List.not_mem_nil, or_false] at hkey
    rcases hkey with (hk | hk) | hk
    · rcases hk with hk | hk | hk
      · exact Or.inl hk
      · exact Or.inr (Or.inl hk)
      · exact Or.inr (Or.inr (Or.inl hk))
    · cases hI : vm.Index with
      | none =>
        rw [hI] at hk
        obtain ⟨a, ha, _⟩ := hk
        cases ha
      | some index =>
        rw [hI] at hk
        obtain ⟨a, ha, hak⟩ := hk
        rw [List.mem_singleton] at ha
        subst ha
        exact Or.inr (Or.inr (Or.inr (Or.inl ⟨hak.symm, rfl⟩)))
    · obtain ⟨a, ⟨dd, hdd, rfl⟩, hak⟩ := hk
      exact Or.inr (Or.inr (Or.inr (Or.inr ⟨dd.1, List.fst_lt_of_mem_enum hdd, hak.symm⟩)))

/-! ## Catalog invariant: lemmas -/

theorem GoMap.mem_set {κ ν : Type} [DecidableEq κ] (m : GoMap κ ν) (k k' : κ) (v v' : ν)
    (h : (k', v') ∈ GoMap.set m k v) : (k', v') = (k, v) ∨ (k', v') ∈ m := by
  induction m with
  | nil =>
    simp only [GoMap.set, List.mem_singleton] at h
    exact Or.inl h
  | cons e m ih =>
    obtain ⟨k1, v1⟩ := e
    by_cases hk : k1 = k
    · simp only [GoMap.set, hk, if_true, List.mem_cons] at h
      rcases h with h | h
      · exact Or.inl h
      · exact Or.inr (List.mem_cons_of_mem _ h)
    · simp only [GoMap.set, hk, if_false, List.mem_cons] at h
      rcases h with h | h
      · exact Or.inr (by rw [h]; exact List.mem_cons_self _ _)
      · rcases ih h with h' | h'
        · exact Or.inl h'
        · exact Or.inr (List.mem_cons_of_mem _ h')

theorem mem_emitted (instanceGroup : InstanceGroup) (service : Service)
    (q : VMInfo × VMInfoProcess) (i : ServiceInstance)
    (hi : i ∈ emitted instanceGroup service q) :
    i.Service = service ∧
      i.Endpoint.ServicePort ∈ (instanceGroup.ExposedPorts.get? q.2.Name).getD [] ∧
      i.Labels = instanceLabels q.1 q.2 ∧ i.AvailabilityZone = q.1.AZ := by
  simp only [emitted, List.mem_flatMap, List.mem_map] at hi
  obtain ⟨ip, _, sp, hsp, rfl⟩ := hi
  exact ⟨rfl, hsp, rfl, rfl⟩

theorem GetServiceInstances_WF (s s' : vipStore) (d g : String) (instanceGroup : InstanceGroup)
    (m : GoMap Hostname ServiceWithInstances)
    (hok : GetServiceInstances s d g instanceGroup = (.ok m, s')) : CatalogWF m := by
  obtain ⟨hnd, _, hent⟩ := GetServiceInstances_inv s s' d g instanceGroup m hok
  refine ⟨hnd, ?_⟩
  intro k e hm
  obtain ⟨h1, h2, h3⟩ := hent k e (GoMap.get?_of_mem m k e hnd hm)
  refine ⟨h1, ?_⟩
  intro i hi
  rw [h3] at hi
  simp only [List.mem_flatMap] at hi
  obtain ⟨q, _, hq⟩ := hi
  by_cases hk : q.2.Name ++ "." ++ (g ++ "." ++ d ++ ".boshy") = k
  · simp only [hk, if_true] at hq
    have := mem_emitted instanceGroup e.Service q i hq
    rw [h2 q.2.Name hk]
    exact ⟨this.1, this.2.1⟩
  · simp [hk] at hq

theorem foldl_set_WF (l : List (Hostname × ServiceWithInstances)) :
    ∀ acc : GoMap Hostname ServiceWithInstances, CatalogWF acc →
      (∀ e ∈ l, EntryWF e.1 e.2) →
      CatalogWF (l.foldl
        (fun (servicesMap : GoMap Hostname ServiceWithInstances) e =>
          GoMap.set servicesMap e.1 e.2) acc) := by
  induction l with
  | nil => intro acc h _; exact h
  | cons x xs ih =>
    intro acc hacc hl
    simp only [List.foldl_cons]
    apply ih
    · refine ⟨GoMap.keys_set_nodup acc x.1 x.2 hacc.1, ?_⟩
      intro k e hm
      rcases GoMap.mem_set acc x.1 k x.2 e hm with h | h
      · cases h
        exact hl x (List.mem_cons_self _ _)
      · exact hacc.2 k e h
    · intro e he
      exact hl e (List.mem_cons_of_mem _ he)

theorem mergeServices_WF (order : RangeOrder) (acc new : GoMap Hostname ServiceWithInstances)
    (hacc : CatalogWF acc) (hnew : CatalogWF new) : CatalogWF (mergeServices order acc new) := by
  unfold mergeServices
  apply foldl_set_WF _ acc hacc
  intro e he
  have hm : e ∈ new := (order.services_perm new).mem_iff.mp he
  exact hnew.2 e.1 e.2 hm

theorem visitsLoop_WF (order : RangeOrder)
    (vs : List (DeploymentName × InstanceGroupName × InstanceGroup)) :
    ∀ (st : GoMap Hostname ServiceWithInstances × vipStore)
      (m : GoMap Hostname ServiceWithInstances) (s : vipStore), CatalogWF st.1 →
      visitsLoop order vs st = (.ok m, s) → CatalogWF m := by
  induction vs with
  | nil =>
    intro st m s hst h
    simp only [visitsLoop, Prod.mk.injEq, Except.ok.injEq] at h
    rw [← h.1]
    exact hst
  | cons v rest ih =>
    intro st m s hst h
    simp only [visitsLoop] at h
    cases hg : GetServiceInstances st.2 v.1 v.2.1 v.2.2 with
    | mk r s1 =>
      cases r with
      | error e1 => simp [hg] at h
      | ok m1 =>
        simp only [hg] at h
        exact ih _ m s
          (mergeServices_WF order st.1 m1 hst (GetServiceInstances_WF _ _ _ _ _ _ hg)) h

theorem CatalogWF_nil : CatalogWF [] := by
  refine ⟨by simp [GoMap.keys], ?_⟩
  intro k e h
  cases h

theorem GetAllServiceInstances_WF
    (yamlUnmarshal : String → Except String ManifestWithExposedPorts) (order : RangeOrder)
    (director : Director) (now stamp : Int) (c : Client) (hc : c.CacheWF) :
    (c.GetAllServiceInstances yamlUnmarshal order director now stamp).2.CacheWF ∧
      ∀ m, (c.GetAllServiceInstances yamlUnmarshal order director now stamp).1 = .ok m →
        CatalogWF m := by
  cases hf : c.cacheIsFresh now with
  | true =>
    have hf' := hf
    unfold Client.cacheIsFresh at hf'
    cases hs : c.allInstancesCache with
    | none => simp [hs] at hf'
    | some snap =>
      simp only [hs, Option.isSome_some, Bool.true_and, decide_eq_true_eq] at hf'
      rw [GetAllServiceInstances_fresh yamlUnmarshal order director now stamp c snap hs hf']
      refine ⟨hc, ?_⟩
      intro m hm
      simp only [Except.ok.injEq] at hm
      rw [← hm]
      exact hc snap hs
  | false =>
    rw [GetAllServiceInstances_stale yamlUnmarshal order director now stamp c hf]
    cases hg : GetDeployments yamlUnmarshal director with
    | error e1 =>
      refine ⟨hc, ?_⟩
      intro m hm
      simp at hm
    | ok ad =>
      simp only
      cases hl : visitsLoop order (visits order ad) ([], c.virtualIPs) with
      | mk r s2 =>
        cases r with
        | error e2 =>
          refine ⟨hc, ?_⟩
          intro m hm
          simp at hm
        | ok m2 =>
          have hwf := visitsLoop_WF order _ _ m2 s2 CatalogWF_nil hl
          refine ⟨?_, ?_⟩
          · intro snap hsnap
            simp only [Option.some.injEq] at hsnap
            rw [← hsnap]
            exact hwf
          · intro m hm
            simp only [Except.ok.injEq] at hm
            rw [← hm]
            exact hwf

theorem NewClient_CacheWF : NewClient.CacheWF := by
  intro snap h
  simp [NewClient] at h

theorem run_CacheWF (yamlUnmarshal : String → Except String ManifestWithExposedPorts)
    (order : RangeOrder) (calls : List Call) :
    ∀ c : Client, c.CacheWF → (Client.run yamlUnmarshal order calls c).2.CacheWF := by
  induction calls with
  | nil => intro c hc; exact hc
  | cons call rest ih =>
    intro c hc
    simp only [Client.run]
    exact ih _ (GetAllServiceInstances_WF yamlUnmarshal order call.director call.now call.stamp
      c hc).1

/-- Every catalog returned by a client that started as `NewClient` is well formed. -/
theorem reachable_catalog_WF (yamlUnmarshal : String → Except String ManifestWithExposedPorts)
    (order : RangeOrder) (calls : List Call) (director : Director) (now stamp : Int)
    (m : GoMap Hostname ServiceWithInstances)
    (h : ((Client.run yamlUnmarshal order calls NewClient).2.GetAllServiceInstances yamlUnmarshal
      order director now stamp).1 = .ok m) : CatalogWF m :=
  (GetAllServiceInstances_WF yamlUnmarshal order director now stamp _
    (run_CacheWF yamlUnmarshal order calls NewClient NewClient_CacheWF)).2 m h

/-! ## Hostname synthesis and merge: lemmas -/

theorem split_at_dot (a : List Char) :
    ∀ (a' r r' : List Char), '.' ∉ a → '.' ∉ a' → a ++ '.' :: r = a' ++ '.' :: r' →
      a = a' ∧ r = r' := by
  induction a with
  | nil =>
    intro a' r r' _ ha' h
    cases a' with
    | nil =>
      simp only [List.nil_append, List.cons.injEq, true_and] at h
      exact ⟨rfl, h⟩
    | cons c cs =>
      simp only [List.nil_append, List.cons_append, List.cons.injEq] at h
      exact absurd (by rw [← h.1]; exact List.mem_cons_self _ _) ha'
  | cons x xs ih =>
    intro a' r r' ha ha' h
    cases a' with
    | nil =>
      simp only [List.nil_append, List.cons_append, List.cons.injEq] at h
      exact absurd (by rw [h.1]; exact List.mem_cons_self _ _) ha
    | cons c cs =>
      simp only [List.cons_append, List.cons.injEq] at h
      have hx : '.' ∉ xs := fun e => ha (List.mem_cons_of_mem _ e)
      have hc : '.' ∉ cs := fun e => ha' (List.mem_cons_of_mem _ e)
      obtain ⟨e1, e2⟩ := ih cs r r' hx hc h.2
      exact ⟨by rw [h.1, e1], e2⟩

/-- Hostname synthesis is injective when the process and group names have no `.`. -/
theorem hostnameFor_injective (d g p d' g' p' : String)
    (hp : dotFree p) (hg : dotFree g) (hp' : dotFree p') (hg' : dotFree g')
    (h : hostnameFor d g p = hostnameFor d' g' p') : p = p' ∧ g = g' ∧ d = d' := by
  have h1 := congrArg String.data h
  simp only [hostnameFor, String.data_append] at h1
  simp only [List.append_assoc, List.singleton_append] at h1
  obtain ⟨e1, h2⟩ := split_at_dot p.data p'.data _ _ hp hp' h1
  obtain ⟨e2, h3⟩ := split_at_dot g.data g'.data _ _ hg hg' h2
  have e3 := List.append_cancel_right h3
  exact ⟨String.ext e1, String.ext e2, String.ext e3⟩

theorem GetServiceInstances_mem_keys (s s' : vipStore) (d g : String)
    (instanceGroup : InstanceGroup) (m : GoMap Hostname ServiceWithInstances) (k : Hostname)
    (hok : GetServiceInstances s d g instanceGroup = (.ok m, s')) (hk : k ∈ GoMap.keys m) :
    ∃ vm ∈ instanceGroup.VMs, ∃ p ∈ vm.Processes, k = hostnameFor d g p.Name := by
  obtain ⟨_, hkeys, _⟩ := GetServiceInstances_inv s s' d g instanceGroup m hok
  obtain ⟨q, hq, e⟩ := (hkeys k).mp hk
  obtain ⟨vm, hvm, p, hp, rfl⟩ := (mem_groupPairs _ q).mp hq
  exact ⟨vm, hvm, p, hp, by rw [hostnameFor_eq]; exact e.symm⟩

/-- Two visits of different (deployment, group) pairs with names free of `.` give
maps with no key in common. -/
theorem GetServiceInstances_keys_disjoint
    (x y : DeploymentName × InstanceGroupName × InstanceGroup)
    (hx : visitsDotFree [x]) (hy : visitsDotFree [y]) (hne : (x.1, x.2.1) ≠ (y.1, y.2.1))
    (sx sx' sy sy' : vipStore) (mx my : GoMap Hostname ServiceWithInstances)
    (hmx : GetServiceInstances sx x.1 x.2.1 x.2.2 = (.ok mx, sx'))
    (hmy : GetServiceInstances sy y.1 y.2.1 y.2.2 = (.ok my, sy'))
    (k : Hostname) (hk : k ∈ GoMap.keys mx) : k ∉ GoMap.keys my := by
  intro hk'
  obtain ⟨vm, hvm, p, hp, e⟩ := GetServiceInstances_mem_keys _ _ _ _ _ _ k hmx hk
  obtain ⟨vm', hvm', p', hp', e'⟩ := GetServiceInstances_mem_keys _ _ _ _ _ _ k hmy hk'
  have hx' := hx x (List.mem_singleton.mpr rfl)
  have hy' := hy y (List.mem_singleton.mpr rfl)
  obtain ⟨_, e2, e3⟩ := hostnameFor_injective x.1 x.2.1 p.Name y.1 y.2.1 p'.Name
    (hx'.2.2 vm hvm p hp) hx'.2.1 (hy'.2.2 vm' hvm' p' hp') hy'.2.1 (e.symm.trans e')
  exact hne (by rw [e2, e3])

theorem foldl_set_get?_of_not_key (l : List (Hostname × ServiceWithInstances)) (k : Hostname) :
    ∀ acc : GoMap Hostname ServiceWithInstances, k ∉ GoMap.keys l →
      GoMap.get? (l.foldl
        (fun (servicesMap : GoMap Hostname ServiceWithInstances) e =>
          GoMap.set servicesMap e.1 e.2) acc) k = GoMap.get? acc k := by
  induction l with
  | nil => intro acc _; rfl
  | cons x xs ih =>
    intro acc hk
    have h1 : x.1 ≠ k := fun e => hk (by simp [GoMap.keys, e.symm])
    have h2 : k ∉ GoMap.keys xs := fun e => hk (by
      simp only [GoMap.keys, List.map_cons, List.mem_cons]
      exact Or.inr e)
    simp only [List.foldl_cons]
    rw [ih _ h2, GoMap.get?_set_ne acc x.2 h1]

theorem foldl_set_get?_of_mem (l : List (Hostname × ServiceWithInstances)) (k : Hostname)
    (e : ServiceWithInstances) :
    ∀ acc : GoMap Hostname ServiceWithInstances, (GoMap.keys l).Nodup → (k, e) ∈ l →
      GoMap.get? (l.foldl
        (fun (servicesMap : GoMap Hostname ServiceWithInstances) e =>
          GoMap.set servicesMap e.1 e.2) acc) k = some e := by
  induction l with
  | nil => intro acc _ h; cases h
  | cons x xs ih =>
    intro acc hnd hm
    have hnd' : x.1 ∉ GoMap.keys xs ∧ (GoMap.keys xs).Nodup := by
      simpa [GoMap.keys] using hnd
    simp only [List.foldl_cons]
    rcases List.mem_cons.mp hm with h | h
    · subst h
      rw [foldl_set_get?_of_not_key xs k _ hnd'.1]
      exact GoMap.get?_set_self acc k e
    · exact ih _ hnd'.2 h

theorem mergeServices_get?_of_not_key (order : RangeOrder)
    (acc new : GoMap Hostname ServiceWithInstances) (k : Hostname) (hk : k ∉ GoMap.keys new) :
    GoMap.get? (mergeServices order acc new) k = GoMap.get? acc k := by
  unfold mergeServices
  apply foldl_set_get?_of_not_key
  intro h
  exact hk (((order.services_perm new).map Prod.fst).mem_iff.mp h)

theorem mergeServices_get?_of_mem (order : RangeOrder)
    (acc new : GoMap Hostname ServiceWithInstances) (k : Hostname) (e : ServiceWithInstances)
    (hnd : (GoMap.keys new).Nodup) (hk : GoMap.get? new k = some e) :
    GoMap.get? (mergeServices order acc new) k = some e := by
  unfold mergeServices
  apply foldl_set_get?_of_mem
  · exact ((order.services_perm new).map Prod.fst).nodup_iff.mpr hnd
  · exact (order.services_perm new).mem_iff.mpr (GoMap.mem_of_get? new k e hk)

theorem visitsLoop_keeps (order : RangeOrder) (k : Hostname)
    (post : List (DeploymentName × InstanceGroupName × InstanceGroup)) :
    ∀ (st : GoMap Hostname ServiceWithInstances × vipStore)
      (m : GoMap Hostname ServiceWithInstances) (s : vipStore),
      (∀ y ∈ post, ∀ s0 s1 my, GetServiceInstances s0 y.1 y.2.1 y.2.2 = (.ok my, s1) →
        k ∉ GoMap.keys my) →
      visitsLoop order post st = (.ok m, s) → GoMap.get? m k = GoMap.get? st.1 k := by
  induction post with
  | nil =>
    intro st m s _ h
    simp only [visitsLoop, Prod.mk.injEq, Except.ok.injEq] at h
    rw [← h.1]
  | cons y rest ih =>
    intro st m s hy h
    simp only [visitsLoop] at h
    cases hg : GetServiceInstances st.2 y.1 y.2.1 y.2.2 with
    | mk r s1 =>
      cases r with
      | error e1 => simp [hg] at h
      | ok my =>
        simp only [hg] at h
        rw [ih _ m s (fun z hz => hy z (List.mem_cons_of_mem _ hz)) h]
        exact mergeServices_get?_of_not_key order st.1 my k
          (hy y (List.mem_cons_self _ _) st.2 s1 my hg)

theorem buildDeployment_keys_nodup (mf : ManifestWithExposedPorts) (vms : List VMInfo) :
    (GoMap.keys (buildDeployment mf vms)).Nodup := by
  unfold buildDeployment
  have hgen : ∀ acc : Deployment, (GoMap.keys acc).Nodup →
      (GoMap.keys (vms.foldl (addVM mf) acc)).Nodup := by
    induction vms with
    | nil => intro acc h; exact h
    | cons vm rest ih =>
      intro acc h
      simp only [List.foldl_cons]
      apply ih
      unfold addVM
      exact GoMap.keys_set_nodup acc _ _ h
  exact hgen [] (by simp [GoMap.keys])

theorem deploymentsLoop_WF (yamlUnmarshal : String → Except String ManifestWithExposedPorts)
    (ds : List DirectorDeployment) :
    ∀ (acc ad : AllDeployments), DeploymentsWF acc →
      deploymentsLoop yamlUnmarshal ds acc = .ok ad → DeploymentsWF ad := by
  induction ds with
  | nil =>
    intro acc ad hacc h
    simp only [deploymentsLoop, Except.ok.injEq] at h
    rw [← h]
    exact hacc
  | cons x rest ih =>
    intro acc ad hacc h
    simp only [deploymentsLoop] at h
    cases hm : GetManifestWithPortExposures yamlUnmarshal x with
    | error e1 => simp [hm] at h
    | ok mf =>
      cases hi : x.InstanceInfos with
      | error e2 => simp [hm, hi] at h
      | ok vms =>
        simp only [hm, hi] at h
        apply ih _ ad _ h
        refine ⟨GoMap.keys_set_nodup acc _ _ hacc.1, ?_⟩
        intro dn D hD
        rcases GoMap.mem_set acc x.Name dn (buildDeployment mf vms) D hD with e | e
        · cases e
          exact buildDeployment_keys_nodup mf vms
        · exact hacc.2 dn D e

theorem GetDeployments_WF (yamlUnmarshal : String → Except String ManifestWithExposedPorts)
    (director : Director) (ad : AllDeployments)
    (h : GetDeployments yamlUnmarshal director = .ok ad) : DeploymentsWF ad := by
  unfold GetDeployments at h
  cases hd : director.Deployments with
  | error e => simp [hd] at h
  | ok ds =>
    simp only [hd] at h
    refine deploymentsLoop_WF yamlUnmarshal ds [] ad ⟨by simp [GoMap.keys], ?_⟩ h
    intro dn D hD
    cases hD

/-- The visits of a rebuild are of pairwise different (deployment, group) pairs. -/
theorem visits_pairs_nodup (order : RangeOrder) (ad : AllDeployments) (h : DeploymentsWF ad) :
    ((visits order ad).map (fun v => (v.1, v.2.1))).Nodup := by
  have e : (visits order ad).map (fun v => (v.1, v.2.1)) =
      (order.deployments ad).flatMap (fun d =>
        ((order.groups d.2).map Prod.fst).map (fun k => (d.1, k))) := by
    simp [visits, List.map_flatMap, Function.comp_def]
  rw [e, List.nodup_flatMap]
  constructor
  · intro x hx
    have hx' : x ∈ ad := (order.deployments_perm ad).mem_iff.mp hx
    have hn : (GoMap.keys x.2).Nodup := h.2 x.1 x.2 hx'
    have hn' : ((order.groups x.2).map Prod.fst).Nodup :=
      ((order.groups_perm x.2).map Prod.fst).nodup_iff.mpr hn
    apply hn'.map
    intro a b hab
    simpa using hab
  · have hn : ((order.deployments ad).map Prod.fst).Nodup :=
      ((order.deployments_perm ad).map Prod.fst).nodup_iff.mpr h.1
    have hp : (order.deployments ad).Pairwise (fun a b => a.1 ≠ b.1) := by
      rw [List.Nodup, List.pairwise_map] at hn
      exact hn
    refine hp.imp ?_
    intro a b hab
    simp only [Function.onFun]
    rw [List.disjoint_left]
    intro z hz hz'
    simp only [List.mem_map] at hz hz'
    obtain ⟨_, _, rfl⟩ := hz
    obtain ⟨_, _, e2⟩ := hz'
    exact hab (by simpa using (congrArg Prod.fst e2).symm)

theorem split_pairs_ne {α β : Type} (f : α → β) (l pre post : List α) (x : α)
    (hn : (l.map f).Nodup) (hl : l = pre ++ x :: post) :
    ∀ y ∈ pre ++ post, f y ≠ f x := by
  subst hl
  rw [List.map_append, List.map_cons, List.nodup_middle, List.nodup_cons] at hn
  intro y hy e
  apply hn.1
  rw [← e, ← List.map_append]
  exact List.mem_map_of_mem f hy

/-! ## Service discovery: lemmas -/

theorem foldl_requestedPorts_isSome (service : Service) (name : String) (ports : List String) :
    ∀ acc : GoMap String Port,
      (GoMap.get? (ports.foldl
        (fun (svcPorts : GoMap String Port) portName =>
          match PortList.Get service.Ports portName with
          | some svcPort => GoMap.set svcPorts portName svcPort
          | none => svcPorts) acc) name).isSome =
        ((GoMap.get? acc name).isSome ||
          (decide (name ∈ ports) && (PortList.Get service.Ports name).isSome)) := by
  induction ports with
  | nil => intro acc; simp
  | cons x xs ih =>
    intro acc
    simp only [List.foldl_cons, ih]
    by_cases hx : x = name
    · subst hx
      cases hg : PortList.Get service.Ports x with
      | none => simp [hg]
      | some sp => simp [hg, GoMap.get?_set_self]
    · have hx' : ¬ (name = x) := fun e => hx e.symm
      cases hg : PortList.Get service.Ports x with
      | none => simp [hx']
      | some sp => simp [hx', GoMap.get?_set_ne _ _ hx]

theorem requestedPorts_isSome (service : Service) (ports : List String) (name : String) :
    (GoMap.get? (requestedPorts service ports) name).isSome =
      (decide (name ∈ ports) && (PortList.Get service.Ports name).isSome) := by
  unfold requestedPorts
  rw [foldl_requestedPorts_isSome]
  simp [GoMap.get?]

theorem foldl_matching (svcPorts : GoMap String Port) (tagsList : LabelsCollection)
    (all : List ServiceInstance) :
    ∀ acc : List ServiceInstance,
      all.foldl
        (fun instances inst =>
          if !LabelsCollection.HasSubsetOf tagsList inst.Labels then instances
          else
            match GoMap.get? svcPorts inst.Endpoint.ServicePort.Name with
            | some _ => instances ++ [inst]
            | none => instances) acc =
        acc ++ all.filter (fun i =>
          LabelsCollection.HasSubsetOf tagsList i.Labels &&
            (GoMap.get? svcPorts i.Endpoint.ServicePort.Name).isSome) := by
  induction all with
  | nil => intro acc; simp
  | cons x xs ih =>
    intro acc
    simp only [List.foldl_cons, ih, List.filter_cons]
    cases ht : LabelsCollection.HasSubsetOf tagsList x.Labels with
    | false => simp
    | true =>
      cases hg : GoMap.get? svcPorts x.Endpoint.ServicePort.Name with
      | none => simp
      | some sp => simp

theorem matchingInstances_eq (svcPorts : GoMap String Port) (tagsList : LabelsCollection)
    (all : List ServiceInstance) :
    matchingInstances svcPorts tagsList all =
      all.filter (fun i =>
        LabelsCollection.HasSubsetOf tagsList i.Labels &&
          (GoMap.get? svcPorts i.Endpoint.ServicePort.Name).isSome) := by
  unfold matchingInstances
  rw [foldl_matching]
  simp

theorem PortList_Get_isSome_of_mem (ports : Option (List Port)) (sp : Port)
    (h : sp ∈ ports.getD []) : (PortList.Get ports sp.Name).isSome = true := by
  unfold PortList.Get
  rw [List.find?_isSome]
  exact ⟨sp, h, by simp⟩

/-- `Instances` on a hostname whose entry is well formed: the instances of the entry,
in order, that pass the label filter and serve a port whose name was requested. -/
theorem Instances_of_entry (catalog : GoMap Hostname ServiceWithInstances) (h : String)
    (e : ServiceWithInstances) (ports : List String) (tagsList : LabelsCollection)
    (hget : catalog.get? h = some e) (hwf : EntryWF h e) :
    ServiceDiscovery.Instances (.ok catalog) h ports tagsList =
      .ok (e.Instances.filter (fun i =>
        LabelsCollection.HasSubsetOf tagsList i.Labels &&
          decide (i.Endpoint.ServicePort.Name ∈ ports))) := by
  unfold ServiceDiscovery.Instances
  simp only [hget, matchingInstances_eq]
  congr 1
  apply List.filter_congr
  intro i hi
  rw [requestedPorts_isSome, PortList_Get_isSome_of_mem _ _ (hwf.2 i hi).2, Bool.and_true]

theorem find?_services (l : List (Hostname × ServiceWithInstances)) (h : String)
    (hl : ∀ k e, (k, e) ∈ l → e.Service.Hostname = k) :
    (l.map (fun e => e.2.Service)).find? (fun svc => decide (svc.Hostname = h)) =
      (GoMap.get? l h).map (fun e => e.Service) := by
  induction l with
  | nil => rfl
  | cons x xs ih =>
    obtain ⟨k, e⟩ := x
    have hk : e.Service.Hostname = k := hl k e (List.mem_cons_self _ _)
    have ih' := ih (fun k' e' hm => hl k' e' (List.mem_cons_of_mem _ hm))
    by_cases hkh : k = h
    · simp [GoMap.get?, hk, hkh]
    · simp only [List.map_cons, GoMap.get?, hkh, if_false]
      rw [List.find?_cons_of_neg _ (by simp [hk, hkh])]
      exact ih'

theorem GoMap.get?_perm {κ ν : Type} [DecidableEq κ] (l m : GoMap κ ν) (hp : l.Perm m)
    (hn : (GoMap.keys m).Nodup) (k : κ) : GoMap.get? l k = GoMap.get? m k := by
  have hnl : (GoMap.keys l).Nodup := (hp.map Prod.fst).nodup_iff.mpr hn
  cases hm : GoMap.get? m k with
  | some v =>
    exact GoMap.get?_of_mem l k v hnl (hp.mem_iff.mpr (GoMap.mem_of_get? m k v hm))
  | none =>
    cases hl : GoMap.get? l k with
    | none => rfl
    | some v =>
      have := GoMap.get?_of_mem m k v hn (hp.mem_iff.mp (GoMap.mem_of_get? l k v hl))
      rw [hm] at this
      cases this

theorem Services_eq (order : RangeOrder) (catalog : GoMap Hostname ServiceWithInstances) :
    ServiceDiscovery.Services order (.ok catalog) =
      .ok ((order.services catalog).map (fun e => e.2.Service)) := by
  unfold ServiceDiscovery.Services
  have := foldl_append_singleton (fun e : Hostname × ServiceWithInstances => e.2.Service)
    (order.services catalog) []
  simp only [List.nil_append] at this
  simp only [this]

theorem GetService_of_WF (order : RangeOrder) (catalog : GoMap Hostname ServiceWithInstances)
    (hwf : CatalogWF catalog) (h : String) :
    ServiceDiscovery.GetService order (.ok catalog) h =
      .ok ((catalog.get? h).map (fun e => e.Service)) := by
  unfold ServiceDiscovery.GetService
  rw [Services_eq]
  simp only
  have hp := order.services_perm catalog
  rw [find?_services (order.services catalog) h
    (fun k e hm => (hwf.2 k e (hp.mem_iff.mp hm)).1),
    GoMap.get?_perm _ _ hp hwf.1]

/-! ## Controller: lemmas -/

theorem deepEqualList_trans {α : Type} (veq : α → α → Bool)
    (a : List α) :
    ∀ (b c : List α), (∀ x ∈ a, ∀ y z, veq x y = true → veq y z = true → veq x z = true) →
      deepEqualList veq a b = true → deepEqualList veq b c = true →
      deepEqualList veq a c = true := by
  induction a with
  | nil =>
    intro b c _ hab hbc
    cases b with
    | nil => exact hbc
    | cons y ys => simp [deepEqualList] at hab
  | cons x xs ih =>
    intro b c ht hab hbc
    cases b with
    | nil => simp [deepEqualList] at hab
    | cons y ys =>
      cases c with
      | nil => simp [deepEqualList] at hbc
      | cons z zs =>
        simp only [deepEqualList, Bool.and_eq_true] at hab hbc ⊢
        exact ⟨ht x (List.mem_cons_self _ _) y z hab.1 hbc.1,
          ih ys zs (fun w hw => ht w (List.mem_cons_of_mem _ hw)) hab.2 hbc.2⟩

theorem GoMap.deepEqual_trans {κ ν : Type} [DecidableEq κ] (veq : ν → ν → Bool)
    (a b c : GoMap κ ν)
    (ht : ∀ e ∈ a, ∀ y z, veq e.2 y = true → veq y z = true → veq e.2 z = true)
    (hab : GoMap.deepEqual veq a b = true) (hbc : GoMap.deepEqual veq b c = true) :
    GoMap.deepEqual veq a c = true := by
  simp only [GoMap.deepEqual, Bool.and_eq_true, decide_eq_true_eq, List.all_eq_true] at hab hbc ⊢
  refine ⟨hab.1.trans hbc.1, ?_⟩
  intro e he
  have h1 := hab.2 e he
  cases hb : GoMap.get? b e.1 with
  | none => simp [hb] at h1
  | some v =>
    simp only [hb] at h1
    have h2 := hbc.2 (e.1, v) (GoMap.mem_of_get? b e.1 v hb)
    cases hc : GoMap.get? c e.1 with
    | none => simp [hc] at h2
    | some w =>
      simp only [hc] at h2 ⊢
      exact ht e he v w h1 h2

theorem deepEqualInstance_trans (a b c : ServiceInstance)
    (hab : deepEqualInstance a b = true) (hbc : deepEqualInstance b c = true) :
    deepEqualInstance a c = true := by
  simp only [deepEqualInstance, Bool.and_eq_true, decide_eq_true_eq] at hab hbc ⊢
  obtain ⟨⟨⟨h1, h2⟩, h3⟩, h4⟩ := hab
  obtain ⟨⟨⟨g1, g2⟩, g3⟩, g4⟩ := hbc
  refine ⟨⟨⟨h1.trans g1, h2.trans g2⟩, ?_⟩, h4.trans g4⟩
  refine GoMap.deepEqual_trans _ a.Labels b.Labels c.Labels ?_ h3 g3
  intro e _ y z hy hz
  simp only [decide_eq_true_eq] at hy hz ⊢
  exact hy.trans hz

theorem deepEqualEntry_trans (a b c : ServiceWithInstances)
    (hab : deepEqualEntry a b = true) (hbc : deepEqualEntry b c = true) :
    deepEqualEntry a c = true := by
  simp only [deepEqualEntry, Bool.and_eq_true, decide_eq_true_eq] at hab hbc ⊢
  refine ⟨hab.1.trans hbc.1, ?_⟩
  exact deepEqualList_trans deepEqualInstance a.Instances b.Instances c.Instances
    (fun x _ y z => deepEqualInstance_trans x y z) hab.2 hbc.2

/-- `DeepEqual` is transitive: a catalog deeply equal to one that is deeply equal to
the baseline is deeply equal to the baseline. -/
theorem DeepEqual_trans (a b : GoMap Hostname ServiceWithInstances)
    (cache : Option (GoMap Hostname ServiceWithInstances))
    (hab : DeepEqual a (some b) = true) (hbc : DeepEqual b cache = true) :
    DeepEqual a cache = true := by
  cases cache with
  | none => simp [DeepEqual] at hbc
  | some c =>
    simp only [DeepEqual] at hab hbc ⊢
    exact GoMap.deepEqual_trans deepEqualEntry a b c
      (fun e _ y z => deepEqualEntry_trans e.2 y z) hab hbc

theorem DeepEqual_set_new (b : GoMap Hostname ServiceWithInstances) (k : Hostname)
    (v : ServiceWithInstances) (hk : b.get? k = none) :
    DeepEqual (b.set k v) (some b) = false := by
  simp [DeepEqual, GoMap.deepEqual, GoMap.set_of_get?_none b k v hk]

theorem count_invocations_service (ss is : List Handler) (h : Handler) :
    (ss.map Invocation.ofService ++ is.map Invocation.ofInstance).count (Invocation.ofService h) =
      ss.count h := by
  rw [List.count_append]
  have h1 : (is.map Invocation.ofInstance).count (Invocation.ofService h) = 0 := by
    rw [List.count_eq_zero]
    simp
  have h2 : (ss.map Invocation.ofService).count (Invocation.ofService h) = ss.count h := by
    induction ss with
    | nil => rfl
    | cons x xs ih =>
      by_cases e : x = h
      · subst e
        simp [ih]
      · have e' : ¬ (Invocation.ofService x = Invocation.ofService h) := by
          intro hx
          cases hx
          exact e rfl
        simp only [List.map_cons, List.count_cons, ih]
        simp [e, e']
  rw [h1, h2, Nat.add_zero]

theorem count_invocations_instance (ss is : List Handler) (h : Handler) :
    (ss.map Invocation.ofService ++ is.map Invocation.ofInstance).count (Invocation.ofInstance h) =
      is.count h := by
  rw [List.count_append]
  have h1 : (ss.map Invocation.ofService).count (Invocation.ofInstance h) = 0 := by
    rw [List.count_eq_zero]
    simp
  have h2 : (is.map Invocation.ofInstance).count (Invocation.ofInstance h) = is.count h := by
    induction is with
    | nil => rfl
    | cons x xs ih =>
      by_cases e : x = h
      · subst e
        simp [ih]
      · have e' : ¬ (Invocation.ofInstance x = Invocation.ofInstance h) := by
          intro hx
          cases hx
          exact e rfl
        simp only [List.map_cons, List.count_cons, ih]
        simp [e, e']
  rw [h1, h2, Nat.zero_add]

/-! ## Properties of the allocator, the projector and the cache -/

/-- C1: on a store created by `NewVIPStore`, after any request sequence `pre`, if
`Get h` succeeds with address `a`, then after any further request sequence `mid`
(other hostnames or `h` itself, successful or failing) `Get h` succeeds again,
returns the same `a` and leaves the store as it is. -/
theorem vipStore_Get_stable (pre mid : List Hostname) (h : Hostname) (a : VirtualIP)
    (hok : ((NewVIPStore.GetAll pre).2.Get h).1 = .ok a) :
    (((NewVIPStore.GetAll pre).2.Get h).2.GetAll mid).2.Get h =
      (.ok a, (((NewVIPStore.GetAll pre).2.Get h).2.GetAll mid).2) :=
  Get_of_reserved _ h a (GetAll_keeps_reserved mid _ h a (Get_ok_reserves _ h a hok))

theorem vipStore_Get_stable_witness :
    ((NewVIPStore.GetAll ["a"]).2.Get "b").1 = .ok "169.254.255.2" ∧
      (((NewVIPStore.GetAll ["a"]).2.Get "b").2.GetAll ["c", "b", "d"]).2.Get "b" =
        (.ok "169.254.255.2", (((NewVIPStore.GetAll ["a"]).2.Get "b").2.GetAll ["c", "b", "d"]).2) :=
  ⟨by decide, vipStore_Get_stable ["a"] ["c", "b", "d"] "b" "169.254.255.2" (by decide)⟩

/-- C2, evaluated on the code: requesting the 257 sample hostnames in order on a new
store, the 255th request fails, the 256th is given 169.254.255.0 and the 257th is
given 169.254.255.1, the address already held by the first hostname: the byte
cursor has wrapped from 255 to 0. -/
theorem vipStore_wraparound_shares_address :
    (NewVIPStore.GetAll (sampleHosts 257)).1.head? = some (.ok "169.254.255.1") ∧
      (NewVIPStore.GetAll (sampleHosts 257)).1.drop 254 =
        [.error vipExhausted, .ok "169.254.255.0", .ok "169.254.255.1"] ∧
      (NewVIPStore.GetAll (sampleHosts 257)).2.reservations.get? (hostN 0) =
        some "169.254.255.1" ∧
      (NewVIPStore.GetAll (sampleHosts 257)).2.reservations.get? (hostN 256) =
        some "169.254.255.1" ∧
      hostN 0 ≠ hostN 256 := by
  have hsplit : sampleHosts 257 = sampleHosts 254 ++ [hostN 254, hostN 255, hostN 256] := by
    rw [sampleHosts_succ 256, sampleHosts_succ 255, sampleHosts_succ 254]
    simp
  have h254 := hostN_not_mem_sampleHosts 254 254 (le_refl _)
  have h255 := hostN_not_mem_sampleHosts 254 255 (by omega)
  have h256 := hostN_not_mem_sampleHosts 254 256 (by omega)
  have hfull := Get_storeOf_full (sampleHosts 254) (hostN 254) h254 (sampleHosts_length 254)
  have hzero := Get_exhaustedStore_fresh (hostN 255) h255
  have hne : hostN 255 ≠ hostN 256 := fun e => absurd (hostN_injective e) (by decide)
  have hq : (GoMap.get? (resFrom 0 (sampleHosts 254) ++ [(hostN 255, "169.254.255.0")])
      (hostN 256) : Option VirtualIP) = none := by
    rw [GoMap.get?_eq_none_iff]
    simp only [GoMap.keys, List.map_append, List.map_cons, List.map_nil, List.mem_append,
      List.mem_singleton, not_or]
    refine ⟨?_, fun e => hne e.symm⟩
    have := resFrom_keys (sampleHosts 254) 0
    simp only [GoMap.keys] at this
    rw [this]
    exact h256
  have hone := Get_fresh
    { reservations := resFrom 0 (sampleHosts 254) ++ [(hostN 255, "169.254.255.0")]
      cursor := 0
      baseAddress := ⟨169, 254, 255, 0⟩ } (hostN 256) hq (by decide)
  have e1 : (IP.String ⟨169, 254, 255, (0 + (0 + 1) % 256) % 256⟩ : String) = "169.254.255.1" := by
    decide
  rw [e1] at hone
  have hm0 : hostN 0 ∈ sampleHosts 254 := by
    simp only [sampleHosts, List.mem_map, List.mem_range]
    exact ⟨0, by omega, rfl⟩
  have hs : sampleHosts 254 = hostN 0 :: (List.map Nat.succ (List.range 253)).map hostN := by
    rw [show sampleHosts 254 = sampleHosts (253 + 1) from rfl, sampleHosts,
      List.range_succ_eq_map, List.map_cons]
  have hidx : (sampleHosts 254).indexOf (hostN 0) = 0 := by
    rw [hs, List.indexOf_cons_self]
  have ev1 : vipAddr (0 + 1) = "169.254.255.1" := by decide
  have hres0 : (GoMap.get? (resFrom 0 (sampleHosts 254)) (hostN 0) : Option VirtualIP) =
      some "169.254.255.1" := by
    rw [resFrom_get?_mem _ 0 _ hm0, hidx]
    exact congrArg some ev1
  have hrun : NewVIPStore.GetAll (sampleHosts 257) =
      ((sampleHosts 254).map (fun h => .ok (vipAddr ((sampleHosts 254).indexOf h + 1))) ++
          [.error vipExhausted, .ok "169.254.255.0", .ok "169.254.255.1"],
        { reservations := GoMap.set
            (resFrom 0 (sampleHosts 254) ++ [(hostN 255, "169.254.255.0")]) (hostN 256)
            "169.254.255.1"
          cursor := 1
          baseAddress := ⟨169, 254, 255, 0⟩ }) := by
    rw [hsplit, GetAll_append, GetAll_sampleHosts_254]
    simp only [vipStore.GetAll, hfull]
    have hz : vipStore.Get { storeOf (sampleHosts 254) with cursor := 255 } (hostN 255) =
        exhaustedStore.Get (hostN 255) := rfl
    rw [hz, hzero]
    simp only [hone]
  have hne0 : hostN 256 ≠ hostN 0 := fun e => absurd (hostN_injective e) (by decide)
  rw [hrun]
  refine ⟨?_, ?_, ?_, ?_, fun e => hne0 e.symm⟩
  · show List.head? (List.map _ (sampleHosts 254) ++ _) = _
    rw [hs]
    simp only [List.map_cons, List.cons_append, List.head?_cons, List.indexOf_cons_self, ev1]
  · exact List.drop_left' (by rw [List.length_map, sampleHosts_length])
  · show GoMap.get? (GoMap.set _ (hostN 256) _) (hostN 0) = _
    rw [GoMap.get?_set_ne _ _ hne0]
    exact GoMap.get?_append_of_some _ _ _ _ hres0
  · exact GoMap.get?_set_self _ _ _

/-- C3: on a new store, for a request sequence `reqs` over exactly 254 distinct
hostnames, every request succeeds and the hostname of rank k in order of first
appearance is answered 169.254.255.k at each of its requests; the cursor ends at
254, the count of distinct hostnames and not of requests; a request for any further
hostname `x` then fails with the exhaustion error, and after that failure each of
the 254 hostnames is still answered its original address. -/
theorem vipStore_capacity (reqs : List Hostname) (hlen : (firstSeen reqs).length = 254) :
    (NewVIPStore.GetAll reqs).1 =
        reqs.map (fun h => .ok (vipAddr ((firstSeen reqs).indexOf h + 1))) ∧
      (NewVIPStore.GetAll reqs).2.cursor = 254 ∧
      ∀ x : Hostname, x ∉ reqs →
        ((NewVIPStore.GetAll reqs).2.Get x).1 = .error vipExhausted ∧
        ∀ h ∈ reqs, (((NewVIPStore.GetAll reqs).2.Get x).2.Get h).1 =
          .ok (vipAddr ((firstSeen reqs).indexOf h + 1)) := by
  have hrun := GetAll_storeOf reqs [] List.nodup_nil (by rw [← firstSeen, hlen])
  rw [← firstSeen] at hrun
  have hnew : NewVIPStore = storeOf [] := rfl
  rw [hnew, hrun]
  refine ⟨rfl, by simp [storeOf, hlen], ?_⟩
  intro x hx
  have hx' : x ∉ firstSeen reqs := fun e => hx ((mem_firstSeen reqs x).mp e)
  have hfull := Get_storeOf_full (firstSeen reqs) x hx' hlen
  refine ⟨by simp [hfull], ?_⟩
  intro h hh
  have hm : h ∈ firstSeen reqs := (mem_firstSeen reqs h).mpr hh
  have hres : (storeOf (firstSeen reqs)).reservations.get? h =
      some (vipAddr ((firstSeen reqs).indexOf h + 1)) := by
    simpa [storeOf] using resFrom_get?_mem (firstSeen reqs) 0 h hm
  have hres' := Get_keeps_reserved _ h x _ hres
  show ((vipStore.Get (vipStore.Get (storeOf (firstSeen reqs)) x).2 h).1) = _
  rw [Get_of_reserved _ h _ hres']

theorem vipStore_capacity_witness :
    (firstSeen (sampleHosts 254)).length = 254 ∧
      (NewVIPStore.GetAll (sampleHosts 254)).2.cursor = 254 ∧
      ((NewVIPStore.GetAll (sampleHosts 254)).2.Get (hostN 254)).1 = .error vipExhausted :=
  have hlen : (firstSeen (sampleHosts 254)).length = 254 := by
    rw [firstSeen_of_nodup _ (sampleHosts_nodup 254), sampleHosts_length]
  ⟨hlen, (vipStore_capacity (sampleHosts 254) hlen).2.1,
    ((vipStore_capacity (sampleHosts 254) hlen).2.2 (hostN 254)
      (hostN_not_mem_sampleHosts 254 254 (le_refl _))).1⟩

/-- C4, evaluated on the code: after the 254 sample hostnames are reserved on a new
store, a request for a further hostname fails with the exhaustion error, but the
same request repeated succeeds with 169.254.255.0 and adds a 255th binding to the
reservation table: the byte cursor has wrapped from 255 to 0. -/
theorem vipStore_allocates_after_exhaustion :
    (NewVIPStore.GetAll (sampleHosts 254)).2.reservations.keys = sampleHosts 254 ∧
      ((NewVIPStore.GetAll (sampleHosts 254)).2.Get (hostN 254)).1 = .error vipExhausted ∧
      ((((NewVIPStore.GetAll (sampleHosts 254)).2.Get (hostN 254)).2.Get (hostN 254)).1 =
        .ok "169.254.255.0") ∧
      (((NewVIPStore.GetAll (sampleHosts 254)).2.Get (hostN 254)).2.Get
        (hostN 254)).2.reservations.keys = sampleHosts 254 ++ [hostN 254] := by
  have h254 := hostN_not_mem_sampleHosts 254 254 (le_refl _)
  have hfull := Get_storeOf_full (sampleHosts 254) (hostN 254) h254 (sampleHosts_length 254)
  have hzero := Get_exhaustedStore_fresh (hostN 254) h254
  have hz : vipStore.Get { storeOf (sampleHosts 254) with cursor := 255 } (hostN 254) =
      exhaustedStore.Get (hostN 254) := rfl
  have hk := resFrom_keys (sampleHosts 254) 0
  rw [GetAll_sampleHosts_254]
  refine ⟨hk, ?_, ?_, ?_⟩
  · rw [hfull]
  · rw [hfull, hz, hzero]
  · rw [hfull, hz, hzero]
    simp only [GoMap.keys] at hk
    simp [GoMap.keys, hk]

/-- C5: when `GetServiceInstances` succeeds for deployment `d`, group `g` and an
instance group, the keys of the returned map are pairwise distinct and are exactly
the strings `p.g.d.boshy` for the process names `p` of the processes on the group's
VMs, and every entry stored under a key `k` has `Service.Hostname = k`. -/
theorem GetServiceInstances_keys (s s' : vipStore) (d : DeploymentName) (g : InstanceGroupName)
    (instanceGroup : InstanceGroup) (m : GoMap Hostname ServiceWithInstances)
    (hok : GetServiceInstances s d g instanceGroup = (.ok m, s')) :
    m.keys.Nodup ∧
      (∀ k, k ∈ m.keys ↔
        ∃ vm ∈ instanceGroup.VMs, ∃ p ∈ vm.Processes, k = hostnameFor d g p.Name) ∧
      (∀ k e, (k, e) ∈ m → e.Service.Hostname = k) ∧
      (∀ k e, m.get? k = some e → e.Service.Hostname = k) := by
  obtain ⟨hnd, hkeys, hent⟩ := GetServiceInstances_inv s s' d g instanceGroup m hok
  refine ⟨hnd, ?_, ?_, fun k e h => (hent k e h).1⟩
  · intro k
    rw [hkeys k]
    constructor
    · rintro ⟨q, hq, e⟩
      obtain ⟨vm, hvm, p, hp, rfl⟩ := (mem_groupPairs _ q).mp hq
      exact ⟨vm, hvm, p, hp, by rw [hostnameFor_eq]; exact e.symm⟩
    · rintro ⟨vm, hvm, p, hp, e⟩
      refine ⟨(vm, p), (mem_groupPairs _ _).mpr ⟨vm, hvm, p, hp, rfl⟩, ?_⟩
      rw [e, hostnameFor_eq]
  · intro k e hm
    exact (hent k e (GoMap.get?_of_mem m k e hnd hm)).1

theorem GetServiceInstances_keys_witness :
    GetServiceInstances NewVIPStore "d1" "g1" exampleGroup =
        (.ok exampleCatalog, storeOf ["p1.g1.d1.boshy"]) ∧
      exampleCatalog.keys.Nodup ∧
      (∀ k, k ∈ exampleCatalog.keys ↔
        ∃ vm ∈ exampleGroup.VMs, ∃ p ∈ vm.Processes, k = hostnameFor "d1" "g1" p.Name) ∧
      (∀ k e, (k, e) ∈ exampleCatalog → e.Service.Hostname = k) ∧
      (∀ k e, exampleCatalog.get? k = some e → e.Service.Hostname = k) :=
  ⟨by decide,
    GetServiceInstances_keys NewVIPStore (storeOf ["p1.g1.d1.boshy"]) "d1" "g1" exampleGroup
      exampleCatalog (by decide)⟩

/-- C6: when `GetServiceInstances` succeeds, every entry `e` of the returned map,
stored under a hostname `k`, belongs to a process name `pn` running in the group
with `k = pn.g.d.boshy`; its service's port list is the exposed-port list of job
`pn` (the nil list when the job has no entry), and its instance list is the
concatenation, over the group's VMs in order,
over the VM's processes named `pn`, over the VM's IPs in order, over the exposed
ports of job `pn` in order, of the record with `Endpoint.Address` the IP,
`Endpoint.Port` the port's number, `Endpoint.ServicePort` that port and `Service`
the entry's service (`expectedInstances`). So every instance refers to the entry's
service, serves one of the service's ports at an IP of one of the VMs, and the
list's length is the sum over the VMs of (count of processes named `pn`) × |IPs| ×
|ports|. -/
theorem GetServiceInstances_instances (s s' : vipStore) (d : DeploymentName)
    (g : InstanceGroupName) (instanceGroup : InstanceGroup)
    (m : GoMap Hostname ServiceWithInstances) (k : Hostname) (e : ServiceWithInstances)
    (hok : GetServiceInstances s d g instanceGroup = (.ok m, s'))
    (hk : m.get? k = some e) :
    ∃ pn : String,
      k = hostnameFor d g pn ∧
      (∃ vm ∈ instanceGroup.VMs, ∃ p ∈ vm.Processes, p.Name = pn) ∧
      e.Service.Ports = instanceGroup.ExposedPorts.get? pn ∧
      e.Instances = expectedInstances instanceGroup pn e.Service ∧
      (∀ i ∈ e.Instances,
        i.Service = e.Service ∧ i.Endpoint.ServicePort ∈ e.Service.Ports.getD [] ∧
        i.Endpoint.Port = i.Endpoint.ServicePort.Port ∧
        ∃ vm ∈ instanceGroup.VMs, i.Endpoint.Address ∈ vm.IPs) ∧
      e.Instances.length =
        (instanceGroup.VMs.map (fun vm =>
          (vm.Processes.filter (fun p => p.Name = pn)).length *
            (vm.IPs.length * (e.Service.Ports.getD []).length))).sum := by
  have hinv := GetServiceInstances_inv s s' d g instanceGroup m hok
  have hmem : k ∈ m.keys := (GoMap.mem_keys_iff m k).mpr ⟨e, hk⟩
  obtain ⟨q, hq, hqk⟩ := (hinv.2.1 k).mp hmem
  obtain ⟨vm, hvm, p, hp, rfl⟩ := (mem_groupPairs _ q).mp hq
  subst hqk
  have hports := (hinv.2.2 _ e hk).2.1 p.Name rfl
  have hinst := ProjInv_instances _ instanceGroup m p.Name e hinv hk
  refine ⟨p.Name, (hostnameFor_eq d g p.Name).symm, ⟨vm, hvm, p, hp, rfl⟩, hports, hinst, ?_, ?_⟩
  · intro i hi
    rw [hinst] at hi
    have := mem_expectedInstances instanceGroup p.Name e.Service i hi
    rw [hports]
    exact this
  · rw [hinst, expectedInstances_length, hports]

theorem GetServiceInstances_instances_witness :
    GetServiceInstances NewVIPStore "d1" "g1" exampleGroup =
        (.ok exampleCatalog, storeOf ["p1.g1.d1.boshy"]) ∧
      exampleCatalog.keys = ["p1.g1.d1.boshy"] ∧
      ∃ e, exampleCatalog.get? "p1.g1.d1.boshy" = some e ∧
        e.Service.Ports = some [⟨"client_port", 4222, ProtocolTCP⟩] ∧
        e.Instances.map (fun i => (i.Endpoint.Address, i.Endpoint.Port)) = [("10.0.0.5", 4222)] ∧
        ∃ pn : String,
          "p1.g1.d1.boshy" = hostnameFor "d1" "g1" pn ∧
          (∃ vm ∈ exampleGroup.VMs, ∃ p ∈ vm.Processes, p.Name = pn) ∧
          e.Service.Ports = exampleGroup.ExposedPorts.get? pn ∧
          e.Instances = expectedInstances exampleGroup pn e.Service ∧
          (∀ i ∈ e.Instances,
            i.Service = e.Service ∧ i.Endpoint.ServicePort ∈ e.Service.Ports.getD [] ∧
            i.Endpoint.Port = i.Endpoint.ServicePort.Port ∧
            ∃ vm ∈ exampleGroup.VMs, i.Endpoint.Address ∈ vm.IPs) ∧
          e.Instances.length =
            (exampleGroup.VMs.map (fun vm =>
              (vm.Processes.filter (fun p => p.Name = pn)).length *
                (vm.IPs.length * (e.Service.Ports.getD []).length))).sum :=
  ⟨by decide, by decide, _, rfl, by decide, by decide,
    GetServiceInstances_instances NewVIPStore (storeOf ["p1.g1.d1.boshy"]) "d1" "g1"
      exampleGroup exampleCatalog "p1.g1.d1.boshy" _ (by decide) rfl⟩

/-- C7: when `GetServiceInstances` succeeds and a process `p` running on a VM of the
group has a name with no entry in the group's `ExposedPorts`, the returned map has
an entry for the hostname of `p`, whose service has no ports (its port list is the
nil slice, of length 0) and whose instance list is empty, whatever the VMs and IPs
behind the process. -/
theorem GetServiceInstances_unexposed (s s' : vipStore) (d : DeploymentName)
    (g : InstanceGroupName) (instanceGroup : InstanceGroup)
    (m : GoMap Hostname ServiceWithInstances) (vm : VMInfo) (p : VMInfoProcess)
    (hok : GetServiceInstances s d g instanceGroup = (.ok m, s'))
    (hvm : vm ∈ instanceGroup.VMs) (hp : p ∈ vm.Processes)
    (hnone : instanceGroup.ExposedPorts.get? p.Name = none) :
    ∃ e, m.get? (hostnameFor d g p.Name) = some e ∧ e.Service.Ports = none ∧
      (e.Service.Ports.getD []).length = 0 ∧ e.Instances = [] := by
  have hinv := GetServiceInstances_inv s s' d g instanceGroup m hok
  have hmem : p.Name ++ "." ++ (g ++ "." ++ d ++ ".boshy") ∈ m.keys :=
    (hinv.2.1 _).mpr ⟨(vm, p), (mem_groupPairs _ _).mpr ⟨vm, hvm, p, hp, rfl⟩, rfl⟩
  obtain ⟨e, he⟩ := (GoMap.mem_keys_iff m _).mp hmem
  have hports := (hinv.2.2 _ e he).2.1 p.Name rfl
  have hinst := ProjInv_instances _ instanceGroup m p.Name e hinv he
  have hnil : e.Service.Ports = none := by rw [hports, hnone]
  refine ⟨e, by rw [hostnameFor_eq]; exact he, hnil, by simp [hnil], ?_⟩
  have hlen := expectedInstances_length instanceGroup p.Name e.Service
  rw [← hinst, hnone] at hlen
  have hz : e.Instances.length = 0 := by
    rw [hlen]
    simp
  exact List.length_eq_zero.mp hz

theorem GetServiceInstances_unexposed_witness :
    GetServiceInstances NewVIPStore "d1" "g1" { exampleGroup with ExposedPorts := [] } =
        (.ok [("p1.g1.d1.boshy",
          { Service := { Hostname := "p1.g1.d1.boshy", Address := "169.254.255.1", Ports := none }
            Instances := [] })], storeOf ["p1.g1.d1.boshy"]) ∧
      ∃ e, GoMap.get? [("p1.g1.d1.boshy",
          ({ Service := { Hostname := "p1.g1.d1.boshy", Address := "169.254.255.1", Ports := none }
             Instances := [] } : ServiceWithInstances))] (hostnameFor "d1" "g1" "p1") = some e ∧
        e.Service.Ports = none ∧ (e.Service.Ports.getD []).length = 0 ∧ e.Instances = [] :=
  ⟨by decide,
    GetServiceInstances_unexposed NewVIPStore (storeOf ["p1.g1.d1.boshy"]) "d1" "g1"
      { exampleGroup with ExposedPorts := [] } _ exampleVM ⟨"p1", "running"⟩ (by decide)
      (by decide) (by decide) (by decide)⟩

/-- C8: a call of `GetAllServiceInstances` on a stale or empty cache, with result
`res` and client `c'` afterwards. (a) If listing the deployments fails the result is
that error. (b) If for any single deployment the manifest fetch, the manifest
parse or the instance-info fetch fails, the result is an error. (c) If any
`GetServiceInstances` call of the run fails, its error is the allocator's
exhaustion error and the result is that error. (c') If the allocator's `Get` reports
an error for the hostname of any process `p` of any VM `vm` of any visited instance
group `x`, in the allocator state `s3` the run has reached when `p` is handled (after
the visits `pre`, the VMs `vpre` of the group and the processes `ppre` of `vm`), then
the result is the exhaustion error and the snapshot and its timestamp are left as
they were. (d) A catalog is returned only when the listing succeeded, every
deployment gave its manifest and inventory, and every visit of an instance group
was projected successfully; it is then stored as the snapshot with the new
timestamp. (e) In every failing case no catalog is returned and the snapshot and
its timestamp are left as they were. -/
theorem GetAllServiceInstances_all_or_nothing
    (yamlUnmarshal : String → Except String ManifestWithExposedPorts) (order : RangeOrder)
    (director : Director) (now stamp : Int) (c c' : Client)
    (res : Except String (GoMap Hostname ServiceWithInstances))
    (hstale : c.cacheIsFresh now = false)
    (hr : c.GetAllServiceInstances yamlUnmarshal order director now stamp = (res, c')) :
    (∀ err, director.Deployments = .error err →
      res = .error ("bosh client: " ++ ("getting deployments: " ++ err))) ∧
    (∀ ds dep, director.Deployments = .ok ds → dep ∈ ds →
      ((∃ err, dep.Manifest = .error err) ∨
        (∃ text err, dep.Manifest = .ok text ∧ yamlUnmarshal text = .error err) ∨
        (∃ err, dep.InstanceInfos = .error err)) →
      ∃ err, res = .error err) ∧
    (∀ ad pre x post m1 s1 err, GetDeployments yamlUnmarshal director = .ok ad →
      visits order ad = pre ++ x :: post →
      visitsLoop order pre ([], c.virtualIPs) = (.ok m1, s1) →
      (GetServiceInstances s1 x.1 x.2.1 x.2.2).1 = .error err →
      err = vipExhausted ∧ res = .error ("get service instances: " ++ vipExhausted)) ∧
    (∀ ad pre x post m1 s1 vpre vm vpost m2 s2 ppre p ppost m3 s3 err,
      GetDeployments yamlUnmarshal director = .ok ad →
      visits order ad = pre ++ x :: post →
      visitsLoop order pre ([], c.virtualIPs) = (.ok m1, s1) →
      x.2.2.VMs = vpre ++ vm :: vpost →
      vmLoop (x.2.1 ++ "." ++ x.1 ++ ".boshy") x.2.2 vpre ([], s1) = (.ok m2, s2) →
      vm.Processes = ppre ++ p :: ppost →
      processLoop (x.2.1 ++ "." ++ x.1 ++ ".boshy") x.2.2 vm ppre (m2, s2) = (.ok m3, s3) →
      (s3.Get (p.Name ++ "." ++ (x.2.1 ++ "." ++ x.1 ++ ".boshy"))).1 = .error err →
      res = .error ("get service instances: " ++ vipExhausted) ∧
        c'.allInstancesCache = c.allInstancesCache ∧ c'.cachedFrom = c.cachedFrom) ∧
    (∀ m, res = .ok m →
      ∃ ds ad, director.Deployments = .ok ds ∧
        (∀ dep ∈ ds, ∃ mf vms, GetManifestWithPortExposures yamlUnmarshal dep = .ok mf ∧
          dep.InstanceInfos = .ok vms) ∧
        GetDeployments yamlUnmarshal director = .ok ad ∧
        (∀ pre x post, visits order ad = pre ++ x :: post →
          ∃ m1 s1 mx sx, visitsLoop order pre ([], c.virtualIPs) = (.ok m1, s1) ∧
            GetServiceInstances s1 x.1 x.2.1 x.2.2 = (.ok mx, sx)) ∧
        c'.allInstancesCache = some m ∧ c'.cachedFrom = stamp) ∧
    (∀ err, res = .error err →
      c'.allInstancesCache = c.allInstancesCache ∧ c'.cachedFrom = c.cachedFrom) := by
  rw [GetAllServiceInstances_stale yamlUnmarshal order director now stamp c hstale] at hr
  have hC : ∀ ad pre x post m1 s1 err, GetDeployments yamlUnmarshal director = .ok ad →
      visits order ad = pre ++ x :: post →
      visitsLoop order pre ([], c.virtualIPs) = (.ok m1, s1) →
      (GetServiceInstances s1 x.1 x.2.1 x.2.2).1 = .error err →
      err = vipExhausted ∧ res = .error ("get service instances: " ++ vipExhausted) := by
    intro ad pre x post m1 s1 err had hv hpre hx
    have hE := GetServiceInstances_error s1 x.1 x.2.1 x.2.2 err hx
    refine ⟨hE, ?_⟩
    have hloop := visitsLoop_split_error order pre post x _ m1 s1 err hpre hx
    rw [← hv] at hloop
    simp only [had] at hr
    cases hl : visitsLoop order (visits order ad) ([], c.virtualIPs) with
    | mk r s2 =>
      rw [hl] at hloop
      simp only at hloop
      subst hloop
      simp only [hl, Prod.mk.injEq] at hr
      rw [← hr.1, hE]
  have hE : ∀ err, res = .error err →
      c'.allInstancesCache = c.allInstancesCache ∧ c'.cachedFrom = c.cachedFrom := by
    intro err he
    subst he
    cases hg : GetDeployments yamlUnmarshal director with
    | error e1 =>
      simp only [hg, Prod.mk.injEq] at hr
      rw [← hr.2]
      exact ⟨rfl, rfl⟩
    | ok ad =>
      simp only [hg] at hr
      cases hl : visitsLoop order (visits order ad) ([], c.virtualIPs) with
      | mk r s2 =>
        cases r with
        | error e2 =>
          simp only [hl, Prod.mk.injEq] at hr
          rw [← hr.2]
          exact ⟨rfl, rfl⟩
        | ok m2 => simp [hl] at hr
  refine ⟨?_, ?_, hC, ?_, ?_, hE⟩
  · intro err hd
    simp only [GetDeployments, hd, Prod.mk.injEq] at hr
    exact hr.1.symm
  · intro ds dep hd hdep hbad
    have hbad' : (∃ err, GetManifestWithPortExposures yamlUnmarshal dep = .error err) ∨
        (∃ err, dep.InstanceInfos = .error err) := by
      rcases hbad with h | h | h
      · exact Or.inl ((GetManifest_error_iff yamlUnmarshal dep).mpr (Or.inl h))
      · exact Or.inl ((GetManifest_error_iff yamlUnmarshal dep).mpr (Or.inr h))
      · exact Or.inr h
    obtain ⟨err, he⟩ := deploymentsLoop_error_of_mem yamlUnmarshal ds [] dep hdep hbad'
    simp only [GetDeployments, hd, he, Prod.mk.injEq] at hr
    exact ⟨_, hr.1.symm⟩
  · intro ad pre x post m1 s1 vpre vm vpost m2 s2 ppre p ppost m3 s3 err had hv hpre hvms
      hvpre hps hppre hG
    have hx := GetServiceInstances_of_Get_error s1 x.1 x.2.1 x.2.2 vpre vm vpost m2 s2
      ppre p ppost m3 s3 err hvms hvpre hps hppre hG
    obtain ⟨_, hres⟩ := hC ad pre x post m1 s1 err had hv hpre hx
    exact ⟨hres, hE _ hres⟩
  · intro m hm
    subst hm
    cases hg : GetDeployments yamlUnmarshal director with
    | error e1 => simp [hg] at hr
    | ok ad =>
      simp only [hg] at hr
      cases hl : visitsLoop order (visits order ad) ([], c.virtualIPs) with
      | mk r s2 =>
        cases r with
        | error e2 => simp [hl] at hr
        | ok m2 =>
          simp only [hl, Prod.mk.injEq, Except.ok.injEq] at hr
          obtain ⟨hm2, hc⟩ := hr
          subst hm2
          cases hd : director.Deployments with
          | error e3 => simp [GetDeployments, hd] at hg
          | ok ds =>
            simp only [GetDeployments, hd] at hg
            refine ⟨ds, ad, rfl, (deploymentsLoop_ok yamlUnmarshal ds [] ad hg).1, ?_, ?_, ?_, ?_⟩
            · simp only [GetDeployments, hd, hg]
            · intro pre x post hv
              rw [hv] at hl
              exact visitsLoop_split_ok order pre post x _ _ _ hl
            · rw [← hc]
            · rw [← hc]

theorem GetAllServiceInstances_all_or_nothing_witness :
    (NewClient.cacheIsFresh 0 = false ∧
      NewClient.GetAllServiceInstances rejectYaml storedOrder downDirector 0 0 =
        (.error "bosh client: getting deployments: down", { NewClient with rebuilds := 1 }) ∧
      (∀ err, (.error "bosh client: getting deployments: down" :
          Except String (GoMap Hostname ServiceWithInstances)) = .error err →
        ({ NewClient with rebuilds := 1 } : Client).allInstancesCache =
            NewClient.allInstancesCache ∧
          ({ NewClient with rebuilds := 1 } : Client).cachedFrom = NewClient.cachedFrom)) ∧
    (fullClient.cacheIsFresh 0 = false ∧
      GetDeployments (fun _ => .ok exampleManifest) exampleDirector =
        .ok [("d1", [("g1", exampleGroup)])] ∧
      visits storedOrder [("d1", [("g1", exampleGroup)])] = [] ++ ("d1", "g1", exampleGroup) :: [] ∧
      exampleGroup.VMs = [] ++ exampleVM :: [] ∧
      exampleVM.Processes = [] ++ ⟨"p1", "running"⟩ :: [] ∧
      (fullClient.virtualIPs.Get ("p1" ++ "." ++ ("g1" ++ "." ++ "d1" ++ ".boshy"))).1 =
        .error vipExhausted ∧
      (fullClient.GetAllServiceInstances (fun _ => .ok exampleManifest) storedOrder
          exampleDirector 0 0).1 = .error ("get service instances: " ++ vipExhausted) ∧
      (fullClient.GetAllServiceInstances (fun _ => .ok exampleManifest) storedOrder
          exampleDirector 0 0).2.allInstancesCache = fullClient.allInstancesCache ∧
      (fullClient.GetAllServiceInstances (fun _ => .ok exampleManifest) storedOrder
          exampleDirector 0 0).2.cachedFrom = fullClient.cachedFrom) :=
  ⟨⟨by decide, by decide,
    (GetAllServiceInstances_all_or_nothing rejectYaml storedOrder downDirector 0 0 NewClient
      { NewClient with rebuilds := 1 } (.error "bosh client: getting deployments: down")
      (by decide) (by decide)).2.2.2.2.2⟩,
    rfl, by decide, by decide, rfl, rfl,
    (by
      show ((storeOf (sampleHosts 254)).Get "p1.g1.d1.boshy").1 = .error vipExhausted
      rw [Get_storeOf_full (sampleHosts 254) "p1.g1.d1.boshy" (example_hostname_not_sample 254)
        (sampleHosts_length 254)]),
    (GetAllServiceInstances_all_or_nothing (fun _ => .ok exampleManifest) storedOrder
      exampleDirector 0 0 fullClient
      (fullClient.GetAllServiceInstances (fun _ => .ok exampleManifest) storedOrder
        exampleDirector 0 0).2
      (fullClient.GetAllServiceInstances (fun _ => .ok exampleManifest) storedOrder
        exampleDirector 0 0).1
      rfl Prod.mk.eta.symm).2.2.2.1 [("d1", [("g1", exampleGroup)])] [] ("d1", "g1", exampleGroup) [] []
      fullClient.virtualIPs [] exampleVM [] [] fullClient.virtualIPs [] ⟨"p1", "running"⟩ [] []
      fullClient.virtualIPs vipExhausted (by decide) (by decide) rfl rfl rfl rfl rfl
      (by
        show ((storeOf (sampleHosts 254)).Get "p1.g1.d1.boshy").1 = .error vipExhausted
        rw [Get_storeOf_full (sampleHosts 254) "p1.g1.d1.boshy"
          (example_hostname_not_sample 254) (sampleHosts_length 254)])⟩

/-- C9 as stated fails on the code: with job j listed twice under g1, first with
port p:1 and then with no port, `GetDeployments` succeeds, g1 has a VM and is named
in the manifest, the entry of j with port p:1 is listed under g1, and yet
`ExposedPorts[j]` is the empty list, not the list of that entry's exposures. -/
theorem GetDeployments_duplicate_job :
    GetDeployments (fun _ => .ok dupManifest) exampleDirector =
        .ok [("d1", [("g1", { VMs := [exampleVM], ExposedPorts := [("j", [])] })])] ∧
      (⟨"j", [⟨"p", 1⟩]⟩ : ManifestJob) ∈ jobsOf dupManifest "g1" ∧
      GoMap.get? ([("j", [])] : GoMap JobName (List Port)) "j" = some [] ∧
      ¬ (GoMap.get? ([("j", [])] : GoMap JobName (List Port)) "j" =
        some ((⟨"j", [⟨"p", 1⟩]⟩ : ManifestJob).ExposePorts.map declaredPort)) := by
  decide

/-- C9, amended: when `GetDeployments` succeeds, every deployment `D` of the result,
stored under name `dn`, is built from the parsed manifest `mf` and the inventory
`vms` of a director deployment named `dn`; for every instance group `g` with at
least one VM, `D[g]` exists and holds the VMs of `g` in order, and for every job
entry the manifest lists under `g`, `ExposedPorts` has a binding for the entry's
name: the exposures, in declaration order and each as (name, number, TCP), of the
last entry of that name listed under `g` (an empty, present list when that entry
declares none). When all entries of that name under `g` declare the same
exposures, these are the entry's own. -/
theorem GetDeployments_exposedPorts
    (yamlUnmarshal : String → Except String ManifestWithExposedPorts) (director : Director)
    (ad : AllDeployments) (dn : DeploymentName) (D : Deployment)
    (hok : GetDeployments yamlUnmarshal director = .ok ad) (hD : ad.get? dn = some D) :
    ∃ ds dep mf vms, director.Deployments = .ok ds ∧ dep ∈ ds ∧ dep.Name = dn ∧
      GetManifestWithPortExposures yamlUnmarshal dep = .ok mf ∧ dep.InstanceInfos = .ok vms ∧
      ∀ g, (∃ vm ∈ vms, vm.JobName = g) →
        ∃ ig, D.get? g = some ig ∧ ig.VMs = vms.filter (fun vm => vm.JobName = g) ∧
          ∀ job ∈ jobsOf mf g,
            ∃ last, lastNamed (jobsOf mf g) job.Name = some last ∧
              ig.ExposedPorts.get? job.Name = some (last.ExposePorts.map declaredPort) ∧
              ((∀ other ∈ jobsOf mf g, other.Name = job.Name →
                  other.ExposePorts = job.ExposePorts) →
                ig.ExposedPorts.get? job.Name = some (job.ExposePorts.map declaredPort)) := by
  cases hd : director.Deployments with
  | error e => simp [GetDeployments, hd] at hok
  | ok ds =>
    simp only [GetDeployments, hd] at hok
    rcases (deploymentsLoop_ok yamlUnmarshal ds [] ad hok).2 dn D hD with h | h
    · simp [GoMap.get?] at h
    · obtain ⟨dep, hdep, hn, mf, vms, hm, hi, hDe⟩ := h
      refine ⟨ds, dep, mf, vms, rfl, hdep, hn, hm, hi, ?_⟩
      intro g hg
      refine ⟨_, by rw [hDe]; exact buildDeployment_get? mf vms g hg, rfl, ?_⟩
      intro job hjob
      obtain ⟨last, hlast⟩ := lastNamed_isSome (jobsOf mf g) job hjob
      have hget : GoMap.get? (manifestExposedPorts mf g) job.Name =
          some (last.ExposePorts.map declaredPort) := by
        rw [manifestExposedPorts_eq, get?_foldl_set_jobs, hlast]
        simp [jobExposedPorts_eq]
      refine ⟨last, hlast, hget, ?_⟩
      intro hsame
      have hl := lastNamed_spec _ _ _ hlast
      rw [hget, hsame last hl.1 hl.2]

theorem GetDeployments_exposedPorts_witness :
    GetDeployments (fun _ => .ok dupManifest) exampleDirector =
        .ok [("d1", [("g1", { VMs := [exampleVM], ExposedPorts := [("j", [])] })])] ∧
      ∃ ds dep mf vms, exampleDirector.Deployments = .ok ds ∧ dep ∈ ds ∧ dep.Name = "d1" ∧
        GetManifestWithPortExposures (fun _ => .ok dupManifest) dep = .ok mf ∧
        dep.InstanceInfos = .ok vms ∧
        ∀ g, (∃ vm ∈ vms, vm.JobName = g) →
          ∃ ig, GoMap.get? ([("g1", { VMs := [exampleVM], ExposedPorts := [("j", [])] })] :
              Deployment) g = some ig ∧
            ig.VMs = vms.filter (fun vm => vm.JobName = g) ∧
            ∀ job ∈ jobsOf mf g,
              ∃ last, lastNamed (jobsOf mf g) job.Name = some last ∧
                ig.ExposedPorts.get? job.Name = some (last.ExposePorts.map declaredPort) ∧
                ((∀ other ∈ jobsOf mf g, other.Name = job.Name →
                    other.ExposePorts = job.ExposePorts) →
                  ig.ExposedPorts.get? job.Name = some (job.ExposePorts.map declaredPort)) :=
  ⟨by decide,
    GetDeployments_exposedPorts (fun _ => .ok dupManifest) exampleDirector
      [("d1", [("g1", { VMs := [exampleVM], ExposedPorts := [("j", [])] })])] "d1"
      [("g1", { VMs := [exampleVM], ExposedPorts := [("j", [])] })] (by decide) (by decide)⟩

/-- C10 as stated fails on the code: after a successful cold-start rebuild at time 0,
two calls made after the window has expired, at 10 s and one nanosecond later,
while the upstream is down, each perform a rebuild: three rebuilds in total, two of
them after the expiry and not one. The failed rebuilds leave the snapshot of time 0
in place, so each later call finds it stale again. -/
theorem GetAllServiceInstances_failed_rebuild_retried :
    Client.run rejectYaml storedOrder
        [⟨emptyDirector, 0, 0⟩, ⟨downDirector, 10 * Second, 10 * Second⟩,
          ⟨downDirector, 10 * Second + 1, 10 * Second + 1⟩] NewClient =
      ([.ok [], .error "bosh client: getting deployments: down",
          .error "bosh client: getting deployments: down"],
        { NewClient with allInstancesCache := some [], cachedFrom := 0, rebuilds := 3 }) ∧
      ¬ ((Client.run rejectYaml storedOrder
        [⟨emptyDirector, 0, 0⟩, ⟨downDirector, 10 * Second, 10 * Second⟩,
          ⟨downDirector, 10 * Second + 1, 10 * Second + 1⟩] NewClient).2.rebuilds = 1 + 1) := by
  decide

/-- C10, amended: with the clock an explicit input and calls sequential.
(1) A call that finds a snapshot of age strictly below 10 s returns it as it is and
leaves the client unchanged, so it performs no rebuild. (2) A call that finds no
snapshot or one of age 10 s or more performs exactly one rebuild. (3) When such a
call succeeds with catalog `m`, any number of calls made while the age of its
snapshot is below 10 s all return `m` and leave the client unchanged: that one
rebuild is the only one. (4) A call made after that window has expired performs
exactly one more rebuild; (5) when that rebuild succeeds, the calls within its own
window perform none, so the total stays at two. (6) When the call fails, the
snapshot and its timestamp are left as they were and one rebuild was performed;
after any further calls that all fail they are still as they were, with one rebuild
per call, and the call that follows, at a clock reading not before that of the first
failed call, finds the cache stale and rebuilds again, whether it then succeeds or
fails. -/
theorem GetAllServiceInstances_freshness
    (yamlUnmarshal : String → Except String ManifestWithExposedPorts) (order : RangeOrder)
    (director : Director) (now stamp : Int) (c : Client) :
    (∀ snap, c.allInstancesCache = some snap → now - c.cachedFrom < 10 * Second →
      c.GetAllServiceInstances yamlUnmarshal order director now stamp = (.ok snap, c)) ∧
    ((c.allInstancesCache = none ∨ 10 * Second ≤ now - c.cachedFrom) →
      (c.GetAllServiceInstances yamlUnmarshal order director now stamp).2.rebuilds =
        c.rebuilds + 1) ∧
    (∀ m c1, (c.allInstancesCache = none ∨ 10 * Second ≤ now - c.cachedFrom) →
      c.GetAllServiceInstances yamlUnmarshal order director now stamp = (.ok m, c1) →
      (∀ calls : List Call, (∀ call ∈ calls, call.now - stamp < 10 * Second) →
        Client.run yamlUnmarshal order calls c1 = (calls.map (fun _ => .ok m), c1) ∧
          c1.rebuilds = c.rebuilds + 1) ∧
      (∀ late : Call, 10 * Second ≤ late.now - stamp →
        (c1.GetAllServiceInstances yamlUnmarshal order late.director late.now
            late.stamp).2.rebuilds = c.rebuilds + 2 ∧
        ∀ m2 c2,
          c1.GetAllServiceInstances yamlUnmarshal order late.director late.now late.stamp =
            (.ok m2, c2) →
          ∀ calls : List Call, (∀ call ∈ calls, call.now - late.stamp < 10 * Second) →
            Client.run yamlUnmarshal order calls c2 = (calls.map (fun _ => .ok m2), c2) ∧
              c2.rebuilds = c.rebuilds + 2)) ∧
    (∀ err c1,
      c.GetAllServiceInstances yamlUnmarshal order director now stamp = (.error err, c1) →
      c1.allInstancesCache = c.allInstancesCache ∧ c1.cachedFrom = c.cachedFrom ∧
      c1.rebuilds = c.rebuilds + 1 ∧
      ∀ calls : List Call,
        (∀ r ∈ (Client.run yamlUnmarshal order calls c1).1, ∃ e, r = .error e) →
        (Client.run yamlUnmarshal order calls c1).2.allInstancesCache = c.allInstancesCache ∧
        (Client.run yamlUnmarshal order calls c1).2.cachedFrom = c.cachedFrom ∧
        (Client.run yamlUnmarshal order calls c1).2.rebuilds = c.rebuilds + 1 + calls.length ∧
        ∀ next : Call, now ≤ next.now →
          (Client.run yamlUnmarshal order calls c1).2.cacheIsFresh next.now = false ∧
          ((Client.run yamlUnmarshal order calls c1).2.GetAllServiceInstances yamlUnmarshal
            order next.director next.now next.stamp).2.rebuilds =
              c.rebuilds + 1 + calls.length + 1) := by
  refine ⟨?_, ?_, ?_, ?_⟩
  · intro snap hsnap hage
    exact GetAllServiceInstances_fresh yamlUnmarshal order director now stamp c snap hsnap hage
  · intro hst
    exact GetAllServiceInstances_stale_rebuilds yamlUnmarshal order director now stamp c
      ((cacheIsFresh_eq_false_iff c now).mpr hst)
  · intro m c1 hst hr
    have hstale := (cacheIsFresh_eq_false_iff c now).mpr hst
    obtain ⟨h1, h2, h3⟩ :=
      GetAllServiceInstances_stale_ok yamlUnmarshal order director now stamp c c1 m hstale hr
    constructor
    · intro calls hwin
      exact ⟨run_fresh yamlUnmarshal order c1 m h1 calls (by rw [h2]; exact hwin), h3⟩
    · intro late hlate
      have hstale1 : c1.cacheIsFresh late.now = false :=
        (cacheIsFresh_eq_false_iff c1 late.now).mpr (Or.inr (by rw [h2]; exact hlate))
      constructor
      · rw [GetAllServiceInstances_stale_rebuilds yamlUnmarshal order late.director late.now
          late.stamp c1 hstale1, h3]
      · intro m2 c2 hr2 calls hwin
        obtain ⟨g1, g2, g3⟩ := GetAllServiceInstances_stale_ok yamlUnmarshal order late.director
          late.now late.stamp c1 c2 m2 hstale1 hr2
        exact ⟨run_fresh yamlUnmarshal order c2 m2 g1 calls (by rw [g2]; exact hwin),
          by rw [g3, h3]⟩
  · intro err c1 hr
    have hstale := GetAllServiceInstances_error_stale yamlUnmarshal order director now stamp c c1
      err hr
    obtain ⟨k1, k2, k3⟩ := GetAllServiceInstances_error_keeps yamlUnmarshal order director now
      stamp c c1 err hr
    refine ⟨k1, k2, k3, ?_⟩
    intro calls hall
    obtain ⟨i1, i2, i3⟩ := run_errors yamlUnmarshal order calls c1 hall
    refine ⟨by rw [i1, k1], by rw [i2, k2], by rw [i3, k3], ?_⟩
    intro next hnext
    have hst2 : (Client.run yamlUnmarshal order calls c1).2.cacheIsFresh next.now = false := by
      rw [cacheIsFresh_eq_false_iff, i1, i2, k1, k2]
      rcases (cacheIsFresh_eq_false_iff c now).mp hstale with h | h
      · exact Or.inl h
      · exact Or.inr (by omega)
    refine ⟨hst2, ?_⟩
    rw [GetAllServiceInstances_stale_rebuilds yamlUnmarshal order next.director next.now
      next.stamp _ hst2, i3, k3]

theorem GetAllServiceInstances_freshness_witness :
    (NewClient.GetAllServiceInstances rejectYaml storedOrder emptyDirector 0 0 =
        (.ok [], { NewClient with allInstancesCache := some [], rebuilds := 1 }) ∧
      Client.run rejectYaml storedOrder
          [⟨downDirector, 1, 1⟩, ⟨downDirector, 10 * Second - 1, 10 * Second - 1⟩]
          { NewClient with allInstancesCache := some [], rebuilds := 1 } =
        ([.ok [], .ok []], { NewClient with allInstancesCache := some [], rebuilds := 1 }) ∧
      ({ NewClient with allInstancesCache := some [], rebuilds := 1 } : Client).rebuilds =
        NewClient.rebuilds + 1) ∧
    (({ NewClient with allInstancesCache := some [], rebuilds := 1 } :
          Client).GetAllServiceInstances rejectYaml storedOrder downDirector
          (10 * Second) (10 * Second) =
        (.error "bosh client: getting deployments: down",
          { NewClient with allInstancesCache := some [], rebuilds := 2 }) ∧
      Client.run rejectYaml storedOrder [⟨downDirector, 10 * Second + 1, 10 * Second + 1⟩]
          { NewClient with allInstancesCache := some [], rebuilds := 2 } =
        ([.error "bosh client: getting deployments: down"],
          { NewClient with allInstancesCache := some [], rebuilds := 3 }) ∧
      (10 * Second : Int) ≤ 10 * Second + 2 ∧
      ((Client.run rejectYaml storedOrder [⟨downDirector, 10 * Second + 1, 10 * Second + 1⟩]
            { NewClient with allInstancesCache := some [], rebuilds := 2 }).2.cacheIsFresh
            (10 * Second + 2) = false ∧
        ((Client.run rejectYaml storedOrder [⟨downDirector, 10 * Second + 1, 10 * Second + 1⟩]
            { NewClient with allInstancesCache := some [], rebuilds := 2 }).2.GetAllServiceInstances
            rejectYaml storedOrder emptyDirector (10 * Second + 2) (10 * Second + 2)).2.rebuilds =
          1 + 1 + 1 + 1)) :=
  ⟨⟨by decide,
    ((GetAllServiceInstances_freshness rejectYaml storedOrder emptyDirector 0 0 NewClient).2.2.1
      [] { NewClient with allInstancesCache := some [], rebuilds := 1 } (Or.inl rfl)
      (by decide)).1
      [⟨downDirector, 1, 1⟩, ⟨downDirector, 10 * Second - 1, 10 * Second - 1⟩] (by decide)⟩,
    by decide, by decide, by decide,
    (((GetAllServiceInstances_freshness rejectYaml storedOrder downDirector (10 * Second)
      (10 * Second) { NewClient with allInstancesCache := some [], rebuilds := 1 }).2.2.2
      "bosh client: getting deployments: down"
      { NewClient with allInstancesCache := some [], rebuilds := 2 } (by decide)).2.2.2
      [⟨downDirector, 10 * Second + 1, 10 * Second + 1⟩]
      (by
        intro r hr
        have hrun : (Client.run rejectYaml storedOrder
            [⟨downDirector, 10 * Second + 1, 10 * Second + 1⟩]
            { NewClient with allInstancesCache := some [], rebuilds := 2 }).1 =
            [.error "bosh client: getting deployments: down"] := by decide
        rw [hrun] at hr
        exact ⟨_, List.mem_singleton.mp hr⟩)).2.2.2
      ⟨emptyDirector, 10 * Second + 2, 10 * Second + 2⟩ (by decide)⟩

/-- C11: when the rebuild inside `GetAllServiceInstances` fails, the call returns the
error and leaves the cache as it was: (a) if `GetDeployments` fails with `e`, the
result is the error `bosh client: e`; (b) if a `GetServiceInstances` call of the run
fails with `e`, the result is the error `get service instances: e`; (c) whenever
the result is an error, the snapshot held before the call is still held and the
timestamp `cachedFrom` is not reset. -/
theorem GetAllServiceInstances_failure_keeps_cache
    (yamlUnmarshal : String → Except String ManifestWithExposedPorts) (order : RangeOrder)
    (director : Director) (now stamp : Int) (c c' : Client)
    (res : Except String (GoMap Hostname ServiceWithInstances))
    (hstale : c.cacheIsFresh now = false)
    (hr : c.GetAllServiceInstances yamlUnmarshal order director now stamp = (res, c')) :
    (∀ e, GetDeployments yamlUnmarshal director = .error e →
      res = .error ("bosh client: " ++ e)) ∧
    (∀ ad pre x post m1 s1 e, GetDeployments yamlUnmarshal director = .ok ad →
      visits order ad = pre ++ x :: post →
      visitsLoop order pre ([], c.virtualIPs) = (.ok m1, s1) →
      (GetServiceInstances s1 x.1 x.2.1 x.2.2).1 = .error e →
      res = .error ("get service instances: " ++ e)) ∧
    (∀ err, res = .error err →
      c'.allInstancesCache = c.allInstancesCache ∧ c'.cachedFrom = c.cachedFrom) := by
  refine ⟨?_, ?_, ?_⟩
  · intro e hg
    rw [GetAllServiceInstances_stale yamlUnmarshal order director now stamp c hstale] at hr
    simp only [hg, Prod.mk.injEq] at hr
    exact hr.1.symm
  · intro ad pre x post m1 s1 e hg hv hpre hx
    rw [GetAllServiceInstances_stale yamlUnmarshal order director now stamp c hstale] at hr
    have hloop := visitsLoop_split_error order pre post x _ m1 s1 e hpre hx
    rw [← hv] at hloop
    simp only [hg] at hr
    cases hl : visitsLoop order (visits order ad) ([], c.virtualIPs) with
    | mk r s2 =>
      rw [hl] at hloop
      simp only at hloop
      subst hloop
      simp only [hl, Prod.mk.injEq] at hr
      exact hr.1.symm
  · intro err he
    subst he
    have := GetAllServiceInstances_error_keeps yamlUnmarshal order director now stamp c c' err hr
    exact ⟨this.1, this.2.1⟩

theorem GetAllServiceInstances_failure_keeps_cache_witness :
    ({ NewClient with allInstancesCache := some [], rebuilds := 1 } : Client).cacheIsFresh
        (10 * Second) = false ∧
      ({ NewClient with allInstancesCache := some [], rebuilds := 1 } :
          Client).GetAllServiceInstances rejectYaml storedOrder downDirector (10 * Second)
          (10 * Second) =
        (.error "bosh client: getting deployments: down",
          { NewClient with allInstancesCache := some [], rebuilds := 2 }) ∧
      (∀ err, (.error "bosh client: getting deployments: down" :
          Except String (GoMap Hostname ServiceWithInstances)) = .error err →
        ({ NewClient with allInstancesCache := some [], rebuilds := 2 } :
            Client).allInstancesCache =
            ({ NewClient with allInstancesCache := some [], rebuilds := 1 } :
              Client).allInstancesCache ∧
          ({ NewClient with allInstancesCache := some [], rebuilds := 2 } : Client).cachedFrom =
            ({ NewClient with allInstancesCache := some [], rebuilds := 1 } :
              Client).cachedFrom) :=
  ⟨by decide, by decide,
    (GetAllServiceInstances_failure_keeps_cache rejectYaml storedOrder downDirector
      (10 * Second) (10 * Second) { NewClient with allInstancesCache := some [], rebuilds := 1 }
      { NewClient with allInstancesCache := some [], rebuilds := 2 }
      (.error "bosh client: getting deployments: down") (by decide) (by decide)).2.2⟩

/-- C12 as stated fails on the code: after a successful rebuild at time 0, a call at
10 s with the upstream down returns the error, and the cache afterwards still holds
the snapshot of time 0 with its timestamp: it is not discarded. -/
theorem GetAllServiceInstances_failed_rebuild_keeps_snapshot :
    Client.run rejectYaml storedOrder
        [⟨emptyDirector, 0, 0⟩, ⟨downDirector, 10 * Second, 10 * Second⟩] NewClient =
      ([.ok [], .error "bosh client: getting deployments: down"],
        { NewClient with allInstancesCache := some [], cachedFrom := 0, rebuilds := 2 }) ∧
      ¬ ((Client.run rejectYaml storedOrder
        [⟨emptyDirector, 0, 0⟩, ⟨downDirector, 10 * Second, 10 * Second⟩]
        NewClient).2.allInstancesCache = none) := by
  decide

/-- C12, amended: (1) a call whose rebuild fails returns only the error; it was made
on a stale or empty cache, and afterwards the cache holds what it held before, the
stale snapshot and its timestamp included (nothing is discarded); no later call
with a clock reading not below this one's serves that snapshot: each such call
finds the cache stale again and performs a rebuild of its own. (2) Every catalog
that `GetAllServiceInstances` returns successfully is either the one rebuilt and
stored by that very call, or a snapshot of age below 10 s returned as it is. -/
theorem GetAllServiceInstances_never_serves_stale
    (yamlUnmarshal : String → Except String ManifestWithExposedPorts) (order : RangeOrder)
    (director : Director) (now stamp : Int) (c c' : Client)
    (res : Except String (GoMap Hostname ServiceWithInstances))
    (hr : c.GetAllServiceInstances yamlUnmarshal order director now stamp = (res, c')) :
    (∀ err, res = .error err →
      (c.allInstancesCache = none ∨ 10 * Second ≤ now - c.cachedFrom) ∧
      c'.allInstancesCache = c.allInstancesCache ∧ c'.cachedFrom = c.cachedFrom ∧
      ∀ (director2 : Director) (now2 stamp2 : Int), now ≤ now2 →
        c'.cacheIsFresh now2 = false ∧
        (c'.GetAllServiceInstances yamlUnmarshal order director2 now2 stamp2).2.rebuilds =
          c'.rebuilds + 1) ∧
    (∀ m, res = .ok m →
      ((c.allInstancesCache = none ∨ 10 * Second ≤ now - c.cachedFrom) ∧
          c'.allInstancesCache = some m ∧ c'.cachedFrom = stamp ∧
          c'.rebuilds = c.rebuilds + 1) ∨
        (c.allInstancesCache = some m ∧ now - c.cachedFrom < 10 * Second ∧ c' = c)) := by
  constructor
  · intro err he
    subst he
    have hstale := GetAllServiceInstances_error_stale yamlUnmarshal order director now stamp c c'
      err hr
    have hst := (cacheIsFresh_eq_false_iff c now).mp hstale
    obtain ⟨h1, h2, _⟩ :=
      GetAllServiceInstances_error_keeps yamlUnmarshal order director now stamp c c' err hr
    refine ⟨hst, h1, h2, ?_⟩
    intro director2 now2 stamp2 hle
    have hstale2 : c'.cacheIsFresh now2 = false := by
      rw [cacheIsFresh_eq_false_iff, h1, h2]
      rcases hst with h | h
      · exact Or.inl h
      · exact Or.inr (by omega)
    exact ⟨hstale2, GetAllServiceInstances_stale_rebuilds yamlUnmarshal order director2 now2
      stamp2 c' hstale2⟩
  · intro m hm
    subst hm
    rcases GetAllServiceInstances_ok_cases yamlUnmarshal order director now stamp c c' m hr with
      h | h
    · exact Or.inl ⟨(cacheIsFresh_eq_false_iff c now).mp h.1, h.2⟩
    · exact Or.inr h

theorem GetAllServiceInstances_never_serves_stale_witness :
    ({ NewClient with allInstancesCache := some [], rebuilds := 1 } :
          Client).GetAllServiceInstances rejectYaml storedOrder downDirector (10 * Second)
          (10 * Second) =
        (.error "bosh client: getting deployments: down",
          { NewClient with allInstancesCache := some [], rebuilds := 2 }) ∧
      ({ NewClient with allInstancesCache := some [], rebuilds := 2 } : Client).cacheIsFresh
          (10 * Second + 1) = false ∧
      (({ NewClient with allInstancesCache := some [], rebuilds := 2 } :
          Client).GetAllServiceInstances rejectYaml storedOrder emptyDirector (10 * Second + 1)
          (10 * Second + 1)).2.rebuilds =
        ({ NewClient with allInstancesCache := some [], rebuilds := 2 } : Client).rebuilds + 1 :=
  ⟨by decide,
    ((GetAllServiceInstances_never_serves_stale rejectYaml storedOrder downDirector
      (10 * Second) (10 * Second) { NewClient with allInstancesCache := some [], rebuilds := 1 }
      { NewClient with allInstancesCache := some [], rebuilds := 2 }
      (.error "bosh client: getting deployments: down") (by decide)).1 _ rfl).2.2.2
      emptyDirector (10 * Second + 1) (10 * Second + 1) (by decide)⟩

/-- C13: one successful tick of `Run` as a step on the baseline `cache` and the fetched
catalog. (1) If the fetched catalog is deeply equal to the baseline, no goroutine is
started and the baseline is kept. (2) If it is not, the baseline becomes the fetched
catalog and one goroutine is started per registered service handler and per
registered instance handler, in registration order: every handler is invoked once
per registration, whatever the number of changed entities. (3) So when the next
tick fetches a catalog deeply equal to the one of this tick, the next tick starts
no goroutine and keeps the baseline. (4) A fetched catalog with one hostname added
to the baseline is not deeply equal to it, so that tick invokes every handler once.
(5) In `Run`, a tick changes the state by exactly this step. -/
theorem Controller_observe_change (c : Controller)
    (cache : Option (GoMap Hostname ServiceWithInstances))
    (fetched next : GoMap Hostname ServiceWithInstances) :
    (DeepEqual fetched cache = true → c.observe cache (.ok fetched) = (cache, [])) ∧
    (DeepEqual fetched cache = false →
      c.observe cache (.ok fetched) =
        (some fetched,
          c.serviceHandlers.map Invocation.ofService ++
            c.instanceHandlers.map Invocation.ofInstance) ∧
      ∀ h, (c.observe cache (.ok fetched)).2.count (Invocation.ofService h) =
          c.serviceHandlers.count h ∧
        (c.observe cache (.ok fetched)).2.count (Invocation.ofInstance h) =
          c.instanceHandlers.count h) ∧
    (DeepEqual next (some fetched) = true →
      c.observe (c.observe cache (.ok fetched)).1 (.ok next) =
        ((c.observe cache (.ok fetched)).1, [])) ∧
    (∀ k v, fetched.get? k = none →
      c.observe (some fetched) (.ok (fetched.set k v)) =
        (some (fetched.set k v),
          c.serviceHandlers.map Invocation.ofService ++
            c.instanceHandlers.map Invocation.ofInstance)) ∧
    (∀ (yamlUnmarshal : String → Except String ManifestWithExposedPorts) (order : RangeOrder)
        (st : RunState) (call : Call),
      Controller.step yamlUnmarshal order st (.tick call) =
        { st with
          client := (st.client.GetAllServiceInstances yamlUnmarshal order call.director
            call.now call.stamp).2
          cache := (st.controller.observe st.cache (st.client.GetAllServiceInstances
            yamlUnmarshal order call.director call.now call.stamp).1).1
          started := st.started ++ (st.controller.observe st.cache
            (st.client.GetAllServiceInstances yamlUnmarshal order call.director call.now
              call.stamp).1).2 }) := by
  have heq : DeepEqual fetched cache = true → c.observe cache (.ok fetched) = (cache, []) := by
    intro h
    simp [Controller.observe, Controller.observeWith, h]
  have hne : DeepEqual fetched cache = false →
      c.observe cache (.ok fetched) =
        (some fetched,
          c.serviceHandlers.map Invocation.ofService ++
            c.instanceHandlers.map Invocation.ofInstance) := by
    intro h
    simp [Controller.observe, Controller.observeWith, h]
  refine ⟨heq, ?_, ?_, ?_, ?_⟩
  · intro h
    refine ⟨hne h, ?_⟩
    intro x
    rw [hne h]
    exact ⟨count_invocations_service _ _ x, count_invocations_instance _ _ x⟩
  · intro hnext
    have hb : DeepEqual next (c.observe cache (.ok fetched)).1 = true := by
      cases hd : DeepEqual fetched cache with
      | true =>
        rw [heq hd]
        exact DeepEqual_trans next fetched cache hnext hd
      | false =>
        rw [hne hd]
        exact hnext
    generalize (c.observe cache (.ok fetched)).1 = base at hb ⊢
    simp [Controller.observe, Controller.observeWith, hb]
  · intro k v hk
    have hd := DeepEqual_set_new fetched k v hk
    simp [Controller.observe, Controller.observeWith, hd]
  · intro yamlUnmarshal order st call
    rfl

theorem Controller_observe_change_witness :
    exampleController.observe none (.ok exampleCatalog) =
        (some exampleCatalog,
          [Invocation.ofService 1, Invocation.ofService 2, Invocation.ofInstance 3]) ∧
      DeepEqual exampleCatalog (some exampleCatalog) = true ∧
      exampleController.observe
          (exampleController.observe none (.ok exampleCatalog)).1 (.ok exampleCatalog) =
        ((exampleController.observe none (.ok exampleCatalog)).1, []) :=
  ⟨by decide, by decide,
    (Controller_observe_change exampleController none exampleCatalog exampleCatalog).2.2.1
      (by decide)⟩

/-- C14: a tick of `Run` on which `GetAllServiceInstances` returns an error is
skipped. Whatever comparison `Run` would use, the outcome does not depend on it:
the baseline is kept and no goroutine is started. In `Run`, such a tick changes
only the client (by what the failed fetch did to it): the controller with its
handler lists, the baseline and the goroutines started are as before, `Run` has not
returned, and it goes on with the next signal. -/
theorem Controller_failed_tick_skipped
    (yamlUnmarshal : String → Except String ManifestWithExposedPorts) (order : RangeOrder)
    (st : RunState) (call : Call) (rest : List Signal) (err : String)
    (hrun : st.returned = false)
    (herr : (st.client.GetAllServiceInstances yamlUnmarshal order call.director call.now
      call.stamp).1 = .error err) :
    (∀ compare, st.controller.observeWith compare st.cache (.error err) = (st.cache, [])) ∧
    Controller.step yamlUnmarshal order st (.tick call) =
      { st with
        client := (st.client.GetAllServiceInstances yamlUnmarshal order call.director
          call.now call.stamp).2 } ∧
    (Controller.step yamlUnmarshal order st (.tick call)).controller = st.controller ∧
    (Controller.step yamlUnmarshal order st (.tick call)).cache = st.cache ∧
    (Controller.step yamlUnmarshal order st (.tick call)).started = st.started ∧
    (Controller.step yamlUnmarshal order st (.tick call)).returned = false ∧
    Controller.Run yamlUnmarshal order (.tick call :: rest) st =
      Controller.Run yamlUnmarshal order rest
        { st with
          client := (st.client.GetAllServiceInstances yamlUnmarshal order call.director
            call.now call.stamp).2 } := by
  have hstep : Controller.step yamlUnmarshal order st (.tick call) =
      { st with
        client := (st.client.GetAllServiceInstances yamlUnmarshal order call.director
          call.now call.stamp).2 } := by
    simp [Controller.step, Controller.observe, Controller.observeWith, herr]
  refine ⟨fun compare => rfl, hstep, ?_, ?_, ?_, ?_, ?_⟩
  · rw [hstep]
  · rw [hstep]
  · rw [hstep]
  · rw [hstep]
    exact hrun
  · simp only [Controller.Run, hrun, Bool.false_eq_true, if_false, hstep]

theorem Controller_failed_tick_skipped_witness :
    exampleRunState.returned = false ∧
      (exampleRunState.client.GetAllServiceInstances rejectYaml storedOrder downDirector
        (10 * Second) (10 * Second)).1 = .error "bosh client: getting deployments: down" ∧
      Controller.step rejectYaml storedOrder exampleRunState
          (.tick ⟨downDirector, 10 * Second, 10 * Second⟩) =
        { exampleRunState with
          client := { NewClient with allInstancesCache := some [], rebuilds := 2 } } ∧
      Controller.Run rejectYaml storedOrder
          [.tick ⟨downDirector, 10 * Second, 10 * Second⟩, .stop] exampleRunState =
        { exampleRunState with
          client := { NewClient with allInstancesCache := some [], rebuilds := 2 }
          returned := true } :=
  ⟨rfl, by decide, by decide,
    ((Controller_failed_tick_skipped rejectYaml storedOrder exampleRunState
      ⟨downDirector, 10 * Second, 10 * Second⟩ [.stop]
      "bosh client: getting deployments: down" rfl (by decide)).2.2.2.2.2.2).trans (by decide)⟩

/-- C15: for a catalog returned by `GetAllServiceInstances` on a client that started
as `NewClient`, a hostname `h` with entry `e` in it, any list of requested port
names and the empty label filter, `Instances` returns exactly the instances of `e`,
in their order, whose serving port's name is among the requested names; every
returned instance belongs to the service of hostname `h`; and with no requested
port name the result is empty. -/
theorem ServiceDiscovery_Instances_by_port
    (yamlUnmarshal : String → Except String ManifestWithExposedPorts) (order : RangeOrder)
    (calls : List Call) (director : Director) (now stamp : Int)
    (catalog : GoMap Hostname ServiceWithInstances) (h : String) (e : ServiceWithInstances)
    (ports : List String)
    (hr : ((Client.run yamlUnmarshal order calls NewClient).2.GetAllServiceInstances
      yamlUnmarshal order director now stamp).1 = .ok catalog)
    (hget : catalog.get? h = some e) :
    ServiceDiscovery.Instances (.ok catalog) h ports [] =
        .ok (e.Instances.filter (fun i => decide (i.Endpoint.ServicePort.Name ∈ ports))) ∧
      (∀ i ∈ e.Instances.filter (fun i => decide (i.Endpoint.ServicePort.Name ∈ ports)),
        i.Service = e.Service ∧ i.Service.Hostname = h) ∧
      ServiceDiscovery.Instances (.ok catalog) h [] [] = .ok [] := by
  have hwf := reachable_catalog_WF yamlUnmarshal order calls director now stamp catalog hr
  have he : EntryWF h e := hwf.2 h e (GoMap.mem_of_get? catalog h e hget)
  refine ⟨?_, ?_, ?_⟩
  · rw [Instances_of_entry catalog h e ports [] hget he]
    simp [LabelsCollection.HasSubsetOf]
  · intro i hi
    have := (he.2 i (List.mem_filter.mp hi).1).1
    exact ⟨this, by rw [this]; exact he.1⟩
  · rw [Instances_of_entry catalog h e [] [] hget he]
    simp

theorem ServiceDiscovery_Instances_by_port_witness :
    ((Client.run (fun _ => .ok exampleManifest) storedOrder [] NewClient).2.GetAllServiceInstances
        (fun _ => .ok exampleManifest) storedOrder exampleDirector 0 0).1 = .ok exampleCatalog ∧
      ServiceDiscovery.Instances (.ok exampleCatalog) "p1.g1.d1.boshy" ["client_port"] [] =
        .ok ((exampleCatalog.map (fun e => e.2.Instances)).flatten) ∧
      ServiceDiscovery.Instances (.ok exampleCatalog) "p1.g1.d1.boshy" ["other_port"] [] =
        .ok [] ∧
      ServiceDiscovery.Instances (.ok exampleCatalog) "p1.g1.d1.boshy" [] [] = .ok [] :=
  ⟨by decide, by decide, by decide,
    (ServiceDiscovery_Instances_by_port (fun _ => .ok exampleManifest) storedOrder []
      exampleDirector 0 0 exampleCatalog "p1.g1.d1.boshy"
      { Service :=
          { Hostname := "p1.g1.d1.boshy", Address := "169.254.255.1",
            Ports := some [⟨"client_port", 4222, "TCP"⟩] }
        Instances := (exampleCatalog.map (fun e => e.2.Instances)).flatten }
      ["client_port"] (by decide) (by decide)).2.2⟩

/-- C16: for a catalog returned by `GetAllServiceInstances` on a client that started
as `NewClient`, a hostname `h` with entry `e` in it, any requested port names and
any label filter, `Instances` returns the instances of `e`, in order, that serve a
requested port and whose labels hold every constraint of the filter. With the
filter `{"vm.state": "running"}` an instance is returned exactly when it is an
instance of `e` whose label `vm.state` is `running` and whose serving port's name
was requested: none with another `vm.state` is returned, whatever its other labels,
and none with `running` and a requested port is left out. -/
theorem ServiceDiscovery_Instances_by_labels
    (yamlUnmarshal : String → Except String ManifestWithExposedPorts) (order : RangeOrder)
    (calls : List Call) (director : Director) (now stamp : Int)
    (catalog : GoMap Hostname ServiceWithInstances) (h : String) (e : ServiceWithInstances)
    (ports : List String) (tagsList : LabelsCollection)
    (hr : ((Client.run yamlUnmarshal order calls NewClient).2.GetAllServiceInstances
      yamlUnmarshal order director now stamp).1 = .ok catalog)
    (hget : catalog.get? h = some e) :
    (∃ result, ServiceDiscovery.Instances (.ok catalog) h ports tagsList = .ok result ∧
      ∀ i, i ∈ result ↔
        i ∈ e.Instances ∧ i.Endpoint.ServicePort.Name ∈ ports ∧
          ∀ l ∈ tagsList, ∀ kv ∈ l, GoMap.get? i.Labels kv.1 = some kv.2) ∧
    (∃ result, ServiceDiscovery.Instances (.ok catalog) h ports runningFilter = .ok result ∧
      result = e.Instances.filter (fun i =>
        decide (GoMap.get? i.Labels "vm.state" = some "running") &&
          decide (i.Endpoint.ServicePort.Name ∈ ports)) ∧
      ∀ i, i ∈ result ↔
        i ∈ e.Instances ∧ GoMap.get? i.Labels "vm.state" = some "running" ∧
          i.Endpoint.ServicePort.Name ∈ ports) := by
  have hwf := reachable_catalog_WF yamlUnmarshal order calls director now stamp catalog hr
  have he : EntryWF h e := hwf.2 h e (GoMap.mem_of_get? catalog h e hget)
  constructor
  · refine ⟨_, Instances_of_entry catalog h e ports tagsList hget he, ?_⟩
    intro i
    simp only [List.mem_filter, Bool.and_eq_true, decide_eq_true_eq,
      LabelsCollection.HasSubsetOf, Labels.SubsetOf, List.all_eq_true]
    constructor
    · rintro ⟨h1, h2, h3⟩
      exact ⟨h1, h3, h2⟩
    · rintro ⟨h1, h2, h3⟩
      exact ⟨h1, h3, h2⟩
  · refine ⟨_, Instances_of_entry catalog h e ports runningFilter hget he, ?_, ?_⟩
    · apply List.filter_congr
      intro i _
      simp [runningFilter, LabelsCollection.HasSubsetOf, Labels.SubsetOf]
    · intro i
      simp only [List.mem_filter, Bool.and_eq_true, decide_eq_true_eq, runningFilter,
        LabelsCollection.HasSubsetOf, Labels.SubsetOf, List.all_cons, List.all_nil,
        Bool.and_true]

theorem ServiceDiscovery_Instances_by_labels_witness :
    ((Client.run (fun _ => .ok exampleManifest) storedOrder [] NewClient).2.GetAllServiceInstances
        (fun _ => .ok exampleManifest) storedOrder exampleDirector 0 0).1 = .ok exampleCatalog ∧
      ServiceDiscovery.Instances (.ok exampleCatalog) "p1.g1.d1.boshy" ["client_port"]
          runningFilter = .ok ((exampleCatalog.map (fun e => e.2.Instances)).flatten) ∧
      ServiceDiscovery.Instances (.ok exampleCatalog) "p1.g1.d1.boshy" ["client_port"]
          [[("vm.state", "stopped")]] = .ok [] ∧
      ∃ result, ServiceDiscovery.Instances (.ok exampleCatalog) "p1.g1.d1.boshy"
          ["client_port"] runningFilter = .ok result ∧
        result = ((exampleCatalog.map (fun e => e.2.Instances)).flatten).filter (fun i =>
          decide (GoMap.get? i.Labels "vm.state" = some "running") &&
            decide (i.Endpoint.ServicePort.Name ∈ ["client_port"])) ∧
        ∀ i, i ∈ result ↔
          i ∈ (exampleCatalog.map (fun e => e.2.Instances)).flatten ∧
            GoMap.get? i.Labels "vm.state" = some "running" ∧
            i.Endpoint.ServicePort.Name ∈ ["client_port"] :=
  ⟨by decide, by decide, by decide,
    (ServiceDiscovery_Instances_by_labels (fun _ => .ok exampleManifest) storedOrder []
      exampleDirector 0 0 exampleCatalog "p1.g1.d1.boshy"
      { Service :=
          { Hostname := "p1.g1.d1.boshy", Address := "169.254.255.1",
            Ports := some [⟨"client_port", 4222, "TCP"⟩] }
        Instances := (exampleCatalog.map (fun e => e.2.Instances)).flatten }
      ["client_port"] [] (by decide) (by decide)).2⟩

/-- C17: for the result `fetched` of `GetAllServiceInstances` on a client that started
as `NewClient`, and any string `h`: when `fetched` is a catalog, `GetService`
returns, for every order in which the catalog map is iterated, the service stored
under key `h` if `h` is a key and the not-found result (`nil, nil`) if it is not;
when `fetched` is an error, `GetService` returns that error; so it returns an error
exactly when the cache read fails. -/
theorem ServiceDiscovery_GetService
    (yamlUnmarshal : String → Except String ManifestWithExposedPorts) (order : RangeOrder)
    (calls : List Call) (director : Director) (now stamp : Int) (h : String)
    (iteration : RangeOrder) :
    (∀ catalog,
      ((Client.run yamlUnmarshal order calls NewClient).2.GetAllServiceInstances
        yamlUnmarshal order director now stamp).1 = .ok catalog →
      ServiceDiscovery.GetService iteration (.ok catalog) h =
          .ok ((catalog.get? h).map (fun e => e.Service)) ∧
        (∀ e, catalog.get? h = some e →
          ServiceDiscovery.GetService iteration (.ok catalog) h = .ok (some e.Service)) ∧
        (catalog.get? h = none →
          ServiceDiscovery.GetService iteration (.ok catalog) h = .ok none)) ∧
    (∀ err, ServiceDiscovery.GetService iteration (.error err) h = .error err) ∧
    ((∃ err, ServiceDiscovery.GetService iteration
        ((Client.run yamlUnmarshal order calls NewClient).2.GetAllServiceInstances
          yamlUnmarshal order director now stamp).1 h = .error err) ↔
      ∃ err, ((Client.run yamlUnmarshal order calls NewClient).2.GetAllServiceInstances
        yamlUnmarshal order director now stamp).1 = .error err) := by
  have hok : ∀ catalog,
      ((Client.run yamlUnmarshal order calls NewClient).2.GetAllServiceInstances
        yamlUnmarshal order director now stamp).1 = .ok catalog →
      ServiceDiscovery.GetService iteration (.ok catalog) h =
        .ok ((catalog.get? h).map (fun e => e.Service)) := by
    intro catalog hr
    exact GetService_of_WF iteration catalog
      (reachable_catalog_WF yamlUnmarshal order calls director now stamp catalog hr) h
  refine ⟨?_, fun err => rfl, ?_⟩
  · intro catalog hr
    refine ⟨hok catalog hr, ?_, ?_⟩
    · intro e he
      rw [hok catalog hr, he]
      rfl
    · intro hn
      rw [hok catalog hr, hn]
      rfl
  · cases hf : ((Client.run yamlUnmarshal order calls NewClient).2.GetAllServiceInstances
        yamlUnmarshal order director now stamp).1 with
    | error e1 =>
      constructor
      · intro _
        exact ⟨e1, rfl⟩
      · intro _
        exact ⟨e1, rfl⟩
    | ok catalog =>
      rw [hok catalog hf]
      constructor
      · rintro ⟨err, he⟩
        cases he
      · rintro ⟨err, he⟩
        cases he

theorem ServiceDiscovery_GetService_witness :
    ((Client.run (fun _ => .ok exampleManifest) storedOrder [] NewClient).2.GetAllServiceInstances
        (fun _ => .ok exampleManifest) storedOrder exampleDirector 0 0).1 = .ok exampleCatalog ∧
      ServiceDiscovery.GetService storedOrder (.ok exampleCatalog) "p1.g1.d1.boshy" =
        .ok (some { Hostname := "p1.g1.d1.boshy", Address := "169.254.255.1",
                    Ports := some [⟨"client_port", 4222, "TCP"⟩] }) ∧
      ServiceDiscovery.GetService storedOrder (.ok exampleCatalog) "p2.g1.d1.boshy" =
        .ok none ∧
      (exampleCatalog.get? "p2.g1.d1.boshy" = none →
        ServiceDiscovery.GetService storedOrder (.ok exampleCatalog) "p2.g1.d1.boshy" =
          .ok none) :=
  ⟨by decide, by decide, by decide,
    ((ServiceDiscovery_GetService (fun _ => .ok exampleManifest) storedOrder []
      exampleDirector 0 0 "p2.g1.d1.boshy" storedOrder).1 exampleCatalog (by decide)).2.2⟩

/-- C19, evaluated on the code: on the catalog of the example, which
`GetAllServiceInstances` returns for the example inventory, `Instances` for a
hostname that is not a key ends in the nil-pointer panic, with or without requested
ports, where `GetService` for the same hostname returns the not-found result. -/
theorem ServiceDiscovery_Instances_unknown_hostname :
    (NewClient.GetAllServiceInstances (fun _ => .ok exampleManifest) storedOrder
        exampleDirector 0 0).1 = .ok exampleCatalog ∧
      exampleCatalog.get? "p2.g1.d1.boshy" = none ∧
      ServiceDiscovery.Instances (.ok exampleCatalog) "p2.g1.d1.boshy" [] [] =
        .panic nilDereference ∧
      ServiceDiscovery.Instances (.ok exampleCatalog) "p2.g1.d1.boshy" ["client_port"] [] =
        .panic nilDereference ∧
      ServiceDiscovery.GetService storedOrder (.ok exampleCatalog) "p2.g1.d1.boshy" =
        .ok none := by
  decide

/-- C18: when `GetServiceInstances` succeeds, every instance record `i` of an entry
stored under hostname `k` was emitted for a process `p` on a VM `vm` of the group
with `k` the hostname of `p`; it has `AvailabilityZone = vm.AZ`, and its label map
is exactly: `vm.state = vm.State`, `vm.job_state = vm.ProcessState`,
`process.state = p.State`, `index` the decimal rendering of `vm.Index` if and only
if the VM has an index, `dns-j = vm.DNS[j]` for every position `j` of the DNS list
in positional order, and no other key; each key is bound once. -/
theorem GetServiceInstances_labels (s s' : vipStore) (d : DeploymentName)
    (g : InstanceGroupName) (instanceGroup : InstanceGroup)
    (m : GoMap Hostname ServiceWithInstances) (k : Hostname) (e : ServiceWithInstances)
    (i : ServiceInstance)
    (hok : GetServiceInstances s d g instanceGroup = (.ok m, s'))
    (hk : m.get? k = some e) (hi : i ∈ e.Instances) :
    ∃ vm ∈ instanceGroup.VMs, ∃ p ∈ vm.Processes,
      k = hostnameFor d g p.Name ∧
      i.AvailabilityZone = vm.AZ ∧
      i.Labels = expectedLabels vm p ∧
      (GoMap.keys i.Labels).Nodup ∧
      GoMap.get? i.Labels "vm.state" = some vm.State ∧
      GoMap.get? i.Labels "vm.job_state" = some vm.ProcessState ∧
      GoMap.get? i.Labels "process.state" = some p.State ∧
      GoMap.get? i.Labels "index" = vm.Index.map (fun n => toString n) ∧
      (∀ j : Nat, GoMap.get? i.Labels ("dns-" ++ toString j) = vm.DNS.get? j) ∧
      (∀ key ∈ GoMap.keys i.Labels,
        key = "vm.state" ∨ key = "vm.job_state" ∨ key = "process.state" ∨
          (key = "index" ∧ vm.Index.isSome = true) ∨
          ∃ j : Nat, j < vm.DNS.length ∧ key = "dns-" ++ toString j) := by
  have hinv := GetServiceInstances_inv s s' d g instanceGroup m hok
  obtain ⟨_, _, h3⟩ := hinv.2.2 k e hk
  rw [h3] at hi
  simp only [List.mem_flatMap] at hi
  obtain ⟨q, hq, hiq⟩ := hi
  obtain ⟨vm, hvm, p, hp, rfl⟩ := (mem_groupPairs _ q).mp hq
  by_cases hkq : p.Name ++ "." ++ (g ++ "." ++ d ++ ".boshy") = k
  · simp only [hkq, if_true] at hiq
    obtain ⟨_, _, hl, haz⟩ := mem_emitted instanceGroup e.Service (vm, p) i hiq
    have hl' : i.Labels = expectedLabels vm p := by rw [hl]; exact instanceLabels_eq vm p
    have hnd : (GoMap.keys i.Labels).Nodup := by rw [hl]; exact instanceLabels_keys_nodup vm p
    obtain ⟨g1, g2, g3, g4, g5, g6⟩ := expectedLabels_spec vm p
    refine ⟨vm, hvm, p, hp, by rw [hostnameFor_eq]; exact hkq.symm, haz, hl', hnd, ?_⟩
    rw [hl']
    exact ⟨g1, g2, g3, g4, g5, g6⟩
  · simp [hkq] at hiq

theorem GetServiceInstances_labels_witness :
    GetServiceInstances NewVIPStore "d1" "g1"
        { VMs := [labelledVM], ExposedPorts := [("p1", [⟨"client_port", 4222, "TCP"⟩])] } =
      (.ok [("p1.g1.d1.boshy",
          { Service := labelledInstance.Service, Instances := [labelledInstance] })],
        storeOf ["p1.g1.d1.boshy"]) ∧
      ∃ vm ∈ [labelledVM], ∃ p ∈ vm.Processes,
        "p1.g1.d1.boshy" = hostnameFor "d1" "g1" p.Name ∧
        labelledInstance.AvailabilityZone = vm.AZ ∧
        labelledInstance.Labels = expectedLabels vm p ∧
        (GoMap.keys labelledInstance.Labels).Nodup ∧
        GoMap.get? labelledInstance.Labels "vm.state" = some vm.State ∧
        GoMap.get? labelledInstance.Labels "vm.job_state" = some vm.ProcessState ∧
        GoMap.get? labelledInstance.Labels "process.state" = some p.State ∧
        GoMap.get? labelledInstance.Labels "index" = vm.Index.map (fun n => toString n) ∧
        (∀ j : Nat, GoMap.get? labelledInstance.Labels ("dns-" ++ toString j) = vm.DNS.get? j) ∧
        (∀ key ∈ GoMap.keys labelledInstance.Labels,
          key = "vm.state" ∨ key = "vm.job_state" ∨ key = "process.state" ∨
            (key = "index" ∧ vm.Index.isSome = true) ∨
            ∃ j : Nat, j < vm.DNS.length ∧ key = "dns-" ++ toString j) :=
  ⟨by decide,
    GetServiceInstances_labels NewVIPStore (storeOf ["p1.g1.d1.boshy"]) "d1" "g1"
      { VMs := [labelledVM], ExposedPorts := [("p1", [⟨"client_port", 4222, "TCP"⟩])] }
      [("p1.g1.d1.boshy", { Service := labelledInstance.Service, Instances := [labelledInstance] })]
      "p1.g1.d1.boshy" { Service := labelledInstance.Service, Instances := [labelledInstance] }
      labelledInstance (by decide) (by decide) (by decide)⟩

/-- C20: the hostname `<process>.<group>.<deployment>.boshy` determines the process,
group and deployment names when the process and group names have no `.`. For a
rebuild by `GetAllServiceInstances` on a stale cache whose deployments have no `.`
in any deployment, group or process name, and which returns catalog `m`: at every
visit `x` of the rebuild, (a) the map `GetServiceInstances` makes for `x` has no key
in common with the map it makes for any other visit `y` of the rebuild, from any
allocator states, and (b) the visits before `x` succeed, `GetServiceInstances`
succeeds for `x` with a map `mx` from the allocator state reached then, and every
binding of `mx` is a binding of `m`. This holds for every order in which the maps
are ranged over. Without the precondition it fails: process a.b in group c and
process a in group b.c of deployment d are different triples with the same hostname
a.b.c.d.boshy; each group alone gives that hostname its own entry, and the rebuilt
catalog holds one entry only, that of the group visited last, group b.c when the
groups are visited as stored and group c when they are visited in reverse. -/
theorem GetAllServiceInstances_merge_disjoint
    (yamlUnmarshal : String → Except String ManifestWithExposedPorts) (order : RangeOrder)
    (director : Director) (now stamp : Int) (c : Client)
    (allDeployments : AllDeployments) (m : GoMap Hostname ServiceWithInstances)
    (hstale : c.cacheIsFresh now = false)
    (hd : GetDeployments yamlUnmarshal director = .ok allDeployments)
    (hfree : visitsDotFree (visits order allDeployments))
    (hr : (c.GetAllServiceInstances yamlUnmarshal order director now stamp).1 = .ok m) :
    (∀ d g p d' g' p' : String, dotFree p → dotFree g → dotFree p' → dotFree g' →
      p ++ "." ++ (g ++ "." ++ d ++ ".boshy") = p' ++ "." ++ (g' ++ "." ++ d' ++ ".boshy") →
        p = p' ∧ g = g' ∧ d = d') ∧
    (∀ pre x post, visits order allDeployments = pre ++ x :: post →
      (∀ y ∈ pre ++ post, ∀ sx sx' sy sy' mx my,
        GetServiceInstances sx x.1 x.2.1 x.2.2 = (.ok mx, sx') →
        GetServiceInstances sy y.1 y.2.1 y.2.2 = (.ok my, sy') →
          ∀ k, k ∈ GoMap.keys mx → k ∉ GoMap.keys my) ∧
      ∃ m1 s1 mx sx, visitsLoop order pre ([], c.virtualIPs) = (.ok m1, s1) ∧
        GetServiceInstances s1 x.1 x.2.1 x.2.2 = (.ok mx, sx) ∧
        ∀ k e, GoMap.get? mx k = some e → GoMap.get? m k = some e) ∧
    (("a.b", "c", "d") ≠ ("a", "b.c", "d") ∧
      "a.b" ++ "." ++ ("c" ++ "." ++ "d" ++ ".boshy") =
        "a" ++ "." ++ ("b.c" ++ "." ++ "d" ++ ".boshy") ∧
      GetDeployments (fun _ => .ok clashManifest) clashDirector =
        .ok [("d", [("c", singleGroup "c" "10.0.0.1" "a.b" ⟨"x", 1, "TCP"⟩),
                    ("b.c", singleGroup "b.c" "10.0.0.2" "a" ⟨"y", 2, "TCP"⟩)])] ∧
      (GetServiceInstances NewVIPStore "d" "c"
          (singleGroup "c" "10.0.0.1" "a.b" ⟨"x", 1, "TCP"⟩)).1 =
        .ok [("a.b.c.d.boshy",
          singleEntry "a.b.c.d.boshy" "169.254.255.1" "10.0.0.1" ⟨"x", 1, "TCP"⟩)] ∧
      (GetServiceInstances NewVIPStore "d" "b.c"
          (singleGroup "b.c" "10.0.0.2" "a" ⟨"y", 2, "TCP"⟩)).1 =
        .ok [("a.b.c.d.boshy",
          singleEntry "a.b.c.d.boshy" "169.254.255.1" "10.0.0.2" ⟨"y", 2, "TCP"⟩)] ∧
      (NewClient.GetAllServiceInstances (fun _ => .ok clashManifest) storedOrder
          clashDirector 0 0).1 =
        .ok [("a.b.c.d.boshy",
          singleEntry "a.b.c.d.boshy" "169.254.255.1" "10.0.0.2" ⟨"y", 2, "TCP"⟩)] ∧
      (NewClient.GetAllServiceInstances (fun _ => .ok clashManifest) reversedOrder
          clashDirector 0 0).1 =
        .ok [("a.b.c.d.boshy",
          singleEntry "a.b.c.d.boshy" "169.254.255.1" "10.0.0.1" ⟨"x", 1, "TCP"⟩)]) := by
  refine ⟨?_, ?_, by decide⟩
  · intro d g p d' g' p' hp hg hp' hg' h
    exact hostnameFor_injective d g p d' g' p' hp hg hp' hg'
      (by rw [hostnameFor_eq, hostnameFor_eq]; exact h)
  · intro pre x post hv
    have hwf := GetDeployments_WF yamlUnmarshal director allDeployments hd
    have hnd := visits_pairs_nodup order allDeployments hwf
    have hne := split_pairs_ne (fun v : DeploymentName × InstanceGroupName × InstanceGroup =>
      (v.1, v.2.1)) (visits order allDeployments) pre post x hnd hv
    have hxmem : x ∈ visits order allDeployments := by
      rw [hv]
      exact List.mem_append_right _ (List.mem_cons_self _ _)
    have hymem : ∀ y ∈ pre ++ post, y ∈ visits order allDeployments := by
      intro y hy
      rw [hv]
      rcases List.mem_append.mp hy with h | h
      · exact List.mem_append_left _ h
      · exact List.mem_append_right _ (List.mem_cons_of_mem _ h)
    have hx1 : visitsDotFree [x] := by
      intro v hv1
      rw [List.mem_singleton.mp hv1]
      exact hfree x hxmem
    have hdis : ∀ y ∈ pre ++ post, ∀ sx sx' sy sy' mx my,
        GetServiceInstances sx x.1 x.2.1 x.2.2 = (.ok mx, sx') →
        GetServiceInstances sy y.1 y.2.1 y.2.2 = (.ok my, sy') →
          ∀ k, k ∈ GoMap.keys mx → k ∉ GoMap.keys my := by
      intro y hy sx sx' sy sy' mx my hmx hmy k hk
      have hy1 : visitsDotFree [y] := by
        intro v hv1
        rw [List.mem_singleton.mp hv1]
        exact hfree y (hymem y hy)
      exact GetServiceInstances_keys_disjoint x y hx1 hy1 (fun e => hne y hy e.symm)
        sx sx' sy sy' mx my hmx hmy k hk
    refine ⟨hdis, ?_⟩
    rw [GetAllServiceInstances_stale yamlUnmarshal order director now stamp c hstale] at hr
    simp only [hd] at hr
    cases hl : visitsLoop order (visits order allDeployments) ([], c.virtualIPs) with
    | mk r s2 =>
      cases r with
      | error e2 => simp [hl] at hr
      | ok m2 =>
        simp only [hl, Except.ok.injEq] at hr
        subst hr
        rw [hv] at hl
        obtain ⟨m1, s1, mx, sx, hpre, hx⟩ := visitsLoop_split_ok order pre post x _ m2 s2 hl
        refine ⟨m1, s1, mx, sx, hpre, hx, ?_⟩
        intro k e hk
        rw [visitsLoop_append] at hl
        simp only [hpre, visitsLoop, hx] at hl
        have hkm : k ∈ GoMap.keys mx := (GoMap.mem_keys_iff mx k).mpr ⟨e, hk⟩
        rw [visitsLoop_keeps order k post _ m2 s2
          (fun y hy s0 s1' my hmy =>
            hdis y (List.mem_append_right _ hy) s1 sx s0 s1' mx my hx hmy k hkm) hl]
        exact mergeServices_get?_of_mem order m1 mx k e
          (GetServiceInstances_WF _ _ _ _ _ _ hx).1 hk

theorem GetAllServiceInstances_merge_disjoint_witness :
    NewClient.cacheIsFresh 0 = false ∧
      GetDeployments (fun _ => .ok pairManifest) pairDirector = .ok pairDeployments ∧
      visitsDotFree (visits storedOrder pairDeployments) ∧
      (NewClient.GetAllServiceInstances (fun _ => .ok pairManifest) storedOrder
        pairDirector 0 0).1 = .ok pairCatalog ∧
      (∀ pre x post, visits storedOrder pairDeployments = pre ++ x :: post →
        (∀ y ∈ pre ++ post, ∀ sx sx' sy sy' mx my,
          GetServiceInstances sx x.1 x.2.1 x.2.2 = (.ok mx, sx') →
          GetServiceInstances sy y.1 y.2.1 y.2.2 = (.ok my, sy') →
            ∀ k, k ∈ GoMap.keys mx → k ∉ GoMap.keys my) ∧
        ∃ m1 s1 mx sx, visitsLoop storedOrder pre ([], NewClient.virtualIPs) = (.ok m1, s1) ∧
          GetServiceInstances s1 x.1 x.2.1 x.2.2 = (.ok mx, sx) ∧
          ∀ k e, GoMap.get? mx k = some e → GoMap.get? pairCatalog k = some e) :=
  ⟨by decide, by decide, by decide, by decide,
    (GetAllServiceInstances_merge_disjoint (fun _ => .ok pairManifest) storedOrder pairDirector
      0 0 NewClient pairDeployments pairCatalog (by decide) (by decide) (by decide)
      (by decide)).2.1⟩

end Bosh
